import Mathlib

/-! The fixture compiler `rfc4408-tests.c`, embedded in Lean.

A shallow embedding of `regress/rfc4408-tests.c`: the event gate (`expect`,
`discard`, the `SET` / `INSET` macros), the scalar folder (`nextscalar`), the
test builder (`nexttest`), the segmented-text reader (`nextspf`), the zone
builder (`nextzonedata`), the section builder (`nextsection`) and the driver
loop of `main`.

Modelling conventions.

* The libyaml parser is a list of events still to be delivered.
  `yaml_parser_parse` hands out the head of the list; on the empty list it
  reports failure, which the source turns into a failed `assert`.
* `panic(...)` and a failed `assert(...)` both end the process: `Outcome.fatal`.
  Assertions are taken to be compiled in (no `NDEBUG`), and `malloc`, `strdup`
  and `realloc` are taken to succeed.
* Reading the scalar payload of an event that is not a scalar (only the zeroed
  `YAML_NO_EVENT` can get through the gate at such a place) passes a null
  pointer to a string function: `Outcome.undef`.  A `memcpy` that would leave
  the destination array is `Outcome.undef` as well.
* A C string is a `String`, one `Char` per `char`; scalar text is NUL free, so
  `strlen` and `SCALAR_LEN` coincide with `String.length`.  A `char *` that may
  be null is an `Option String`.
* `size_t` is 64 bits wide.
* The functions of `dns.h`, `cache.h` and libc that the file calls
  (`dns_itype`, `dns_d_init`, `dns_any_init`, `inet_pton`, `atoi`,
  `cache_open`, `cache_insert`) are not part of the file; they are the fields
  of `Library`, a parameter of the zone builder.
* The field `mx.preference` of `union dns_any` is declared in `dns.h` as an
  `unsigned short`; the assignment of line 329 is `mx_preference`, the value
  modulo `2 ^ 16`.
* A `while` loop whose body calls other builders is `whileLoop step`, where
  `step` is one evaluation of the loop condition followed by the body.
-/

namespace Rfc4408

/-! ## Outcomes -/

/-- How a routine of the program ends. -/
inductive Outcome (α : Type) where
  /-- The routine returns. -/
  | ok (a : α)
  /-- The process is terminated by `panic` or by a failed `assert`. -/
  | fatal
  /-- The routine has undefined behaviour. -/
  | undef
  /-- The iteration budget of `loopFuel` is used up. -/
  | nofuel
deriving DecidableEq, Repr

/-- Sequencing of routines: anything but a return ends the run. -/
def Outcome.bind {α β : Type} (x : Outcome α) (f : α → Outcome β) : Outcome β :=
  match x with
  | .ok a => f a
  | .fatal => .fatal
  | .undef => .undef
  | .nofuel => .nofuel

instance : Monad Outcome where
  pure := Outcome.ok
  bind := Outcome.bind

/-! ## Events and the event gate -/

/-- The event delivered by `yaml_parser_parse`; only a scalar carries text. -/
inductive yaml_event_t where
  | no_event
  | stream_start
  | stream_end
  | document_start
  | document_end
  | alias
  | scalar (value : String)
  | sequence_start
  | sequence_end
  | mapping_start
  | mapping_end
deriving DecidableEq, Repr

abbrev YAML_NO_EVENT : Nat := 0
abbrev YAML_STREAM_START_EVENT : Nat := 1
abbrev YAML_STREAM_END_EVENT : Nat := 2
abbrev YAML_DOCUMENT_START_EVENT : Nat := 3
abbrev YAML_DOCUMENT_END_EVENT : Nat := 4
abbrev YAML_ALIAS_EVENT : Nat := 5
abbrev YAML_SCALAR_EVENT : Nat := 6
abbrev YAML_SEQUENCE_START_EVENT : Nat := 7
abbrev YAML_SEQUENCE_END_EVENT : Nat := 8
abbrev YAML_MAPPING_START_EVENT : Nat := 9
abbrev YAML_MAPPING_END_EVENT : Nat := 10

/-- The field `event.type`, as the value of the `yaml_event_type_t` enumerator. -/
def yaml_event_t.type : yaml_event_t → Nat
  | .no_event => YAML_NO_EVENT
  | .stream_start => YAML_STREAM_START_EVENT
  | .stream_end => YAML_STREAM_END_EVENT
  | .document_start => YAML_DOCUMENT_START_EVENT
  | .document_end => YAML_DOCUMENT_END_EVENT
  | .alias => YAML_ALIAS_EVENT
  | .scalar _ => YAML_SCALAR_EVENT
  | .sequence_start => YAML_SEQUENCE_START_EVENT
  | .sequence_end => YAML_SEQUENCE_END_EVENT
  | .mapping_start => YAML_MAPPING_START_EVENT
  | .mapping_end => YAML_MAPPING_END_EVENT

/-- The parser state: the events not yet delivered. -/
abbrev yaml_parser_t : Type := List yaml_event_t

/-- One pull from the event source; `none` is the return value 0. -/
def yaml_parser_parse : yaml_parser_t → Option (yaml_event_t × yaml_parser_t)
  | [] => none
  | event :: parser => some (event, parser)

/-- The macro `SET4(a, b, c, d, ...)`. -/
def SET4 (a b c d : Nat) : Nat :=
  (1 <<< a) ||| (1 <<< b) ||| (1 <<< c) ||| (1 <<< d)

/-- The macro `SET(...)`, that is `SET4(__VA_ARGS__, 0, 0, 0)`: the arguments
are padded with three zeros and the first four are used. -/
def SET (args : List Nat) : Nat :=
  match args ++ [0, 0, 0] with
  | a :: b :: c :: d :: _ => SET4 a b c d
  | _ => 0

/-- The macro `INSET(set, x)`. -/
def INSET (set x : Nat) : Nat :=
  set &&& (1 <<< x)

/-- The function `expect`: pull one event, die unless its kind is in `set`. -/
def expect (parser : yaml_parser_t) (set : Nat) : Outcome (yaml_event_t × yaml_parser_t) :=
  match yaml_parser_parse parser with
  | none => .fatal
  | some (event, parser) =>
    if INSET set event.type = 0 then .fatal else .ok (event, parser)

/-- The function `discard`: `expect`, then drop the event. -/
def discard (parser : yaml_parser_t) (set : Nat) : Outcome yaml_parser_t :=
  (expect parser set).bind fun r => .ok r.2

/-! ## While loops -/

/-- Run `step` at most `fuel` times: `Sum.inl` asks for another iteration with
the new loop state, `Sum.inr` leaves the loop. -/
def loopFuel {σ ρ : Type} (step : σ → yaml_parser_t → Outcome ((σ ⊕ ρ) × yaml_parser_t)) :
    Nat → σ → yaml_parser_t → Outcome (ρ × yaml_parser_t)
  | 0, _, _ => .nofuel
  | fuel + 1, s, parser =>
    match step s parser with
    | .ok (.inl s', parser') => loopFuel step fuel s' parser'
    | .ok (.inr r, parser') => .ok (r, parser')
    | .fatal => .fatal
    | .undef => .undef
    | .nofuel => .nofuel

/-- A `while` loop over the event stream.  Every iteration of every loop in the
file pulls at least one event, so one more iteration than there are events is
enough (`whileLoop_eq`). -/
def whileLoop {σ ρ : Type} (step : σ → yaml_parser_t → Outcome ((σ ⊕ ρ) × yaml_parser_t))
    (s : σ) (parser : yaml_parser_t) : Outcome (ρ × yaml_parser_t) :=
  loopFuel step (parser.length + 1) s parser

/-- Every turn of the loop that returns has pulled at least one event. -/
def Consumes {σ ρ : Type} (step : σ → yaml_parser_t → Outcome ((σ ⊕ ρ) × yaml_parser_t)) :
    Prop :=
  ∀ s parser x parser', step s parser = .ok (x, parser') → parser'.length < parser.length

/-! ## Scalar folder -/

/-- One turn of the loop of `nextscalar` (lines 184 to 189): the buffer `*dst`
grows by the bytes of the scalar. -/
def nextscalar_step (dst : Option String) (parser : yaml_parser_t) :
    Outcome ((Option String ⊕ Option String) × yaml_parser_t) :=
  match expect parser (SET [YAML_SCALAR_EVENT, YAML_SEQUENCE_END_EVENT]) with
  | .ok (.scalar value, parser) => .ok (.inl (some (dst.getD "" ++ value)), parser)
  | .ok (_, parser) => .ok (.inr dst, parser)
  | .fatal => .fatal
  | .undef => .undef
  | .nofuel => .nofuel

/-- The function `nextscalar`; the result is `*dst`, null when the value is a
sequence without a scalar. -/
def nextscalar (parser : yaml_parser_t) : Outcome (Option String × yaml_parser_t) :=
  match expect parser (SET [YAML_SCALAR_EVENT, YAML_SEQUENCE_START_EVENT]) with
  | .ok (.scalar value, parser) => .ok (some value, parser)
  | .ok (_, parser) => whileLoop nextscalar_step none parser
  | .fatal => .fatal
  | .undef => .undef
  | .nofuel => .nofuel

/-! ## Test builder -/

/-- The record `struct test`; `result` is the array `char *result[2]`. -/
structure struct_test where
  name : Option String := none
  descr : Option String := none
  comment : Option String := none
  spec : Option String := none
  helo : Option String := none
  host : Option String := none
  mailfrom : Option String := none
  result : List (Option String) := [none, none]
  rcount : Nat := 0
  exp : Option String := none
deriving DecidableEq, Repr

/-- One turn of the loop over a `result` sequence (lines 236 to 239);
`lengthof(test->result)` is 2. -/
def nexttest_result_step (test : struct_test) (parser : yaml_parser_t) :
    Outcome ((struct_test ⊕ struct_test) × yaml_parser_t) :=
  match expect parser (SET [YAML_SCALAR_EVENT, YAML_SEQUENCE_END_EVENT]) with
  | .ok (.scalar value, parser) =>
    if test.rcount < 2 then
      .ok (.inl { test with result := test.result.set test.rcount (some value),
                            rcount := test.rcount + 1 }, parser)
    else .fatal
  | .ok (_, parser) => .ok (.inr test, parser)
  | .fatal => .fatal
  | .undef => .undef
  | .nofuel => .nofuel

/-- The value of a `result` key (lines 232 to 240). -/
def nexttest_result (test : struct_test) (parser : yaml_parser_t) :
    Outcome (struct_test × yaml_parser_t) :=
  match expect parser (SET [YAML_SCALAR_EVENT, YAML_SEQUENCE_START_EVENT]) with
  | .ok (.scalar value, parser) =>
    .ok ({ test with result := test.result.set 0 (some value), rcount := 1 }, parser)
  | .ok (_, parser) => whileLoop nexttest_result_step test parser
  | .fatal => .fatal
  | .undef => .undef
  | .nofuel => .nofuel

/-- The dispatch on the field name `txt` (lines 219 to 246). -/
def nexttest_field (test : struct_test) (txt : String) (parser : yaml_parser_t) :
    Outcome (struct_test × yaml_parser_t) :=
  if txt = "description" then
    (nextscalar parser).bind fun r => .ok ({ test with descr := r.1 }, r.2)
  else if txt = "comment" then
    (nextscalar parser).bind fun r => .ok ({ test with comment := r.1 }, r.2)
  else if txt = "spec" then
    (nextscalar parser).bind fun r => .ok ({ test with spec := r.1 }, r.2)
  else if txt = "helo" then
    (nextscalar parser).bind fun r => .ok ({ test with helo := r.1 }, r.2)
  else if txt = "host" then
    (nextscalar parser).bind fun r => .ok ({ test with host := r.1 }, r.2)
  else if txt = "mailfrom" then
    (nextscalar parser).bind fun r => .ok ({ test with mailfrom := r.1 }, r.2)
  else if txt = "result" then
    nexttest_result test parser
  else if txt = "explanation" then
    (nextscalar parser).bind fun r => .ok ({ test with exp := r.1 }, r.2)
  else
    (discard parser (SET [YAML_SCALAR_EVENT])).bind fun parser => .ok (test, parser)

/-- One turn of the field loop of `nexttest` (lines 216 to 249). -/
def nexttest_step (test : struct_test) (parser : yaml_parser_t) :
    Outcome ((struct_test ⊕ struct_test) × yaml_parser_t) :=
  match expect parser (SET [YAML_SCALAR_EVENT, YAML_MAPPING_END_EVENT]) with
  | .ok (.scalar txt, parser) =>
    (nexttest_field test txt parser).bind fun r => .ok (.inl r.1, r.2)
  | .ok (_, parser) => .ok (.inr test, parser)
  | .fatal => .fatal
  | .undef => .undef
  | .nofuel => .nofuel

/-- The function `nexttest`; `none` is the null pointer returned at the end of
the test list. -/
def nexttest (parser : yaml_parser_t) : Outcome (Option struct_test × yaml_parser_t) :=
  match expect parser (SET [YAML_SCALAR_EVENT, YAML_MAPPING_END_EVENT]) with
  | .ok (.mapping_end, parser) => .ok (none, parser)
  | .ok (.scalar value, parser) =>
    (discard parser (SET [YAML_MAPPING_START_EVENT])).bind fun parser =>
    (whileLoop nexttest_step { name := some value } parser).bind fun r =>
    .ok (some r.1, r.2)
  | .ok (_, _) => .undef
  | .fatal => .fatal
  | .undef => .undef
  | .nofuel => .nofuel

/-! ## Segmented text -/

/-- The record `struct dns_txt`: capacity, logical length and the byte array
`data`, whose length is `sizeof txt->data`. -/
structure dns_txt where
  size : Nat
  len : Nat
  data : List Char
deriving DecidableEq, Repr

/-- The modulus of `size_t` arithmetic. -/
abbrev SIZE_MOD : Nat := 2 ^ 64

/-- Subtraction of two `size_t` values. -/
def size_sub (a b : Nat) : Nat :=
  (a % SIZE_MOD + (SIZE_MOD - b % SIZE_MOD)) % SIZE_MOD

/-- Addition of two `size_t` values. -/
def size_add (a b : Nat) : Nat :=
  (a + b) % SIZE_MOD

/-- Copy `src` into the array `dst` at offset `off`; `none` when the copy would
run past the end of the array. -/
def memcpy (dst : List Char) (off : Nat) (src : List Char) : Option (List Char) :=
  if off + src.length ≤ dst.length then
    some (dst.take off ++ src ++ dst.drop (off + src.length))
  else none

/-- One turn of the loop of `nextspf` (lines 267 to 272). -/
def nextspf_step (txt : dns_txt) (parser : yaml_parser_t) :
    Outcome ((dns_txt ⊕ dns_txt) × yaml_parser_t) :=
  match expect parser (SET [YAML_SCALAR_EVENT, YAML_SEQUENCE_END_EVENT]) with
  | .ok (.scalar value, parser) =>
    if size_sub txt.size txt.len < 255 then .fatal
    else if 255 < value.length then .fatal
    else
      match memcpy txt.data txt.len value.data with
      | none => .undef
      | some data => .ok (.inl { txt with data := data, len := size_add txt.len 255 }, parser)
  | .ok (_, parser) => .ok (.inr txt, parser)
  | .fatal => .fatal
  | .undef => .undef
  | .nofuel => .nofuel

/-- The function `nextspf`. -/
def nextspf (txt : dns_txt) (parser : yaml_parser_t) : Outcome (dns_txt × yaml_parser_t) :=
  match expect parser (SET [YAML_SCALAR_EVENT, YAML_SEQUENCE_START_EVENT]) with
  | .ok (.scalar value, parser) =>
    if value.length < txt.size then
      match memcpy (List.replicate txt.data.length ' ') 0 value.data with
      | none => .undef
      | some data => .ok ({ txt with data := data, len := value.length }, parser)
    else .fatal
  | .ok (_, parser) =>
    whileLoop nextspf_step { txt with data := List.replicate txt.data.length ' ' } parser
  | .fatal => .fatal
  | .undef => .undef
  | .nofuel => .nofuel

/-! ## Zone builder -/

/-- The part of `union dns_any` that the file fills in. -/
inductive dns_any where
  | a (addr : List Nat)
  | aaaa (addr : List Nat)
  | ptr (host : String)
  | mx (preference : Nat) (host : String)
  | txt (txt : dns_txt)
deriving DecidableEq, Repr

/-- The arguments of one successful `cache_insert`. -/
structure rr where
  name : String
  type : Nat
  ttl : Nat
  any : dns_any
deriving DecidableEq, Repr

/-- The store `struct cache`, as the records inserted so far. -/
abbrev cache : Type := List rr

/-- The library functions the zone builder calls.  `dns_d_init` gives whether
the returned pointer is non-null and what is left in the destination buffer;
`dns_any_init_txt` is the member `txt` of the union after `dns_any_init`;
`inet_pton af src` is `none` unless the call returns 1; `cache_open` tells
whether a store is returned; `cache_insert` gives the error code. -/
structure Library where
  dns_itype : String → Nat
  dns_d_init : String → Bool × String
  dns_any_init_txt : dns_txt
  inet_pton : Nat → String → Option (List Nat)
  atoi : String → Int
  cache_open : Bool
  cache_insert : cache → rr → Nat

abbrev DNS_T_A : Nat := 1
abbrev DNS_T_PTR : Nat := 12
abbrev DNS_T_MX : Nat := 15
abbrev DNS_T_TXT : Nat := 16
abbrev DNS_T_AAAA : Nat := 28
abbrev DNS_T_SPF : Nat := 99
abbrev AF_INET : Nat := 2
abbrev AF_INET6 : Nat := 10

/-- Modelled from the spec: the priority of a mail-exchange record is an
integer; the field `anyrr.mx.preference` that receives it is declared in
`dns.h`, which is not part of this file, as an `unsigned short` of 16 bits, so
the `int` that `atoi` returns is reduced modulo `2 ^ 16` by the assignment of
line 329. -/
def mx_preference (n : Int) : Nat :=
  (n % 65536).toNat

/-- The `switch (rrtype)` of `nextzonedata` (lines 308 to 352): the decoded
record, or `none` where the source jumps to `next`. -/
def nextzonedata_switch (lib : Library) (rrtype : Nat) (parser : yaml_parser_t) :
    Outcome (Option dns_any × yaml_parser_t) :=
  if rrtype = DNS_T_A then
    match expect parser (SET [YAML_SCALAR_EVENT]) with
    | .ok (.scalar value, parser) =>
      match lib.inet_pton AF_INET value with
      | some addr => .ok (some (.a addr), parser)
      | none => .fatal
    | .ok (_, _) => .undef
    | .fatal => .fatal
    | .undef => .undef
    | .nofuel => .nofuel
  else if rrtype = DNS_T_AAAA then
    match expect parser (SET [YAML_SCALAR_EVENT]) with
    | .ok (.scalar value, parser) =>
      match lib.inet_pton AF_INET6 value with
      | some addr => .ok (some (.aaaa addr), parser)
      | none => .fatal
    | .ok (_, _) => .undef
    | .fatal => .fatal
    | .undef => .undef
    | .nofuel => .nofuel
  else if rrtype = DNS_T_PTR then
    match expect parser (SET [YAML_SCALAR_EVENT]) with
    | .ok (.scalar value, parser) =>
      if (lib.dns_d_init value).1 then .ok (some (.ptr (lib.dns_d_init value).2), parser)
      else .ok (none, parser)
    | .ok (_, _) => .undef
    | .fatal => .fatal
    | .undef => .undef
    | .nofuel => .nofuel
  else if rrtype = DNS_T_MX then
    (discard parser (SET [YAML_SEQUENCE_START_EVENT])).bind fun parser =>
    match expect parser (SET [YAML_SCALAR_EVENT]) with
    | .ok (.scalar preference, parser) =>
      match expect parser (SET [YAML_SCALAR_EVENT]) with
      | .ok (.scalar host, parser) =>
        (discard parser (SET [YAML_SEQUENCE_END_EVENT])).bind fun parser =>
        if host.length = 0 then .ok (none, parser)
        else .ok (some (.mx (mx_preference (lib.atoi preference)) (lib.dns_d_init host).2), parser)
      | .ok (_, _) => .undef
      | .fatal => .fatal
      | .undef => .undef
      | .nofuel => .nofuel
    | .ok (_, _) => .undef
    | .fatal => .fatal
    | .undef => .undef
    | .nofuel => .nofuel
  else if rrtype = DNS_T_SPF ∨ rrtype = DNS_T_TXT then
    (nextspf lib.dns_any_init_txt parser).bind fun r => .ok (some (.txt r.1), r.2)
  else
    (discard parser (SET [YAML_SCALAR_EVENT])).bind fun parser => .ok (none, parser)

/-- The body of the record loop after the opening event of an entry (lines 301
to 356): type tag, value, insertion unless skipped, closing mapping-end. -/
def nextzonedata_record (lib : Library) (rrname : String) (zonedata : cache)
    (parser : yaml_parser_t) : Outcome (cache × yaml_parser_t) :=
  match expect parser (SET [YAML_SCALAR_EVENT]) with
  | .ok (.scalar value, parser) =>
    if lib.dns_itype value = 0 then .fatal
    else
      (nextzonedata_switch lib (lib.dns_itype value) parser).bind fun r =>
      match r.1 with
      | some anyrr =>
        if lib.cache_insert zonedata ⟨rrname, lib.dns_itype value, 3600, anyrr⟩ = 0 then
          (discard r.2 (SET [YAML_MAPPING_END_EVENT])).bind fun parser =>
          .ok (zonedata ++ [⟨rrname, lib.dns_itype value, 3600, anyrr⟩], parser)
        else .fatal
      | none =>
        (discard r.2 (SET [YAML_MAPPING_END_EVENT])).bind fun parser => .ok (zonedata, parser)
  | .ok (_, _) => .undef
  | .fatal => .fatal
  | .undef => .undef
  | .nofuel => .nofuel

/-- One turn of the record loop (line 294 and its body). -/
def nextzonedata_records_step (lib : Library) (rrname : String) (zonedata : cache)
    (parser : yaml_parser_t) : Outcome ((cache ⊕ cache) × yaml_parser_t) :=
  match expect parser
      (SET [YAML_MAPPING_START_EVENT, YAML_SCALAR_EVENT, YAML_SEQUENCE_END_EVENT]) with
  | .ok (event, parser) =>
    if INSET (SET [YAML_MAPPING_START_EVENT, YAML_SCALAR_EVENT]) event.type = 0 then
      .ok (.inr zonedata, parser)
    else if event.type = YAML_SCALAR_EVENT then .ok (.inl zonedata, parser)
    else (nextzonedata_record lib rrname zonedata parser).bind fun r => .ok (.inl r.1, r.2)
  | .fatal => .fatal
  | .undef => .undef
  | .nofuel => .nofuel

/-- The record loop of one owner name (lines 294 to 357). -/
def nextzonedata_records (lib : Library) (rrname : String) (zonedata : cache)
    (parser : yaml_parser_t) : Outcome (cache × yaml_parser_t) :=
  whileLoop (nextzonedata_records_step lib rrname) zonedata parser

/-- One turn of the loop over owner names (lines 290 to 360). -/
def nextzonedata_step (lib : Library) (zonedata : cache) (parser : yaml_parser_t) :
    Outcome ((cache ⊕ cache) × yaml_parser_t) :=
  match expect parser (SET [YAML_SCALAR_EVENT, YAML_MAPPING_END_EVENT]) with
  | .ok (.scalar value, parser) =>
    (discard parser (SET [YAML_SEQUENCE_START_EVENT])).bind fun parser =>
    (nextzonedata_records lib (lib.dns_d_init value).2 zonedata parser).bind fun r =>
    .ok (.inl r.1, r.2)
  | .ok (_, parser) => .ok (.inr zonedata, parser)
  | .fatal => .fatal
  | .undef => .undef
  | .nofuel => .nofuel

/-- The function `nextzonedata`. -/
def nextzonedata (lib : Library) (parser : yaml_parser_t) : Outcome (cache × yaml_parser_t) :=
  if lib.cache_open then
    (discard parser (SET [YAML_MAPPING_START_EVENT])).bind fun parser =>
    whileLoop (nextzonedata_step lib) [] parser
  else .fatal

/-! ## Section builder and driver -/

/-- The record `struct section`; `tests` is the queue in insertion order. -/
structure struct_section where
  descr : Option String := none
  comment : Option String := none
  zonedata : Option cache := none
  tests : List struct_test := []
deriving DecidableEq, Repr

/-- One turn of the loop that fills the test queue (lines 403 to 405). -/
def nextsection_tests_step (tests : List struct_test) (parser : yaml_parser_t) :
    Outcome ((List struct_test ⊕ List struct_test) × yaml_parser_t) :=
  match nexttest parser with
  | .ok (some test, parser) => .ok (.inl (tests ++ [test]), parser)
  | .ok (none, parser) => .ok (.inr tests, parser)
  | .fatal => .fatal
  | .undef => .undef
  | .nofuel => .nofuel

/-- The dispatch on a top-level key (lines 394 to 410). -/
def nextsection_field (lib : Library) («section» : struct_section) (txt : String)
    (parser : yaml_parser_t) : Outcome (struct_section × yaml_parser_t) :=
  if txt = "description" then
    (nextscalar parser).bind fun r => .ok ({ «section» with descr := r.1 }, r.2)
  else if txt = "comment" then
    (nextscalar parser).bind fun r => .ok ({ «section» with comment := r.1 }, r.2)
  else if txt = "tests" then
    (discard parser (SET [YAML_MAPPING_START_EVENT])).bind fun parser =>
    (whileLoop nextsection_tests_step «section».tests parser).bind fun r =>
    .ok ({ «section» with tests := r.1 }, r.2)
  else if txt = "zonedata" then
    (nextzonedata lib parser).bind fun r => .ok ({ «section» with zonedata := some r.1 }, r.2)
  else .fatal

/-- One turn of the key loop of `nextsection` (lines 388 to 411): the loop ends
when `expect` returns 0 and at the `break` on a mapping-end. -/
def nextsection_step (lib : Library) («section» : struct_section) (parser : yaml_parser_t) :
    Outcome ((struct_section ⊕ struct_section) × yaml_parser_t) :=
  match expect parser (SET [YAML_SCALAR_EVENT, YAML_MAPPING_END_EVENT]) with
  | .ok (.scalar txt, parser) =>
    (nextsection_field lib «section» txt parser).bind fun r => .ok (.inl r.1, r.2)
  | .ok (_, parser) => .ok (.inr «section», parser)
  | .fatal => .fatal
  | .undef => .undef
  | .nofuel => .nofuel

/-- The function `nextsection`; `none` is the null pointer returned at the end
of the stream. -/
def nextsection (lib : Library) (parser : yaml_parser_t) :
    Outcome (Option struct_section × yaml_parser_t) :=
  match expect parser (SET [YAML_DOCUMENT_START_EVENT, YAML_STREAM_END_EVENT]) with
  | .ok (.stream_end, parser) => .ok (none, parser)
  | .ok (_, parser) =>
    (discard parser (SET [YAML_MAPPING_START_EVENT])).bind fun parser =>
    (whileLoop (nextsection_step lib) {} parser).bind fun r =>
    (discard r.2 (SET [YAML_DOCUMENT_END_EVENT])).bind fun parser =>
    .ok (some r.1, parser)
  | .fatal => .fatal
  | .undef => .undef
  | .nofuel => .nofuel

/-- One turn of the loop of `main` (line 433); the state is the sections built
so far. -/
def main_step (lib : Library) (sections : List struct_section) (parser : yaml_parser_t) :
    Outcome ((List struct_section ⊕ List struct_section) × yaml_parser_t) :=
  match nextsection lib parser with
  | .ok (some s, parser) => .ok (.inl (sections ++ [s]), parser)
  | .ok (none, parser) => .ok (.inr sections, parser)
  | .fatal => .fatal
  | .undef => .undef
  | .nofuel => .nofuel

/-- The function `main`, from the first `discard` to the end of its loop; the
result is the list of sections the loop went through. -/
def main (lib : Library) (parser : yaml_parser_t) :
    Outcome (List struct_section × yaml_parser_t) :=
  (discard parser (SET [YAML_STREAM_START_EVENT])).bind fun parser =>
  whileLoop (main_step lib) [] parser

/-! ## Event streams of fixture documents -/

/-- The events of one entry under `tests`: the name key, then the mapping that
holds the field events `e.2`. -/
def testEntry (e : String × List yaml_event_t) : List yaml_event_t :=
  .scalar e.1 :: .mapping_start :: (e.2 ++ [.mapping_end])

/-- A key of the top-level mapping with its value: the key `tests` with the
test entries authored under it, or another key with the events of its value. -/
inductive TopEntry where
  | tests (entries : List (String × List yaml_event_t))
  | other (key : String) (value : List yaml_event_t)

/-- The events of a top-level key and its value. -/
def TopEntry.events : TopEntry → List yaml_event_t
  | .tests entries =>
    .scalar "tests" :: .mapping_start :: (entries.flatMap testEntry ++ [.mapping_end])
  | .other key value => .scalar key :: value

/-- The test names authored under a top-level key, in document order. -/
def TopEntry.names : TopEntry → List String
  | .tests entries => entries.map fun e => e.1
  | .other _ _ => []

/-- The events of one document with the top-level mapping `items`. -/
def documentEvents (items : List TopEntry) : List yaml_event_t :=
  .document_start :: .mapping_start :: (items.flatMap TopEntry.events ++
    [.mapping_end, .document_end])

/-- A well-formed top-level entry: under `tests`, every entry is a name with a
mapping that `nexttest` reads as one whole test; any other key is not `tests`
and has a value that the builder for that key reads as a whole. -/
def TopEntry.WellFormed (lib : Library) : TopEntry → Prop
  | .tests entries =>
    ∀ e ∈ entries, ∀ rest : yaml_parser_t, ∃ test,
      nexttest (testEntry e ++ rest) = .ok (some test, rest)
  | .other key value =>
    key ≠ "tests" ∧ ∀ (s : struct_section) (rest : yaml_parser_t), ∃ s',
      nextsection_field lib s key (value ++ rest) = .ok (s', rest)

/-- Event lists that are a run of complete YAML nodes: scalars, aliases, and
sequences and mappings whose content is again such a run. -/
inductive IsNodes : List yaml_event_t → Prop
  | nil : IsNodes []
  | scalar (value : String) {r : List yaml_event_t} :
    IsNodes r → IsNodes (.scalar value :: r)
  | aliased {r : List yaml_event_t} : IsNodes r → IsNodes (.alias :: r)
  | sequence {items r : List yaml_event_t} :
    IsNodes items → IsNodes r → IsNodes (.sequence_start :: (items ++ .sequence_end :: r))
  | mapping {items r : List yaml_event_t} :
    IsNodes items → IsNodes r → IsNodes (.mapping_start :: (items ++ .mapping_end :: r))

/-- The events of one complete YAML node. -/
inductive IsNode : List yaml_event_t → Prop
  | scalar (value : String) : IsNode [.scalar value]
  | aliased : IsNode [.alias]
  | sequence {items : List yaml_event_t} :
    IsNodes items → IsNode (.sequence_start :: (items ++ [.sequence_end]))
  | mapping {items : List yaml_event_t} :
    IsNodes items → IsNode (.mapping_start :: (items ++ [.mapping_end]))

/-! ## A sample library -/

/-- A stand-in for the library, used to run the builders on concrete streams:
`dns_itype` knows `A`, `NS`, `PTR`, `MX`, `TXT`, `AAAA` and `SPF`,
`dns_d_init` appends the root dot and reports success, `inet_pton` knows the
address `192.0.2.1`, `atoi` knows `10` and `70000`, the text record has room for 1024
bytes, and the store never fails. -/
def sampleLibrary : Library where
  dns_itype := fun s =>
    if s = "A" then DNS_T_A else if s = "NS" then 2 else if s = "PTR" then DNS_T_PTR
    else if s = "MX" then DNS_T_MX else if s = "TXT" then DNS_T_TXT
    else if s = "AAAA" then DNS_T_AAAA else if s = "SPF" then DNS_T_SPF else 0
  dns_d_init := fun s => (true, s ++ ".")
  dns_any_init_txt := ⟨1024, 0, List.replicate 1024 ' '⟩
  inet_pton := fun af s => if af = AF_INET ∧ s = "192.0.2.1" then some [192, 0, 2, 1] else none
  atoi := fun s => if s = "10" then 10 else if s = "70000" then 70000 else 0
  cache_open := true
  cache_insert := fun _ _ => 0

/-- A library whose `dns_d_init` reports failure on every name and leaves the
name unchanged; otherwise as `sampleLibrary`. -/
def failingLibrary : Library :=
  { sampleLibrary with dns_d_init := fun s => (false, s) }

/-- A chunk of `n` bytes. -/
def chunk (n : Nat) : String :=
  String.mk (List.replicate n 'a')

/-! ## The fixture of the end-to-end scenario -/

/-- The events of one document with `description: "basic"`, a `tests` mapping
with the test `helo-basic` (`mailfrom: "a@example.com"`, `result: pass`) and a
`zonedata` mapping that gives `example.com` one `A` record `192.0.2.1`. -/
def basicDocument : List yaml_event_t :=
  [.document_start, .mapping_start,
   .scalar "description", .scalar "basic",
   .scalar "tests", .mapping_start,
   .scalar "helo-basic", .mapping_start,
   .scalar "mailfrom", .scalar "a@example.com",
   .scalar "result", .scalar "pass",
   .mapping_end,
   .mapping_end,
   .scalar "zonedata", .mapping_start,
   .scalar "example.com", .sequence_start,
   .mapping_start, .scalar "A", .scalar "192.0.2.1", .mapping_end,
   .sequence_end,
   .mapping_end,
   .mapping_end, .document_end]

/-- The section the scenario describes: description `basic`, the one test, and
a store that received one insertion, an `A` record with ttl 3600 under the
owner name `rrname`. -/
def basicSection (rrname : String) (addr : List Nat) : struct_section :=
  { descr := some "basic",
    tests := [{ name := some "helo-basic", mailfrom := some "a@example.com",
                result := [some "pass", none], rcount := 1 }],
    zonedata := some [⟨rrname, DNS_T_A, 3600, .a addr⟩] }

/-! ## Predicates used in the statements -/

/-- The result slots of a test are in order: the array has its two slots, the
count is at most 2, and every slot below the count holds a string. -/
def struct_test.ResultsOk (t : struct_test) : Prop :=
  t.result.length = 2 ∧ t.rcount ≤ 2 ∧ ∀ i, i < t.rcount → ∃ v, t.result[i]? = some (some v)

/-- The bytes of a chunk, right-padded with spaces to 255 bytes. -/
def padded (c : String) : List Char :=
  c.data ++ List.replicate (255 - c.length) ' '

/-- The states in which a `while` loop evaluates its condition:
`LoopReaches step s parser s' parser'` when the loop started in state `s` on
the events `parser` comes, after some number of turns, to state `s'` with the
events `parser'` left. -/
inductive LoopReaches {σ ρ : Type}
    (step : σ → yaml_parser_t → Outcome ((σ ⊕ ρ) × yaml_parser_t)) :
    σ → yaml_parser_t → σ → yaml_parser_t → Prop
  | start (s : σ) (parser : yaml_parser_t) : LoopReaches step s parser s parser
  | turn {s s1 s2 : σ} {parser p1 p2 : yaml_parser_t} :
    LoopReaches step s parser s1 p1 → step s1 p1 = .ok (.inl s2, p2) →
    LoopReaches step s parser s2 p2

/-! ## Event streams of zone mappings -/

/-- An element of the record list of an owner name: a bare scalar, or a record
entry, that is a mapping with the type tag as its key and the events of the
value. -/
inductive ZoneElem where
  | bare (value : String)
  | entry (tag : String) (value : List yaml_event_t)

/-- The events of an element of a record list. -/
def ZoneElem.events : ZoneElem → List yaml_event_t
  | .bare value => [.scalar value]
  | .entry tag value => .mapping_start :: .scalar tag :: (value ++ [.mapping_end])

/-- A well-formed element: the value of a record entry is one complete YAML
node. -/
def ZoneElem.WellFormed : ZoneElem → Prop
  | .bare _ => True
  | .entry _ value => IsNode value

/-- The events of an owner name followed by its record list. -/
def ownerEvents (o : String × List ZoneElem) : List yaml_event_t :=
  .scalar o.1 :: .sequence_start :: (o.2.flatMap ZoneElem.events ++ [.sequence_end])

/-- The events of a zone mapping. -/
def zoneEvents (zone : List (String × List ZoneElem)) : List yaml_event_t :=
  .mapping_start :: (zone.flatMap ownerEvents ++ [.mapping_end])

/-- The record that the `switch` of the source decodes from the value of an
element taken on its own; `none` for a bare scalar and for an entry that is
skipped. -/
def ZoneElem.decoded (lib : Library) : ZoneElem → Option dns_any
  | .bare _ => none
  | .entry tag value =>
    match nextzonedata_switch lib (lib.dns_itype tag) value with
    | .ok (r, _) => r
    | _ => none

/-- The insertions that one element of the record list of `rrname` stands for:
one record with ttl 3600 when the element is an entry that decodes, none
otherwise. -/
def ZoneElem.inserted (lib : Library) (rrname : String) : ZoneElem → List rr
  | .bare _ => []
  | .entry tag value =>
    match ZoneElem.decoded lib (.entry tag value) with
    | some anyrr => [⟨rrname, lib.dns_itype tag, 3600, anyrr⟩]
    | none => []

/-- The insertions that a zone mapping stands for, in document order: for each
owner name in turn, under its anchored form, those of its elements in turn. -/
def zoneInserted (lib : Library) (zone : List (String × List ZoneElem)) : List rr :=
  zone.flatMap fun o => o.2.flatMap (ZoneElem.inserted lib (lib.dns_d_init o.1).2)

/-! ## Sequencing and the event gate: basic facts -/

@[simp] theorem Outcome.bind_ok {α β : Type} (a : α) (f : α → Outcome β) :
    (Outcome.ok a).bind f = f a := by
  unfold Outcome.bind; exact id rfl

@[simp] theorem Outcome.bind_fatal {α β : Type} (f : α → Outcome β) :
    (Outcome.fatal : Outcome α).bind f = .fatal := by
  unfold Outcome.bind; exact id rfl

@[simp] theorem Outcome.bind_undef {α β : Type} (f : α → Outcome β) :
    (Outcome.undef : Outcome α).bind f = .undef := by
  unfold Outcome.bind; exact id rfl

@[simp] theorem Outcome.bind_nofuel {α β : Type} (f : α → Outcome β) :
    (Outcome.nofuel : Outcome α).bind f = .nofuel := by
  unfold Outcome.bind; exact id rfl

theorem Outcome.bind_eq_ok {α β : Type} {x : Outcome α} {f : α → Outcome β} {b : β}
    (h : x.bind f = .ok b) : ∃ a, x = .ok a ∧ f a = .ok b := by
  cases x with
  | ok a => exact ⟨a, rfl, h⟩
  | fatal => simp at h
  | undef => simp at h
  | nofuel => simp at h

theorem expect_nil (set : Nat) : expect [] set = .fatal := rfl

theorem expect_cons (event : yaml_event_t) (parser : yaml_parser_t) (set : Nat) :
    expect (event :: parser) set
      = if INSET set event.type = 0 then .fatal else .ok (event, parser) := rfl

theorem expect_eq_ok {parser parser' : yaml_parser_t} {set : Nat} {event : yaml_event_t}
    (h : expect parser set = .ok (event, parser')) :
    parser = event :: parser' ∧ INSET set event.type ≠ 0 := by
  cases parser with
  | nil => simp [expect_nil] at h
  | cons e p =>
    rw [expect_cons] at h
    by_cases hin : INSET set e.type = 0
    · simp [hin] at h
    · simp only [hin, if_false, Outcome.ok.injEq, Prod.mk.injEq] at h
      obtain ⟨rfl, rfl⟩ := h
      exact ⟨rfl, hin⟩

theorem expect_ne_nofuel (parser : yaml_parser_t) (set : Nat) :
    expect parser set ≠ .nofuel := by
  cases parser with
  | nil => simp [expect_nil]
  | cons e p => rw [expect_cons]; split <;> simp

theorem expect_ne_undef (parser : yaml_parser_t) (set : Nat) :
    expect parser set ≠ .undef := by
  cases parser with
  | nil => simp [expect_nil]
  | cons e p => rw [expect_cons]; split <;> simp

theorem discard_cons (event : yaml_event_t) (parser : yaml_parser_t) (set : Nat) :
    discard (event :: parser) set
      = if INSET set event.type = 0 then .fatal else .ok parser := by
  unfold discard
  rw [expect_cons]
  by_cases hin : INSET set event.type = 0 <;> simp [hin]

theorem discard_eq_ok {parser parser' : yaml_parser_t} {set : Nat}
    (h : discard parser set = .ok parser') :
    ∃ event, parser = event :: parser' ∧ INSET set event.type ≠ 0 := by
  cases parser with
  | nil => simp [discard, expect_nil] at h
  | cons e p =>
    rw [discard_cons] at h
    by_cases hin : INSET set e.type = 0
    · simp [hin] at h
    · simp only [hin, if_false, Outcome.ok.injEq] at h
      exact ⟨e, by rw [h], hin⟩

/-! ## The allowed sets, bit by bit -/

theorem INSET_eq_zero_iff (set x : Nat) : INSET set x = 0 ↔ set.testBit x = false := by
  unfold INSET
  rw [Nat.one_shiftLeft]
  constructor
  · intro h
    have h1 := congrArg (fun n => Nat.testBit n x) h
    simpa [Nat.testBit_two_pow_self] using h1
  · intro h
    apply Nat.eq_of_testBit_eq
    intro i
    simp only [Nat.testBit_and, Nat.testBit_two_pow, Nat.zero_testBit]
    by_cases hxi : x = i
    · subst hxi; simp [h]
    · simp [hxi]

theorem INSET_SET4_eq_zero_iff (a b c d x : Nat) :
    INSET (SET4 a b c d) x = 0 ↔ ¬ (x = a ∨ x = b ∨ x = c ∨ x = d) := by
  rw [INSET_eq_zero_iff]
  simp only [SET4, Nat.one_shiftLeft, Nat.testBit_or, Nat.testBit_two_pow, Bool.or_eq_false_iff,
    decide_eq_false_iff_not, not_or]
  constructor
  · rintro ⟨⟨⟨h1, h2⟩, h3⟩, h4⟩
    exact ⟨fun h => h1 h.symm, fun h => h2 h.symm, fun h => h3 h.symm, fun h => h4 h.symm⟩
  · rintro ⟨h1, h2, h3, h4⟩
    exact ⟨⟨⟨fun h => h1 h.symm, fun h => h2 h.symm⟩, fun h => h3 h.symm⟩, fun h => h4 h.symm⟩

theorem SET_one (a : Nat) : SET [a] = SET4 a 0 0 0 := rfl

theorem SET_two (a b : Nat) : SET [a, b] = SET4 a b 0 0 := rfl

theorem SET_three (a b c : Nat) : SET [a, b, c] = SET4 a b c 0 := rfl

theorem expect_cons_SET4 (event : yaml_event_t) (parser : yaml_parser_t) (a b c d : Nat) :
    expect (event :: parser) (SET4 a b c d)
      = if event.type = a ∨ event.type = b ∨ event.type = c ∨ event.type = d then
          .ok (event, parser)
        else .fatal := by
  rw [expect_cons]
  by_cases h : event.type = a ∨ event.type = b ∨ event.type = c ∨ event.type = d
  · rw [if_pos h, if_neg ((INSET_SET4_eq_zero_iff a b c d _).not.mpr (not_not.mpr h))]
  · rw [if_neg h, if_pos ((INSET_SET4_eq_zero_iff a b c d _).mpr h)]

theorem discard_cons_SET4 (event : yaml_event_t) (parser : yaml_parser_t) (a b c d : Nat) :
    discard (event :: parser) (SET4 a b c d)
      = if event.type = a ∨ event.type = b ∨ event.type = c ∨ event.type = d then
          .ok parser
        else .fatal := by
  unfold discard
  rw [expect_cons_SET4]
  split <;> rfl

/-! ## While loops: the budget is enough -/

theorem loopFuel_succ {σ ρ : Type}
    (step : σ → yaml_parser_t → Outcome ((σ ⊕ ρ) × yaml_parser_t)) (fuel : Nat) (s : σ)
    (parser : yaml_parser_t) :
    loopFuel step (fuel + 1) s parser
      = (step s parser).bind fun r =>
          match r.1 with
          | .inl s' => loopFuel step fuel s' r.2
          | .inr x => .ok (x, r.2) := by
  rw [loopFuel]
  cases hst : step s parser with
  | ok r =>
    obtain ⟨x, p'⟩ := r
    cases x <;> rfl
  | fatal => rfl
  | undef => rfl
  | nofuel => rfl

theorem loopFuel_enough {σ ρ : Type}
    {step : σ → yaml_parser_t → Outcome ((σ ⊕ ρ) × yaml_parser_t)} (hc : Consumes step) :
    ∀ (fuel : Nat) (s : σ) (parser : yaml_parser_t), parser.length < fuel →
      loopFuel step fuel s parser = loopFuel step (parser.length + 1) s parser := by
  intro fuel
  induction fuel using Nat.strong_induction_on with
  | _ fuel ih =>
    intro s parser hlt
    cases fuel with
    | zero => omega
    | succ n =>
      rw [loopFuel_succ, loopFuel_succ]
      cases hst : step s parser with
      | ok r =>
        obtain ⟨x, p'⟩ := r
        have hlen := hc s parser x p' hst
        cases x with
        | inl s' =>
          simp only [Outcome.bind_ok]
          rw [ih n (by omega) s' p' (by omega),
            ih parser.length (by omega) s' p' hlen]
        | inr r => rfl
      | fatal => rfl
      | undef => rfl
      | nofuel => rfl

/-- The loop equation of `whileLoop`: one turn, then the loop again. -/
theorem whileLoop_eq {σ ρ : Type}
    {step : σ → yaml_parser_t → Outcome ((σ ⊕ ρ) × yaml_parser_t)} (hc : Consumes step)
    (s : σ) (parser : yaml_parser_t) :
    whileLoop step s parser
      = (step s parser).bind fun r =>
          match r.1 with
          | .inl s' => whileLoop step s' r.2
          | .inr x => .ok (x, r.2) := by
  unfold whileLoop
  rw [loopFuel_succ]
  cases hst : step s parser with
  | ok r =>
    obtain ⟨x, p'⟩ := r
    have hlen := hc s parser x p' hst
    cases x with
    | inl s' =>
      simp only [Outcome.bind_ok]
      exact loopFuel_enough hc parser.length s' p' hlen
    | inr r => rfl
  | fatal => rfl
  | undef => rfl
  | nofuel => rfl

theorem whileLoop_length {σ ρ : Type}
    {step : σ → yaml_parser_t → Outcome ((σ ⊕ ρ) × yaml_parser_t)} (hc : Consumes step) :
    ∀ (n : Nat) (s : σ) (parser : yaml_parser_t) (r : ρ) (parser' : yaml_parser_t),
      parser.length ≤ n → whileLoop step s parser = .ok (r, parser') →
      parser'.length < parser.length := by
  intro n
  induction n with
  | zero =>
    intro s parser r parser' hn h
    rw [whileLoop_eq hc] at h
    obtain ⟨⟨x, p1⟩, hst, _⟩ := Outcome.bind_eq_ok h
    have := hc s parser x p1 hst
    omega
  | succ n ih =>
    intro s parser r parser' hn h
    rw [whileLoop_eq hc] at h
    obtain ⟨⟨x, p1⟩, hst, hrest⟩ := Outcome.bind_eq_ok h
    have hlen := hc s parser x p1 hst
    cases x with
    | inl s' =>
      have := ih s' p1 r parser' (by omega) hrest
      omega
    | inr y =>
      simp only [Outcome.ok.injEq, Prod.mk.injEq] at hrest
      obtain ⟨_, rfl⟩ := hrest
      exact hlen

theorem whileLoop_ne_nofuel {σ ρ : Type}
    {step : σ → yaml_parser_t → Outcome ((σ ⊕ ρ) × yaml_parser_t)} (hc : Consumes step)
    (hstep : ∀ s parser, step s parser ≠ .nofuel) :
    ∀ (n : Nat) (s : σ) (parser : yaml_parser_t), parser.length ≤ n →
      whileLoop step s parser ≠ .nofuel := by
  intro n
  induction n with
  | zero =>
    intro s parser hn
    rw [whileLoop_eq hc]
    cases hst : step s parser with
    | ok r =>
      obtain ⟨x, p1⟩ := r
      have := hc s parser x p1 hst
      omega
    | fatal => simp
    | undef => simp
    | nofuel => exact absurd hst (hstep s parser)
  | succ n ih =>
    intro s parser hn
    rw [whileLoop_eq hc]
    cases hst : step s parser with
    | ok r =>
      obtain ⟨x, p1⟩ := r
      have hlen := hc s parser x p1 hst
      cases x with
      | inl s' => exact ih s' p1 (by omega)
      | inr y => simp
    | fatal => simp
    | undef => simp
    | nofuel => exact absurd hst (hstep s parser)


/-! ## Every loop turn pulls an event -/

theorem nextscalar_step_consumes : Consumes nextscalar_step := by
  intro s p x p' h
  unfold nextscalar_step at h
  cases hE : expect p (SET [YAML_SCALAR_EVENT, YAML_SEQUENCE_END_EVENT]) with
  | ok r =>
    obtain ⟨e, p1⟩ := r
    obtain ⟨rfl, _⟩ := expect_eq_ok hE
    rw [hE] at h
    cases e <;> simp at h <;> obtain ⟨_, rfl⟩ := h <;> simp
  | fatal => rw [hE] at h; simp at h
  | undef => rw [hE] at h; simp at h
  | nofuel => rw [hE] at h; simp at h

theorem nextscalar_length {parser parser' : yaml_parser_t} {dst : Option String}
    (h : nextscalar parser = .ok (dst, parser')) : parser'.length < parser.length := by
  unfold nextscalar at h
  cases hE : expect parser (SET [YAML_SCALAR_EVENT, YAML_SEQUENCE_START_EVENT]) with
  | ok r =>
    obtain ⟨e, p1⟩ := r
    obtain ⟨rfl, _⟩ := expect_eq_ok hE
    rw [hE] at h
    cases e <;> simp at h <;>
      first
      | (obtain ⟨_, rfl⟩ := h; simp)
      | (have hlen := whileLoop_length nextscalar_step_consumes _ _ _ _ _ (le_refl _) h
         simp only [List.length_cons]; omega)
  | fatal => rw [hE] at h; simp at h
  | undef => rw [hE] at h; simp at h
  | nofuel => rw [hE] at h; simp at h

theorem nextscalar_bind_length {α : Type} {parser parser' : yaml_parser_t}
    {f : Option String × yaml_parser_t → α} {a : α}
    (h : ((nextscalar parser).bind fun r => .ok (f r, r.2)) = .ok (a, parser')) :
    parser'.length < parser.length := by
  obtain ⟨⟨dst, p1⟩, h1, h2⟩ := Outcome.bind_eq_ok h
  simp only [Outcome.ok.injEq, Prod.mk.injEq] at h2
  obtain ⟨_, rfl⟩ := h2
  exact nextscalar_length h1

theorem discard_length {parser parser' : yaml_parser_t} {set : Nat}
    (h : discard parser set = .ok parser') : parser'.length < parser.length := by
  obtain ⟨e, rfl, _⟩ := discard_eq_ok h
  simp

theorem nexttest_result_step_consumes : Consumes nexttest_result_step := by
  intro s p x p' h
  unfold nexttest_result_step at h
  cases hE : expect p (SET [YAML_SCALAR_EVENT, YAML_SEQUENCE_END_EVENT]) with
  | ok r =>
    obtain ⟨e, p1⟩ := r
    obtain ⟨rfl, _⟩ := expect_eq_ok hE
    rw [hE] at h
    cases e <;> simp only at h <;> (try split_ifs at h) <;>
      simp only [Outcome.ok.injEq, Prod.mk.injEq, reduceCtorEq] at h <;>
      obtain ⟨_, rfl⟩ := h <;> simp
  | fatal => rw [hE] at h; simp at h
  | undef => rw [hE] at h; simp at h
  | nofuel => rw [hE] at h; simp at h

theorem nexttest_result_length {test test' : struct_test} {parser parser' : yaml_parser_t}
    (h : nexttest_result test parser = .ok (test', parser')) :
    parser'.length < parser.length := by
  unfold nexttest_result at h
  cases hE : expect parser (SET [YAML_SCALAR_EVENT, YAML_SEQUENCE_START_EVENT]) with
  | ok r =>
    obtain ⟨e, p1⟩ := r
    obtain ⟨rfl, _⟩ := expect_eq_ok hE
    rw [hE] at h
    cases e <;> simp at h <;>
      first
      | (obtain ⟨_, rfl⟩ := h; simp)
      | (have hlen := whileLoop_length nexttest_result_step_consumes _ _ _ _ _ (le_refl _) h
         simp only [List.length_cons]; omega)
  | fatal => rw [hE] at h; simp at h
  | undef => rw [hE] at h; simp at h
  | nofuel => rw [hE] at h; simp at h

theorem nexttest_field_length {test test' : struct_test} {txt : String}
    {parser parser' : yaml_parser_t}
    (h : nexttest_field test txt parser = .ok (test', parser')) :
    parser'.length < parser.length := by
  unfold nexttest_field at h
  split_ifs at h
  all_goals
    first
    | exact nextscalar_bind_length h
    | exact nexttest_result_length h
    | (obtain ⟨p1, h1, h2⟩ := Outcome.bind_eq_ok h
       simp only [Outcome.ok.injEq, Prod.mk.injEq] at h2
       obtain ⟨_, rfl⟩ := h2
       exact discard_length h1)

theorem nexttest_step_consumes : Consumes nexttest_step := by
  intro s p x p' h
  unfold nexttest_step at h
  cases hE : expect p (SET [YAML_SCALAR_EVENT, YAML_MAPPING_END_EVENT]) with
  | ok r =>
    obtain ⟨e, p1⟩ := r
    obtain ⟨rfl, _⟩ := expect_eq_ok hE
    rw [hE] at h
    cases e <;> simp at h <;>
      first
      | (obtain ⟨_, rfl⟩ := h; simp)
      | (obtain ⟨⟨t1, p2⟩, h1, h2⟩ := Outcome.bind_eq_ok h
         simp only [Outcome.ok.injEq, Prod.mk.injEq] at h2
         obtain ⟨_, rfl⟩ := h2
         have := nexttest_field_length h1
         simp only [List.length_cons]; omega)
  | fatal => rw [hE] at h; simp at h
  | undef => rw [hE] at h; simp at h
  | nofuel => rw [hE] at h; simp at h

theorem nexttest_length {test : Option struct_test} {parser parser' : yaml_parser_t}
    (h : nexttest parser = .ok (test, parser')) : parser'.length < parser.length := by
  unfold nexttest at h
  cases hE : expect parser (SET [YAML_SCALAR_EVENT, YAML_MAPPING_END_EVENT]) with
  | ok r =>
    obtain ⟨e, p1⟩ := r
    obtain ⟨rfl, _⟩ := expect_eq_ok hE
    rw [hE] at h
    cases e <;> simp at h <;>
      first
      | (obtain ⟨_, rfl⟩ := h; simp)
      | (obtain ⟨p2, h1, h2⟩ := Outcome.bind_eq_ok h
         obtain ⟨⟨t1, p3⟩, h3, h4⟩ := Outcome.bind_eq_ok h2
         simp only [Outcome.ok.injEq, Prod.mk.injEq] at h4
         obtain ⟨_, rfl⟩ := h4
         have := discard_length h1
         have := whileLoop_length nexttest_step_consumes _ _ _ _ _ (le_refl _) h3
         simp only [List.length_cons]; omega)
  | fatal => rw [hE] at h; simp at h
  | undef => rw [hE] at h; simp at h
  | nofuel => rw [hE] at h; simp at h

theorem nextspf_step_consumes : Consumes nextspf_step := by
  intro s p x p' h
  unfold nextspf_step at h
  cases hE : expect p (SET [YAML_SCALAR_EVENT, YAML_SEQUENCE_END_EVENT]) with
  | ok r =>
    obtain ⟨e, p1⟩ := r
    obtain ⟨rfl, _⟩ := expect_eq_ok hE
    rw [hE] at h
    cases e <;> simp only at h <;>
      first
      | (simp only [Outcome.ok.injEq, Prod.mk.injEq] at h; obtain ⟨_, rfl⟩ := h; simp)
      | (split_ifs at h
         split at h
         · simp at h
         · simp only [Outcome.ok.injEq, Prod.mk.injEq] at h; obtain ⟨_, rfl⟩ := h; simp)
  | fatal => rw [hE] at h; simp at h
  | undef => rw [hE] at h; simp at h
  | nofuel => rw [hE] at h; simp at h

theorem nextspf_length {txt txt' : dns_txt} {parser parser' : yaml_parser_t}
    (h : nextspf txt parser = .ok (txt', parser')) : parser'.length < parser.length := by
  unfold nextspf at h
  cases hE : expect parser (SET [YAML_SCALAR_EVENT, YAML_SEQUENCE_START_EVENT]) with
  | ok r =>
    obtain ⟨e, p1⟩ := r
    obtain ⟨rfl, _⟩ := expect_eq_ok hE
    rw [hE] at h
    cases e <;> simp only at h <;>
      first
      | (have hlen := whileLoop_length nextspf_step_consumes _ _ _ _ _ (le_refl _) h
         simp only [List.length_cons]; omega)
      | (split_ifs at h
         split at h
         · simp at h
         · simp only [Outcome.ok.injEq, Prod.mk.injEq] at h; obtain ⟨_, rfl⟩ := h; simp)
  | fatal => rw [hE] at h; simp at h
  | undef => rw [hE] at h; simp at h
  | nofuel => rw [hE] at h; simp at h

theorem nextzonedata_switch_length {lib : Library} {rrtype : Nat} {any : Option dns_any}
    {parser parser' : yaml_parser_t}
    (h : nextzonedata_switch lib rrtype parser = .ok (any, parser')) :
    parser'.length < parser.length := by
  unfold nextzonedata_switch at h
  split_ifs at h
  · cases hE : expect parser (SET [YAML_SCALAR_EVENT]) with
    | ok r =>
      obtain ⟨e, p1⟩ := r
      obtain ⟨rfl, _⟩ := expect_eq_ok hE
      rw [hE] at h
      cases e <;> simp only [reduceCtorEq] at h
      split at h
      · simp only [Outcome.ok.injEq, Prod.mk.injEq] at h; obtain ⟨_, rfl⟩ := h; simp
      · simp at h
    | fatal => rw [hE] at h; simp at h
    | undef => rw [hE] at h; simp at h
    | nofuel => rw [hE] at h; simp at h
  · cases hE : expect parser (SET [YAML_SCALAR_EVENT]) with
    | ok r =>
      obtain ⟨e, p1⟩ := r
      obtain ⟨rfl, _⟩ := expect_eq_ok hE
      rw [hE] at h
      cases e <;> simp only [reduceCtorEq] at h
      split at h
      · simp only [Outcome.ok.injEq, Prod.mk.injEq] at h; obtain ⟨_, rfl⟩ := h; simp
      · simp at h
    | fatal => rw [hE] at h; simp at h
    | undef => rw [hE] at h; simp at h
    | nofuel => rw [hE] at h; simp at h
  · cases hE : expect parser (SET [YAML_SCALAR_EVENT]) with
    | ok r =>
      obtain ⟨e, p1⟩ := r
      obtain ⟨rfl, _⟩ := expect_eq_ok hE
      rw [hE] at h
      cases e <;> simp only [reduceCtorEq] at h
      split_ifs at h <;>
        (simp only [Outcome.ok.injEq, Prod.mk.injEq] at h; obtain ⟨_, rfl⟩ := h; simp)
    | fatal => rw [hE] at h; simp at h
    | undef => rw [hE] at h; simp at h
    | nofuel => rw [hE] at h; simp at h
  · obtain ⟨p1, h1, h2⟩ := Outcome.bind_eq_ok h
    have l1 := discard_length h1
    cases hE : expect p1 (SET [YAML_SCALAR_EVENT]) with
    | ok r =>
      obtain ⟨e, p2⟩ := r
      obtain ⟨rfl, _⟩ := expect_eq_ok hE
      rw [hE] at h2
      cases e <;> simp only [reduceCtorEq] at h2
      cases hE2 : expect p2 (SET [YAML_SCALAR_EVENT]) with
      | ok r =>
        obtain ⟨e2, p3⟩ := r
        obtain ⟨rfl, _⟩ := expect_eq_ok hE2
        rw [hE2] at h2
        cases e2 <;> simp only [reduceCtorEq] at h2
        obtain ⟨p4, h3, h4⟩ := Outcome.bind_eq_ok h2
        have l3 := discard_length h3
        simp only [List.length_cons] at l1 l3
        split_ifs at h4 <;>
          (simp only [Outcome.ok.injEq, Prod.mk.injEq] at h4; obtain ⟨_, rfl⟩ := h4; omega)
      | fatal => rw [hE2] at h2; simp at h2
      | undef => rw [hE2] at h2; simp at h2
      | nofuel => rw [hE2] at h2; simp at h2
    | fatal => rw [hE] at h2; simp at h2
    | undef => rw [hE] at h2; simp at h2
    | nofuel => rw [hE] at h2; simp at h2
  · obtain ⟨⟨t, p1⟩, h1, h2⟩ := Outcome.bind_eq_ok h
    simp only [Outcome.ok.injEq, Prod.mk.injEq] at h2
    obtain ⟨_, rfl⟩ := h2
    exact nextspf_length h1
  · obtain ⟨p1, h1, h2⟩ := Outcome.bind_eq_ok h
    simp only [Outcome.ok.injEq, Prod.mk.injEq] at h2
    obtain ⟨_, rfl⟩ := h2
    exact discard_length h1

theorem nextzonedata_record_length {lib : Library} {rrname : String} {zonedata zonedata' : cache}
    {parser parser' : yaml_parser_t}
    (h : nextzonedata_record lib rrname zonedata parser = .ok (zonedata', parser')) :
    parser'.length < parser.length := by
  unfold nextzonedata_record at h
  cases hE : expect parser (SET [YAML_SCALAR_EVENT]) with
  | ok r =>
    obtain ⟨e, p1⟩ := r
    obtain ⟨rfl, _⟩ := expect_eq_ok hE
    rw [hE] at h
    cases e <;> simp only [reduceCtorEq] at h
    split_ifs at h
    obtain ⟨⟨any, p2⟩, h1, h2⟩ := Outcome.bind_eq_ok h
    have l1 := nextzonedata_switch_length h1
    cases any with
    | none =>
      simp only at h2
      obtain ⟨p3, h3, h4⟩ := Outcome.bind_eq_ok h2
      have l3 := discard_length h3
      simp only [Outcome.ok.injEq, Prod.mk.injEq] at h4
      obtain ⟨_, rfl⟩ := h4
      simp only [List.length_cons]; omega
    | some a =>
      simp only at h2
      split_ifs at h2
      obtain ⟨p3, h3, h4⟩ := Outcome.bind_eq_ok h2
      have l3 := discard_length h3
      simp only [Outcome.ok.injEq, Prod.mk.injEq] at h4
      obtain ⟨_, rfl⟩ := h4
      simp only [List.length_cons]; omega
  | fatal => rw [hE] at h; simp at h
  | undef => rw [hE] at h; simp at h
  | nofuel => rw [hE] at h; simp at h

theorem nextzonedata_records_step_consumes (lib : Library) (rrname : String) :
    Consumes (nextzonedata_records_step lib rrname) := by
  intro s p x p' h
  unfold nextzonedata_records_step at h
  cases hE : expect p
      (SET [YAML_MAPPING_START_EVENT, YAML_SCALAR_EVENT, YAML_SEQUENCE_END_EVENT]) with
  | ok r =>
    obtain ⟨e, p1⟩ := r
    obtain ⟨rfl, _⟩ := expect_eq_ok hE
    rw [hE] at h
    simp only at h
    split_ifs at h
    · simp only [Outcome.ok.injEq, Prod.mk.injEq] at h; obtain ⟨_, rfl⟩ := h; simp
    · simp only [Outcome.ok.injEq, Prod.mk.injEq] at h; obtain ⟨_, rfl⟩ := h; simp
    · obtain ⟨⟨z, p2⟩, h1, h2⟩ := Outcome.bind_eq_ok h
      have l1 := nextzonedata_record_length h1
      simp only [Outcome.ok.injEq, Prod.mk.injEq] at h2
      obtain ⟨_, rfl⟩ := h2
      simp only [List.length_cons]; omega
  | fatal => rw [hE] at h; simp at h
  | undef => rw [hE] at h; simp at h
  | nofuel => rw [hE] at h; simp at h

theorem nextzonedata_records_length {lib : Library} {rrname : String}
    {zonedata zonedata' : cache} {parser parser' : yaml_parser_t}
    (h : nextzonedata_records lib rrname zonedata parser = .ok (zonedata', parser')) :
    parser'.length < parser.length :=
  whileLoop_length (nextzonedata_records_step_consumes lib rrname) _ _ _ _ _ (le_refl _) h

theorem nextzonedata_step_consumes (lib : Library) : Consumes (nextzonedata_step lib) := by
  intro s p x p' h
  unfold nextzonedata_step at h
  cases hE : expect p (SET [YAML_SCALAR_EVENT, YAML_MAPPING_END_EVENT]) with
  | ok r =>
    obtain ⟨e, p1⟩ := r
    obtain ⟨rfl, _⟩ := expect_eq_ok hE
    rw [hE] at h
    cases e <;> simp only at h <;>
      first
      | (simp only [Outcome.ok.injEq, Prod.mk.injEq] at h; obtain ⟨_, rfl⟩ := h; simp)
      | (obtain ⟨p2, h1, h2⟩ := Outcome.bind_eq_ok h
         obtain ⟨⟨z, p3⟩, h3, h4⟩ := Outcome.bind_eq_ok h2
         simp only [Outcome.ok.injEq, Prod.mk.injEq] at h4
         obtain ⟨_, rfl⟩ := h4
         have := discard_length h1
         have := nextzonedata_records_length h3
         simp only [List.length_cons]; omega)
  | fatal => rw [hE] at h; simp at h
  | undef => rw [hE] at h; simp at h
  | nofuel => rw [hE] at h; simp at h

theorem nextzonedata_length {lib : Library} {zonedata : cache} {parser parser' : yaml_parser_t}
    (h : nextzonedata lib parser = .ok (zonedata, parser')) :
    parser'.length < parser.length := by
  unfold nextzonedata at h
  split_ifs at h
  obtain ⟨p1, h1, h2⟩ := Outcome.bind_eq_ok h
  have := discard_length h1
  have := whileLoop_length (nextzonedata_step_consumes lib) _ _ _ _ _ (le_refl _) h2
  omega

theorem nextsection_tests_step_consumes : Consumes nextsection_tests_step := by
  intro s p x p' h
  unfold nextsection_tests_step at h
  cases hE : nexttest p with
  | ok r =>
    obtain ⟨t, p1⟩ := r
    have := nexttest_length hE
    rw [hE] at h
    cases t <;> simp only [Outcome.ok.injEq, Prod.mk.injEq] at h <;>
      (obtain ⟨_, rfl⟩ := h; exact this)
  | fatal => rw [hE] at h; simp at h
  | undef => rw [hE] at h; simp at h
  | nofuel => rw [hE] at h; simp at h

theorem nextsection_field_length {lib : Library} {s s' : struct_section} {txt : String}
    {parser parser' : yaml_parser_t}
    (h : nextsection_field lib s txt parser = .ok (s', parser')) :
    parser'.length < parser.length := by
  unfold nextsection_field at h
  split_ifs at h
  · exact nextscalar_bind_length h
  · exact nextscalar_bind_length h
  · obtain ⟨p1, h1, h2⟩ := Outcome.bind_eq_ok h
    obtain ⟨⟨ts, p2⟩, h3, h4⟩ := Outcome.bind_eq_ok h2
    simp only [Outcome.ok.injEq, Prod.mk.injEq] at h4
    obtain ⟨_, rfl⟩ := h4
    have := discard_length h1
    have := whileLoop_length nextsection_tests_step_consumes _ _ _ _ _ (le_refl _) h3
    omega
  · obtain ⟨⟨z, p1⟩, h1, h2⟩ := Outcome.bind_eq_ok h
    simp only [Outcome.ok.injEq, Prod.mk.injEq] at h2
    obtain ⟨_, rfl⟩ := h2
    exact nextzonedata_length h1

theorem nextsection_step_consumes (lib : Library) : Consumes (nextsection_step lib) := by
  intro s p x p' h
  unfold nextsection_step at h
  cases hE : expect p (SET [YAML_SCALAR_EVENT, YAML_MAPPING_END_EVENT]) with
  | ok r =>
    obtain ⟨e, p1⟩ := r
    obtain ⟨rfl, _⟩ := expect_eq_ok hE
    rw [hE] at h
    cases e <;> simp only at h <;>
      first
      | (simp only [Outcome.ok.injEq, Prod.mk.injEq] at h; obtain ⟨_, rfl⟩ := h; simp)
      | (obtain ⟨⟨s1, p2⟩, h1, h2⟩ := Outcome.bind_eq_ok h
         simp only [Outcome.ok.injEq, Prod.mk.injEq] at h2
         obtain ⟨_, rfl⟩ := h2
         have := nextsection_field_length h1
         simp only [List.length_cons]; omega)
  | fatal => rw [hE] at h; simp at h
  | undef => rw [hE] at h; simp at h
  | nofuel => rw [hE] at h; simp at h

theorem nextsection_length {lib : Library} {s : Option struct_section}
    {parser parser' : yaml_parser_t}
    (h : nextsection lib parser = .ok (s, parser')) : parser'.length < parser.length := by
  unfold nextsection at h
  cases hE : expect parser (SET [YAML_DOCUMENT_START_EVENT, YAML_STREAM_END_EVENT]) with
  | ok r =>
    obtain ⟨e, p1⟩ := r
    obtain ⟨rfl, _⟩ := expect_eq_ok hE
    rw [hE] at h
    cases e <;> simp only at h <;>
      first
      | (simp only [Outcome.ok.injEq, Prod.mk.injEq] at h; obtain ⟨_, rfl⟩ := h; simp)
      | (obtain ⟨p2, h1, h2⟩ := Outcome.bind_eq_ok h
         obtain ⟨⟨s1, p3⟩, h3, h4⟩ := Outcome.bind_eq_ok h2
         obtain ⟨p4, h5, h6⟩ := Outcome.bind_eq_ok h4
         simp only [Outcome.ok.injEq, Prod.mk.injEq] at h6
         obtain ⟨_, rfl⟩ := h6
         have := discard_length h1
         have := whileLoop_length (nextsection_step_consumes lib) _ _ _ _ _ (le_refl _) h3
         have := discard_length h5
         simp only [List.length_cons] at *; omega)
  | fatal => rw [hE] at h; simp at h
  | undef => rw [hE] at h; simp at h
  | nofuel => rw [hE] at h; simp at h

theorem main_step_consumes (lib : Library) : Consumes (main_step lib) := by
  intro s p x p' h
  unfold main_step at h
  cases hE : nextsection lib p with
  | ok r =>
    obtain ⟨t, p1⟩ := r
    have := nextsection_length hE
    rw [hE] at h
    cases t <;> simp only [Outcome.ok.injEq, Prod.mk.injEq] at h <;>
      (obtain ⟨_, rfl⟩ := h; exact this)
  | fatal => rw [hE] at h; simp at h
  | undef => rw [hE] at h; simp at h
  | nofuel => rw [hE] at h; simp at h

theorem expect_one (event : yaml_event_t) (parser : yaml_parser_t) (a : Nat) :
    expect (event :: parser) (SET [a])
      = if event.type = a ∨ event.type = 0 then .ok (event, parser) else .fatal := by
  rw [SET_one, expect_cons_SET4]
  by_cases h : event.type = a ∨ event.type = 0
  · rw [if_pos h, if_pos (by tauto)]
  · rw [if_neg h, if_neg (by tauto)]

theorem expect_two (event : yaml_event_t) (parser : yaml_parser_t) (a b : Nat) :
    expect (event :: parser) (SET [a, b])
      = if event.type = a ∨ event.type = b ∨ event.type = 0 then .ok (event, parser)
        else .fatal := by
  rw [SET_two, expect_cons_SET4]
  by_cases h : event.type = a ∨ event.type = b ∨ event.type = 0
  · rw [if_pos h, if_pos (by tauto)]
  · rw [if_neg h, if_neg (by tauto)]

theorem expect_three (event : yaml_event_t) (parser : yaml_parser_t) (a b c : Nat) :
    expect (event :: parser) (SET [a, b, c])
      = if event.type = a ∨ event.type = b ∨ event.type = c ∨ event.type = 0 then
          .ok (event, parser)
        else .fatal := by
  rw [SET_three, expect_cons_SET4]

theorem discard_one (event : yaml_event_t) (parser : yaml_parser_t) (a : Nat) :
    discard (event :: parser) (SET [a])
      = if event.type = a ∨ event.type = 0 then .ok parser else .fatal := by
  unfold discard
  rw [expect_one]
  by_cases h : event.type = a ∨ event.type = 0
  · rw [if_pos h, if_pos h, Outcome.bind_ok]
  · rw [if_neg h, if_neg h, Outcome.bind_fatal]

theorem INSET_two (a b x : Nat) :
    INSET (SET [a, b]) x = 0 ↔ ¬ (x = a ∨ x = b ∨ x = 0) := by
  rw [SET_two, INSET_SET4_eq_zero_iff]
  tauto

theorem type_scalar (value : String) : (yaml_event_t.scalar value).type = 6 := by
  unfold yaml_event_t.type; exact id rfl

/-! ## The loops, one turn at a time -/

theorem whileLoop_inl {σ ρ : Type}
    {step : σ → yaml_parser_t → Outcome ((σ ⊕ ρ) × yaml_parser_t)} (hc : Consumes step)
    {s s' : σ} {parser parser' : yaml_parser_t}
    (h : step s parser = .ok (.inl s', parser')) :
    whileLoop step s parser = whileLoop step s' parser' := by
  rw [whileLoop_eq hc, h, Outcome.bind_ok]

theorem whileLoop_inr {σ ρ : Type}
    {step : σ → yaml_parser_t → Outcome ((σ ⊕ ρ) × yaml_parser_t)} (hc : Consumes step)
    {s : σ} {r : ρ} {parser parser' : yaml_parser_t}
    (h : step s parser = .ok (.inr r, parser')) :
    whileLoop step s parser = .ok (r, parser') := by
  rw [whileLoop_eq hc, h, Outcome.bind_ok]

theorem whileLoop_fatal {σ ρ : Type}
    {step : σ → yaml_parser_t → Outcome ((σ ⊕ ρ) × yaml_parser_t)} (hc : Consumes step)
    {s : σ} {parser : yaml_parser_t} (h : step s parser = .fatal) :
    whileLoop step s parser = .fatal := by
  rw [whileLoop_eq hc, h, Outcome.bind_fatal]

theorem whileLoop_undef {σ ρ : Type}
    {step : σ → yaml_parser_t → Outcome ((σ ⊕ ρ) × yaml_parser_t)} (hc : Consumes step)
    {s : σ} {parser : yaml_parser_t} (h : step s parser = .undef) :
    whileLoop step s parser = .undef := by
  rw [whileLoop_eq hc, h, Outcome.bind_undef]

/-- A turn that runs a builder and goes on with its result. -/
theorem whileLoop_bind {σ ρ : Type}
    {step : σ → yaml_parser_t → Outcome ((σ ⊕ ρ) × yaml_parser_t)} (hc : Consumes step)
    {s : σ} {parser : yaml_parser_t} {sub : Outcome (σ × yaml_parser_t)}
    (h : step s parser = sub.bind fun r => .ok (.inl r.1, r.2)) :
    whileLoop step s parser = sub.bind fun r => whileLoop step r.1 r.2 := by
  rw [whileLoop_eq hc, h]
  cases sub with
  | ok a => rw [Outcome.bind_ok, Outcome.bind_ok, Outcome.bind_ok]
  | fatal => rw [Outcome.bind_fatal, Outcome.bind_fatal, Outcome.bind_fatal]
  | undef => rw [Outcome.bind_undef, Outcome.bind_undef, Outcome.bind_undef]
  | nofuel => rw [Outcome.bind_nofuel, Outcome.bind_nofuel, Outcome.bind_nofuel]

/-! ### Scalar folder -/

theorem nextscalar_step_scalar (dst : Option String) (value : String) (parser : yaml_parser_t) :
    nextscalar_step dst (.scalar value :: parser)
      = .ok (.inl (some (dst.getD "" ++ value)), parser) := by
  rw [nextscalar_step, expect_two, type_scalar]
  simp only [YAML_SCALAR_EVENT, true_or, if_true]

theorem nextscalar_step_end (dst : Option String) (parser : yaml_parser_t) :
    nextscalar_step dst (.sequence_end :: parser) = .ok (.inr dst, parser) := by
  rw [nextscalar_step, expect_two]
  simp only [yaml_event_t.type, true_or, or_true, if_true]

theorem nextscalar_loop_scalar (dst : Option String) (value : String) (parser : yaml_parser_t) :
    whileLoop nextscalar_step dst (.scalar value :: parser)
      = whileLoop nextscalar_step (some (dst.getD "" ++ value)) parser :=
  whileLoop_inl nextscalar_step_consumes (nextscalar_step_scalar dst value parser)

theorem nextscalar_loop_end (dst : Option String) (parser : yaml_parser_t) :
    whileLoop nextscalar_step dst (.sequence_end :: parser) = .ok (dst, parser) :=
  whileLoop_inr nextscalar_step_consumes (nextscalar_step_end dst parser)

theorem nextscalar_scalar (value : String) (parser : yaml_parser_t) :
    nextscalar (.scalar value :: parser) = .ok (some value, parser) := by
  rw [nextscalar, expect_two, type_scalar]
  simp only [YAML_SCALAR_EVENT, true_or, if_true]

theorem nextscalar_sequence_start (parser : yaml_parser_t) :
    nextscalar (.sequence_start :: parser) = whileLoop nextscalar_step none parser := by
  rw [nextscalar, expect_two]
  simp only [yaml_event_t.type, true_or, or_true, if_true]

/-! ### Test builder -/

theorem nexttest_result_step_scalar (test : struct_test) (value : String)
    (parser : yaml_parser_t) :
    nexttest_result_step test (.scalar value :: parser)
      = if test.rcount < 2 then
          .ok (.inl { test with result := test.result.set test.rcount (some value),
                                rcount := test.rcount + 1 }, parser)
        else .fatal := by
  rw [nexttest_result_step, expect_two, type_scalar]
  simp only [YAML_SCALAR_EVENT, true_or, if_true]

theorem nexttest_result_step_end (test : struct_test) (parser : yaml_parser_t) :
    nexttest_result_step test (.sequence_end :: parser) = .ok (.inr test, parser) := by
  rw [nexttest_result_step, expect_two]
  simp only [yaml_event_t.type, true_or, or_true, if_true]

theorem nexttest_result_loop_scalar (test : struct_test) (value : String)
    (parser : yaml_parser_t) :
    whileLoop nexttest_result_step test (.scalar value :: parser)
      = if test.rcount < 2 then
          whileLoop nexttest_result_step
            { test with result := test.result.set test.rcount (some value),
                        rcount := test.rcount + 1 } parser
        else .fatal := by
  by_cases h : test.rcount < 2
  · rw [if_pos h]
    exact whileLoop_inl nexttest_result_step_consumes
      (by rw [nexttest_result_step_scalar, if_pos h])
  · rw [if_neg h]
    exact whileLoop_fatal nexttest_result_step_consumes
      (by rw [nexttest_result_step_scalar, if_neg h])

theorem nexttest_result_loop_end (test : struct_test) (parser : yaml_parser_t) :
    whileLoop nexttest_result_step test (.sequence_end :: parser) = .ok (test, parser) :=
  whileLoop_inr nexttest_result_step_consumes (nexttest_result_step_end test parser)

theorem nexttest_result_scalar (test : struct_test) (value : String) (parser : yaml_parser_t) :
    nexttest_result test (.scalar value :: parser)
      = .ok ({ test with result := test.result.set 0 (some value), rcount := 1 }, parser) := by
  rw [nexttest_result, expect_two, type_scalar]
  simp only [YAML_SCALAR_EVENT, true_or, if_true]

theorem nexttest_result_sequence_start (test : struct_test) (parser : yaml_parser_t) :
    nexttest_result test (.sequence_start :: parser)
      = whileLoop nexttest_result_step test parser := by
  rw [nexttest_result, expect_two]
  simp only [yaml_event_t.type, true_or, or_true, if_true]

theorem nexttest_step_scalar (test : struct_test) (txt : String) (parser : yaml_parser_t) :
    nexttest_step test (.scalar txt :: parser)
      = (nexttest_field test txt parser).bind fun r => .ok (.inl r.1, r.2) := by
  rw [nexttest_step, expect_two, type_scalar]
  simp only [YAML_SCALAR_EVENT, true_or, if_true]

theorem nexttest_step_end (test : struct_test) (parser : yaml_parser_t) :
    nexttest_step test (.mapping_end :: parser) = .ok (.inr test, parser) := by
  rw [nexttest_step, expect_two]
  simp only [yaml_event_t.type, true_or, or_true, if_true]

theorem nexttest_loop_scalar (test : struct_test) (txt : String) (parser : yaml_parser_t) :
    whileLoop nexttest_step test (.scalar txt :: parser)
      = (nexttest_field test txt parser).bind fun r => whileLoop nexttest_step r.1 r.2 :=
  whileLoop_bind nexttest_step_consumes (nexttest_step_scalar test txt parser)

theorem nexttest_loop_end (test : struct_test) (parser : yaml_parser_t) :
    whileLoop nexttest_step test (.mapping_end :: parser) = .ok (test, parser) :=
  whileLoop_inr nexttest_step_consumes (nexttest_step_end test parser)

theorem nexttest_mapping_end (parser : yaml_parser_t) :
    nexttest (.mapping_end :: parser) = .ok (none, parser) := by
  rw [nexttest, expect_two]
  simp only [yaml_event_t.type, true_or, or_true, if_true]

theorem nexttest_scalar (name : String) (parser : yaml_parser_t) :
    nexttest (.scalar name :: parser)
      = (discard parser (SET [YAML_MAPPING_START_EVENT])).bind fun parser =>
        (whileLoop nexttest_step { name := some name } parser).bind fun r =>
        .ok (some r.1, r.2) := by
  rw [nexttest, expect_two, type_scalar]
  simp only [YAML_SCALAR_EVENT, true_or, if_true]

theorem discard_mapping_start (parser : yaml_parser_t) :
    discard (.mapping_start :: parser) (SET [YAML_MAPPING_START_EVENT]) = .ok parser := by
  rw [discard_one]
  simp only [yaml_event_t.type, true_or, if_true]

theorem discard_mapping_end (parser : yaml_parser_t) :
    discard (.mapping_end :: parser) (SET [YAML_MAPPING_END_EVENT]) = .ok parser := by
  rw [discard_one]
  simp only [yaml_event_t.type, true_or, if_true]

theorem discard_sequence_start (parser : yaml_parser_t) :
    discard (.sequence_start :: parser) (SET [YAML_SEQUENCE_START_EVENT]) = .ok parser := by
  rw [discard_one]
  simp only [yaml_event_t.type, true_or, if_true]

theorem discard_sequence_end (parser : yaml_parser_t) :
    discard (.sequence_end :: parser) (SET [YAML_SEQUENCE_END_EVENT]) = .ok parser := by
  rw [discard_one]
  simp only [yaml_event_t.type, true_or, if_true]

theorem discard_document_end (parser : yaml_parser_t) :
    discard (.document_end :: parser) (SET [YAML_DOCUMENT_END_EVENT]) = .ok parser := by
  rw [discard_one]
  simp only [yaml_event_t.type, true_or, if_true]

theorem discard_stream_start (parser : yaml_parser_t) :
    discard (.stream_start :: parser) (SET [YAML_STREAM_START_EVENT]) = .ok parser := by
  rw [discard_one]
  simp only [yaml_event_t.type, true_or, if_true]

theorem discard_scalar (value : String) (parser : yaml_parser_t) :
    discard (.scalar value :: parser) (SET [YAML_SCALAR_EVENT]) = .ok parser := by
  rw [discard_one, type_scalar]
  simp only [YAML_SCALAR_EVENT, true_or, if_true]

theorem expect_scalar (value : String) (parser : yaml_parser_t) :
    expect (.scalar value :: parser) (SET [YAML_SCALAR_EVENT])
      = .ok (.scalar value, parser) := by
  rw [expect_one, type_scalar]
  simp only [YAML_SCALAR_EVENT, true_or, if_true]

/-! ### Segmented text -/

theorem nextspf_step_scalar (txt : dns_txt) (value : String) (parser : yaml_parser_t) :
    nextspf_step txt (.scalar value :: parser)
      = if size_sub txt.size txt.len < 255 then .fatal
        else if 255 < value.length then .fatal
        else
          match memcpy txt.data txt.len value.data with
          | none => .undef
          | some data =>
            .ok (.inl { txt with data := data, len := size_add txt.len 255 }, parser) := by
  rw [nextspf_step, expect_two, type_scalar]
  simp only [YAML_SCALAR_EVENT, true_or, if_true]

theorem nextspf_step_end (txt : dns_txt) (parser : yaml_parser_t) :
    nextspf_step txt (.sequence_end :: parser) = .ok (.inr txt, parser) := by
  rw [nextspf_step, expect_two]
  simp only [yaml_event_t.type, true_or, or_true, if_true]

theorem nextspf_loop_scalar (txt : dns_txt) (value : String) (parser : yaml_parser_t) :
    whileLoop nextspf_step txt (.scalar value :: parser)
      = if size_sub txt.size txt.len < 255 then .fatal
        else if 255 < value.length then .fatal
        else
          match memcpy txt.data txt.len value.data with
          | none => .undef
          | some data =>
            whileLoop nextspf_step { txt with data := data, len := size_add txt.len 255 }
              parser := by
  by_cases h1 : size_sub txt.size txt.len < 255
  · rw [if_pos h1]
    exact whileLoop_fatal nextspf_step_consumes (by rw [nextspf_step_scalar, if_pos h1])
  · rw [if_neg h1]
    by_cases h2 : 255 < value.length
    · rw [if_pos h2]
      exact whileLoop_fatal nextspf_step_consumes
        (by rw [nextspf_step_scalar, if_neg h1, if_pos h2])
    · rw [if_neg h2]
      cases hm : memcpy txt.data txt.len value.data with
      | none =>
        exact whileLoop_undef nextspf_step_consumes
          (by rw [nextspf_step_scalar, if_neg h1, if_neg h2, hm])
      | some data =>
        exact whileLoop_inl nextspf_step_consumes
          (by rw [nextspf_step_scalar, if_neg h1, if_neg h2, hm])

theorem nextspf_loop_end (txt : dns_txt) (parser : yaml_parser_t) :
    whileLoop nextspf_step txt (.sequence_end :: parser) = .ok (txt, parser) :=
  whileLoop_inr nextspf_step_consumes (nextspf_step_end txt parser)

theorem nextspf_scalar (txt : dns_txt) (value : String) (parser : yaml_parser_t) :
    nextspf txt (.scalar value :: parser)
      = if value.length < txt.size then
          match memcpy (List.replicate txt.data.length ' ') 0 value.data with
          | none => .undef
          | some data => .ok ({ txt with data := data, len := value.length }, parser)
        else .fatal := by
  rw [nextspf, expect_two, type_scalar]
  simp only [YAML_SCALAR_EVENT, true_or, if_true]

theorem nextspf_sequence_start (txt : dns_txt) (parser : yaml_parser_t) :
    nextspf txt (.sequence_start :: parser)
      = whileLoop nextspf_step { txt with data := List.replicate txt.data.length ' ' }
          parser := by
  rw [nextspf, expect_two]
  simp only [yaml_event_t.type, true_or, or_true, if_true]

theorem nexttest_field_result (test : struct_test) (parser : yaml_parser_t) :
    nexttest_field test "result" parser = nexttest_result test parser := by
  rw [nexttest_field]
  simp

theorem nexttest_field_unknown (test : struct_test) (txt : String) (parser : yaml_parser_t)
    (h : txt ∉ ["description", "comment", "spec", "helo", "host", "mailfrom", "result",
      "explanation"]) :
    nexttest_field test txt parser
      = (discard parser (SET [YAML_SCALAR_EVENT])).bind fun parser => .ok (test, parser) := by
  simp only [List.mem_cons, List.mem_singleton, List.not_mem_nil, or_false, not_or] at h
  obtain ⟨h1, h2, h3, h4, h5, h6, h7, h8⟩ := h
  rw [nexttest_field, if_neg h1, if_neg h2, if_neg h3, if_neg h4, if_neg h5, if_neg h6,
    if_neg h7, if_neg h8]

/-! ### Zone builder -/

theorem nextzonedata_records_step_mapping_start (lib : Library) (rrname : String)
    (zonedata : cache) (parser : yaml_parser_t) :
    nextzonedata_records_step lib rrname zonedata (.mapping_start :: parser)
      = (nextzonedata_record lib rrname zonedata parser).bind fun r =>
          .ok (.inl r.1, r.2) := by
  rw [nextzonedata_records_step, expect_three]
  simp [INSET_two, yaml_event_t.type]

theorem nextzonedata_records_step_scalar (lib : Library) (rrname : String)
    (zonedata : cache) (value : String) (parser : yaml_parser_t) :
    nextzonedata_records_step lib rrname zonedata (.scalar value :: parser)
      = .ok (.inl zonedata, parser) := by
  rw [nextzonedata_records_step, expect_three]
  simp [INSET_two, type_scalar]

theorem nextzonedata_records_step_end (lib : Library) (rrname : String)
    (zonedata : cache) (parser : yaml_parser_t) :
    nextzonedata_records_step lib rrname zonedata (.sequence_end :: parser)
      = .ok (.inr zonedata, parser) := by
  rw [nextzonedata_records_step, expect_three]
  simp [INSET_two, yaml_event_t.type]

theorem nextzonedata_records_mapping_start (lib : Library) (rrname : String)
    (zonedata : cache) (parser : yaml_parser_t) :
    nextzonedata_records lib rrname zonedata (.mapping_start :: parser)
      = (nextzonedata_record lib rrname zonedata parser).bind fun r =>
          nextzonedata_records lib rrname r.1 r.2 :=
  whileLoop_bind (nextzonedata_records_step_consumes lib rrname)
    (nextzonedata_records_step_mapping_start lib rrname zonedata parser)

theorem nextzonedata_records_scalar (lib : Library) (rrname : String)
    (zonedata : cache) (value : String) (parser : yaml_parser_t) :
    nextzonedata_records lib rrname zonedata (.scalar value :: parser)
      = nextzonedata_records lib rrname zonedata parser :=
  whileLoop_inl (nextzonedata_records_step_consumes lib rrname)
    (nextzonedata_records_step_scalar lib rrname zonedata value parser)

theorem nextzonedata_records_end (lib : Library) (rrname : String)
    (zonedata : cache) (parser : yaml_parser_t) :
    nextzonedata_records lib rrname zonedata (.sequence_end :: parser)
      = .ok (zonedata, parser) :=
  whileLoop_inr (nextzonedata_records_step_consumes lib rrname)
    (nextzonedata_records_step_end lib rrname zonedata parser)

theorem nextzonedata_record_scalar (lib : Library) (rrname tag : String) (zonedata : cache)
    (parser : yaml_parser_t) :
    nextzonedata_record lib rrname zonedata (.scalar tag :: parser)
      = if lib.dns_itype tag = 0 then .fatal
        else
          (nextzonedata_switch lib (lib.dns_itype tag) parser).bind fun r =>
          match r.1 with
          | some anyrr =>
            if lib.cache_insert zonedata ⟨rrname, lib.dns_itype tag, 3600, anyrr⟩ = 0 then
              (discard r.2 (SET [YAML_MAPPING_END_EVENT])).bind fun parser =>
              .ok (zonedata ++ [⟨rrname, lib.dns_itype tag, 3600, anyrr⟩], parser)
            else .fatal
          | none =>
            (discard r.2 (SET [YAML_MAPPING_END_EVENT])).bind fun parser =>
              .ok (zonedata, parser) := by
  rw [nextzonedata_record, expect_scalar]

theorem nextzonedata_switch_a (lib : Library) (value : String) (parser : yaml_parser_t) :
    nextzonedata_switch lib DNS_T_A (.scalar value :: parser)
      = match lib.inet_pton AF_INET value with
        | some addr => .ok (some (.a addr), parser)
        | none => .fatal := by
  rw [nextzonedata_switch, if_pos rfl, expect_scalar]

theorem nextzonedata_switch_aaaa (lib : Library) (value : String) (parser : yaml_parser_t) :
    nextzonedata_switch lib DNS_T_AAAA (.scalar value :: parser)
      = match lib.inet_pton AF_INET6 value with
        | some addr => .ok (some (.aaaa addr), parser)
        | none => .fatal := by
  rw [nextzonedata_switch, if_neg (by decide), if_pos rfl, expect_scalar]

theorem nextzonedata_switch_ptr (lib : Library) (value : String) (parser : yaml_parser_t) :
    nextzonedata_switch lib DNS_T_PTR (.scalar value :: parser)
      = if (lib.dns_d_init value).1 then .ok (some (.ptr (lib.dns_d_init value).2), parser)
        else .ok (none, parser) := by
  rw [nextzonedata_switch, if_neg (by decide), if_neg (by decide), if_pos rfl, expect_scalar]

theorem nextzonedata_switch_mx (lib : Library) (preference host : String)
    (parser : yaml_parser_t) :
    nextzonedata_switch lib DNS_T_MX
        (.sequence_start :: .scalar preference :: .scalar host :: .sequence_end :: parser)
      = if host.length = 0 then .ok (none, parser)
        else .ok (some (.mx (mx_preference (lib.atoi preference)) (lib.dns_d_init host).2), parser) := by
  rw [nextzonedata_switch, if_neg (by decide), if_neg (by decide), if_neg (by decide),
    if_pos rfl, discard_sequence_start, Outcome.bind_ok, expect_scalar]
  simp only
  rw [expect_scalar]
  simp only
  rw [discard_sequence_end, Outcome.bind_ok]

theorem nextzonedata_switch_txt (lib : Library) (rrtype : Nat) (parser : yaml_parser_t)
    (h : rrtype = DNS_T_SPF ∨ rrtype = DNS_T_TXT) :
    nextzonedata_switch lib rrtype parser
      = (nextspf lib.dns_any_init_txt parser).bind fun r => .ok (some (.txt r.1), r.2) := by
  have h1 : rrtype ≠ DNS_T_A := by rcases h with h | h <;> rw [h] <;> decide
  have h2 : rrtype ≠ DNS_T_AAAA := by rcases h with h | h <;> rw [h] <;> decide
  have h3 : rrtype ≠ DNS_T_PTR := by rcases h with h | h <;> rw [h] <;> decide
  have h4 : rrtype ≠ DNS_T_MX := by rcases h with h | h <;> rw [h] <;> decide
  rw [nextzonedata_switch, if_neg h1, if_neg h2, if_neg h3, if_neg h4, if_pos h]

theorem nextzonedata_switch_other (lib : Library) (rrtype : Nat) (parser : yaml_parser_t)
    (h : rrtype ∉ [DNS_T_A, DNS_T_AAAA, DNS_T_PTR, DNS_T_MX, DNS_T_SPF, DNS_T_TXT]) :
    nextzonedata_switch lib rrtype parser
      = (discard parser (SET [YAML_SCALAR_EVENT])).bind fun parser => .ok (none, parser) := by
  simp only [List.mem_cons, List.mem_singleton, List.not_mem_nil, or_false, not_or] at h
  obtain ⟨h1, h2, h3, h4, h5, h6⟩ := h
  rw [nextzonedata_switch, if_neg h1, if_neg h2, if_neg h3, if_neg h4,
    if_neg (by rintro (h | h) <;> contradiction)]

theorem nextzonedata_step_scalar (lib : Library) (zonedata : cache) (value : String)
    (parser : yaml_parser_t) :
    nextzonedata_step lib zonedata (.scalar value :: parser)
      = (discard parser (SET [YAML_SEQUENCE_START_EVENT])).bind fun parser =>
        (nextzonedata_records lib (lib.dns_d_init value).2 zonedata parser).bind fun r =>
        .ok (.inl r.1, r.2) := by
  rw [nextzonedata_step, expect_two, type_scalar]
  simp only [YAML_SCALAR_EVENT, true_or, if_true]

theorem nextzonedata_step_end (lib : Library) (zonedata : cache) (parser : yaml_parser_t) :
    nextzonedata_step lib zonedata (.mapping_end :: parser) = .ok (.inr zonedata, parser) := by
  rw [nextzonedata_step, expect_two]
  simp only [yaml_event_t.type, true_or, or_true, if_true]

/-- The loop over owner names at a name whose record list opens properly. -/
theorem nextzonedata_loop_scalar (lib : Library) (zonedata : cache) (value : String)
    (parser : yaml_parser_t) :
    whileLoop (nextzonedata_step lib) zonedata (.scalar value :: .sequence_start :: parser)
      = (nextzonedata_records lib (lib.dns_d_init value).2 zonedata parser).bind fun r =>
        whileLoop (nextzonedata_step lib) r.1 r.2 :=
  whileLoop_bind (nextzonedata_step_consumes lib)
    (by rw [nextzonedata_step_scalar, discard_sequence_start, Outcome.bind_ok])

theorem nextzonedata_loop_end (lib : Library) (zonedata : cache) (parser : yaml_parser_t) :
    whileLoop (nextzonedata_step lib) zonedata (.mapping_end :: parser)
      = .ok (zonedata, parser) :=
  whileLoop_inr (nextzonedata_step_consumes lib) (nextzonedata_step_end lib zonedata parser)

theorem nextzonedata_mapping_start (lib : Library) (parser : yaml_parser_t)
    (hopen : lib.cache_open = true) :
    nextzonedata lib (.mapping_start :: parser)
      = whileLoop (nextzonedata_step lib) [] parser := by
  rw [nextzonedata, if_pos hopen, discard_mapping_start, Outcome.bind_ok]

/-! ### Section builder and driver -/

theorem nextsection_tests_loop (tests : List struct_test) (parser : yaml_parser_t) :
    whileLoop nextsection_tests_step tests parser
      = (nexttest parser).bind fun r =>
          match r.1 with
          | some test => whileLoop nextsection_tests_step (tests ++ [test]) r.2
          | none => .ok (tests, r.2) := by
  cases hn : nexttest parser with
  | ok r =>
    obtain ⟨t, p⟩ := r
    rw [Outcome.bind_ok]
    cases t with
    | none =>
      exact whileLoop_inr nextsection_tests_step_consumes
        (by rw [nextsection_tests_step, hn])
    | some t =>
      exact whileLoop_inl nextsection_tests_step_consumes
        (by rw [nextsection_tests_step, hn])
  | fatal =>
    rw [Outcome.bind_fatal]
    exact whileLoop_fatal nextsection_tests_step_consumes
      (by rw [nextsection_tests_step, hn])
  | undef =>
    rw [Outcome.bind_undef]
    exact whileLoop_undef nextsection_tests_step_consumes
      (by rw [nextsection_tests_step, hn])
  | nofuel =>
    rw [Outcome.bind_nofuel, whileLoop_eq nextsection_tests_step_consumes,
      nextsection_tests_step, hn]
    simp only [Outcome.bind_nofuel]

theorem nextsection_field_description (lib : Library) (s : struct_section)
    (parser : yaml_parser_t) :
    nextsection_field lib s "description" parser
      = (nextscalar parser).bind fun r => .ok ({ s with descr := r.1 }, r.2) := by
  rw [nextsection_field, if_pos rfl]

theorem nextsection_field_comment (lib : Library) (s : struct_section)
    (parser : yaml_parser_t) :
    nextsection_field lib s "comment" parser
      = (nextscalar parser).bind fun r => .ok ({ s with comment := r.1 }, r.2) := by
  rw [nextsection_field, if_neg (by decide), if_pos rfl]

theorem nextsection_field_tests (lib : Library) (s : struct_section)
    (parser : yaml_parser_t) :
    nextsection_field lib s "tests" (.mapping_start :: parser)
      = (whileLoop nextsection_tests_step s.tests parser).bind fun r =>
          .ok ({ s with tests := r.1 }, r.2) := by
  rw [nextsection_field, if_neg (by decide), if_neg (by decide), if_pos rfl,
    discard_mapping_start, Outcome.bind_ok]

theorem nextsection_field_zonedata (lib : Library) (s : struct_section)
    (parser : yaml_parser_t) :
    nextsection_field lib s "zonedata" parser
      = (nextzonedata lib parser).bind fun r =>
          .ok ({ s with zonedata := some r.1 }, r.2) := by
  rw [nextsection_field, if_neg (by decide), if_neg (by decide), if_neg (by decide),
    if_pos rfl]

theorem nextsection_field_unknown (lib : Library) (s : struct_section) (txt : String)
    (parser : yaml_parser_t)
    (h : txt ∉ ["description", "comment", "tests", "zonedata"]) :
    nextsection_field lib s txt parser = .fatal := by
  simp only [List.mem_cons, List.mem_singleton, List.not_mem_nil, or_false, not_or] at h
  obtain ⟨h1, h2, h3, h4⟩ := h
  rw [nextsection_field, if_neg h1, if_neg h2, if_neg h3, if_neg h4]

theorem nextsection_step_scalar (lib : Library) (s : struct_section) (txt : String)
    (parser : yaml_parser_t) :
    nextsection_step lib s (.scalar txt :: parser)
      = (nextsection_field lib s txt parser).bind fun r => .ok (.inl r.1, r.2) := by
  rw [nextsection_step, expect_two, type_scalar]
  simp only [YAML_SCALAR_EVENT, true_or, if_true]

theorem nextsection_step_end (lib : Library) (s : struct_section) (parser : yaml_parser_t) :
    nextsection_step lib s (.mapping_end :: parser) = .ok (.inr s, parser) := by
  rw [nextsection_step, expect_two]
  simp only [yaml_event_t.type, true_or, or_true, if_true]

theorem nextsection_loop_scalar (lib : Library) (s : struct_section) (txt : String)
    (parser : yaml_parser_t) :
    whileLoop (nextsection_step lib) s (.scalar txt :: parser)
      = (nextsection_field lib s txt parser).bind fun r =>
          whileLoop (nextsection_step lib) r.1 r.2 :=
  whileLoop_bind (nextsection_step_consumes lib) (nextsection_step_scalar lib s txt parser)

theorem nextsection_loop_end (lib : Library) (s : struct_section) (parser : yaml_parser_t) :
    whileLoop (nextsection_step lib) s (.mapping_end :: parser) = .ok (s, parser) :=
  whileLoop_inr (nextsection_step_consumes lib) (nextsection_step_end lib s parser)

theorem nextsection_stream_end (lib : Library) (parser : yaml_parser_t) :
    nextsection lib (.stream_end :: parser) = .ok (none, parser) := by
  rw [nextsection, expect_two]
  simp only [yaml_event_t.type, true_or, or_true, if_true]

theorem nextsection_document_start (lib : Library) (parser : yaml_parser_t) :
    nextsection lib (.document_start :: .mapping_start :: parser)
      = (whileLoop (nextsection_step lib) {} parser).bind fun r =>
        (discard r.2 (SET [YAML_DOCUMENT_END_EVENT])).bind fun parser =>
        .ok (some r.1, parser) := by
  rw [nextsection, expect_two]
  simp only [yaml_event_t.type, true_or, or_true, if_true]
  rw [discard_mapping_start, Outcome.bind_ok]

theorem main_loop (lib : Library) (sections : List struct_section) (parser : yaml_parser_t) :
    whileLoop (main_step lib) sections parser
      = (nextsection lib parser).bind fun r =>
          match r.1 with
          | some s => whileLoop (main_step lib) (sections ++ [s]) r.2
          | none => .ok (sections, r.2) := by
  cases hn : nextsection lib parser with
  | ok r =>
    obtain ⟨t, p⟩ := r
    rw [Outcome.bind_ok]
    cases t with
    | none =>
      exact whileLoop_inr (main_step_consumes lib) (by rw [main_step, hn])
    | some t =>
      exact whileLoop_inl (main_step_consumes lib) (by rw [main_step, hn])
  | fatal =>
    rw [Outcome.bind_fatal]
    exact whileLoop_fatal (main_step_consumes lib) (by rw [main_step, hn])
  | undef =>
    rw [Outcome.bind_undef]
    exact whileLoop_undef (main_step_consumes lib) (by rw [main_step, hn])
  | nofuel =>
    rw [Outcome.bind_nofuel, whileLoop_eq (main_step_consumes lib), main_step, hn]
    simp only [Outcome.bind_nofuel]

/-! ## Scalar folder: what it returns -/

theorem nextscalar_loop_scalars (cs : List String) :
    ∀ (dst : Option String) (rest : yaml_parser_t),
      whileLoop nextscalar_step dst (cs.map .scalar ++ .sequence_end :: rest)
        = .ok (cs.foldl (fun d c => some (d.getD "" ++ c)) dst, rest) := by
  induction cs with
  | nil =>
    intro dst rest
    rw [List.map_nil, List.nil_append, nextscalar_loop_end, List.foldl_nil]
  | cons c cs ih =>
    intro dst rest
    rw [List.map_cons, List.cons_append, nextscalar_loop_scalar, ih, List.foldl_cons]

theorem foldl_some_append (cs : List String) :
    ∀ a : String, cs.foldl (fun d c => some (Option.getD d "" ++ c)) (some a)
      = some (cs.foldl (fun r c => r ++ c) a) := by
  induction cs with
  | nil => intro a; rfl
  | cons c cs ih => intro a; simp only [List.foldl_cons, Option.getD_some, ih]

/-- The empty sequence leaves `*dst` null. -/
theorem nextscalar_empty_sequence (rest : yaml_parser_t) :
    nextscalar (.sequence_start :: .sequence_end :: rest) = .ok (none, rest) := by
  rw [nextscalar_sequence_start, nextscalar_loop_end]

/-- C1, as stated, fails at `n = 0`: on the empty sequence the source sets
`*dst` to the null pointer (line 182) and the loop never allocates, so
`nextscalar` returns null and not the empty concatenation. -/
theorem nextscalar_empty_sequence_is_null :
    (([] : List String).map yaml_event_t.scalar = [])
      ∧ nextscalar (.sequence_start :: (([] : List String).map .scalar
          ++ .sequence_end :: [.mapping_end])) = .ok (none, [.mapping_end])
      ∧ nextscalar (.sequence_start :: (([] : List String).map .scalar
          ++ .sequence_end :: [.mapping_end]))
        ≠ .ok (some (String.join []), [.mapping_end]) := by
  refine ⟨rfl, ?_, ?_⟩
  · rw [List.map_nil, List.nil_append, nextscalar_sequence_start, nextscalar_loop_end]
  · rw [List.map_nil, List.nil_append, nextscalar_sequence_start, nextscalar_loop_end]
    simp

/-- C1, amended. Scalar folder: on sequence-start, scalars `c1 .. cn` (`n ≥ 1`),
sequence-end, `nextscalar` returns the concatenation `c1 ++ ... ++ cn` with
nothing in between, and on a lone scalar `s` it returns `s`; in both cases the
events that remain are exactly those after the value. -/
theorem nextscalar_concatenates (cs : List String) (hcs : cs ≠ []) (s : String)
    (rest : yaml_parser_t) :
    nextscalar (.sequence_start :: (cs.map .scalar ++ .sequence_end :: rest))
        = .ok (some (String.join cs), rest)
      ∧ nextscalar (.scalar s :: rest) = .ok (some s, rest) := by
  refine ⟨?_, nextscalar_scalar s rest⟩
  rw [nextscalar_sequence_start, nextscalar_loop_scalars]
  cases cs with
  | nil => exact absurd rfl hcs
  | cons c cs =>
    rw [List.foldl_cons, Option.getD_none, foldl_some_append]
    rfl

/-- C1 at `["ab", "cd", "ef"]` and at the lone scalar `"xyz"`. -/
theorem nextscalar_concatenates_witness :
    nextscalar [.sequence_start, .scalar "ab", .scalar "cd", .scalar "ef", .sequence_end,
        .mapping_end] = .ok (some "abcdef", [.mapping_end])
      ∧ nextscalar [.scalar "xyz", .mapping_end] = .ok (some "xyz", [.mapping_end]) :=
  nextscalar_concatenates ["ab", "cd", "ef"] (by decide) "xyz" [.mapping_end]

/-! ## Test builder: the result list -/

/-- C3. In `nexttest`, for a test mapping whose one key is `result`: a lone
scalar gives `rcount = 1` with that scalar in slot 0; a sequence of two scalars
gives `rcount = 2` with both scalars in order; a sequence that goes on with a
third scalar ends the run fatally, whatever follows, and no test is returned. -/
theorem nexttest_result_list (name r r1 r2 r3 : String) (rest more : yaml_parser_t) :
    nexttest (.scalar name :: .mapping_start :: .scalar "result" :: .scalar r ::
        .mapping_end :: rest)
        = .ok (some { name := some name, result := [some r, none], rcount := 1 }, rest)
      ∧ nexttest (.scalar name :: .mapping_start :: .scalar "result" :: .sequence_start ::
          .scalar r1 :: .scalar r2 :: .sequence_end :: .mapping_end :: rest)
        = .ok (some { name := some name, result := [some r1, some r2], rcount := 2 }, rest)
      ∧ nexttest (.scalar name :: .mapping_start :: .scalar "result" :: .sequence_start ::
          .scalar r1 :: .scalar r2 :: .scalar r3 :: more)
        = .fatal := by
  refine ⟨?_, ?_, ?_⟩
  · rw [nexttest_scalar, discard_mapping_start, Outcome.bind_ok, nexttest_loop_scalar,
      nexttest_field_result, nexttest_result_scalar, Outcome.bind_ok, nexttest_loop_end,
      Outcome.bind_ok]
    rfl
  · rw [nexttest_scalar, discard_mapping_start, Outcome.bind_ok, nexttest_loop_scalar,
      nexttest_field_result, nexttest_result_sequence_start, nexttest_result_loop_scalar,
      if_pos (by simp), nexttest_result_loop_scalar, if_pos (by simp),
      nexttest_result_loop_end, Outcome.bind_ok, nexttest_loop_end, Outcome.bind_ok]
    rfl
  · rw [nexttest_scalar, discard_mapping_start, Outcome.bind_ok, nexttest_loop_scalar,
      nexttest_field_result, nexttest_result_sequence_start, nexttest_result_loop_scalar,
      if_pos (by simp), nexttest_result_loop_scalar, if_pos (by simp),
      nexttest_result_loop_scalar, if_neg (by simp), Outcome.bind_fatal,
      Outcome.bind_fatal]

/-! ## Section builder: the test list -/

theorem whileLoop_invariant {σ ρ : Type}
    {step : σ → yaml_parser_t → Outcome ((σ ⊕ ρ) × yaml_parser_t)} (hc : Consumes step)
    (I : σ → Prop) (Q : ρ → Prop)
    (hcont : ∀ s parser s' parser', I s → step s parser = .ok (.inl s', parser') → I s')
    (hexit : ∀ s parser r parser', I s → step s parser = .ok (.inr r, parser') → Q r) :
    ∀ (n : Nat) (s : σ) (parser : yaml_parser_t) (r : ρ) (parser' : yaml_parser_t),
      parser.length ≤ n → I s → whileLoop step s parser = .ok (r, parser') → Q r := by
  intro n
  induction n with
  | zero =>
    intro s parser r parser' hn hI h
    rw [whileLoop_eq hc] at h
    obtain ⟨⟨x, p1⟩, hst, _⟩ := Outcome.bind_eq_ok h
    have := hc s parser x p1 hst
    omega
  | succ n ih =>
    intro s parser r parser' hn hI h
    rw [whileLoop_eq hc] at h
    obtain ⟨⟨x, p1⟩, hst, hrest⟩ := Outcome.bind_eq_ok h
    have hlen := hc s parser x p1 hst
    cases x with
    | inl s' => exact ih s' p1 r parser' (by omega) (hcont s parser s' p1 hI hst) hrest
    | inr y =>
      simp only [Outcome.ok.injEq, Prod.mk.injEq] at hrest
      obtain ⟨rfl, _⟩ := hrest
      exact hexit s parser y p1 hI hst

theorem nexttest_result_step_name (test : struct_test) (parser : yaml_parser_t)
    (x : struct_test ⊕ struct_test) (parser' : yaml_parser_t)
    (h : nexttest_result_step test parser = .ok (x, parser')) :
    (∀ t, x = .inl t → t.name = test.name) ∧ (∀ t, x = .inr t → t.name = test.name) := by
  unfold nexttest_result_step at h
  cases hE : expect parser (SET [YAML_SCALAR_EVENT, YAML_SEQUENCE_END_EVENT]) with
  | ok r =>
    obtain ⟨e, p1⟩ := r
    rw [hE] at h
    cases e <;> simp only at h <;> (try split_ifs at h) <;>
      simp only [Outcome.ok.injEq, Prod.mk.injEq, reduceCtorEq] at h <;>
      obtain ⟨rfl, _⟩ := h <;> simp
  | fatal => rw [hE] at h; simp at h
  | undef => rw [hE] at h; simp at h
  | nofuel => rw [hE] at h; simp at h

theorem nexttest_result_name {test test' : struct_test} {parser parser' : yaml_parser_t}
    (h : nexttest_result test parser = .ok (test', parser')) : test'.name = test.name := by
  unfold nexttest_result at h
  cases hE : expect parser (SET [YAML_SCALAR_EVENT, YAML_SEQUENCE_START_EVENT]) with
  | ok r =>
    obtain ⟨e, p1⟩ := r
    rw [hE] at h
    cases e <;> simp only at h <;>
      first
      | (simp only [Outcome.ok.injEq, Prod.mk.injEq] at h; obtain ⟨rfl, _⟩ := h; rfl)
      | exact whileLoop_invariant nexttest_result_step_consumes
          (fun t => t.name = test.name) (fun t => t.name = test.name)
          (fun s p s' p' hI hs =>
            ((nexttest_result_step_name s p _ p' hs).1 s' rfl).trans hI)
          (fun s p r p' hI hs =>
            ((nexttest_result_step_name s p _ p' hs).2 r rfl).trans hI)
          _ _ _ _ _ (le_refl _) rfl h
  | fatal => rw [hE] at h; simp at h
  | undef => rw [hE] at h; simp at h
  | nofuel => rw [hE] at h; simp at h

theorem nexttest_field_name {test test' : struct_test} {txt : String}
    {parser parser' : yaml_parser_t}
    (h : nexttest_field test txt parser = .ok (test', parser')) : test'.name = test.name := by
  unfold nexttest_field at h
  split_ifs at h
  all_goals
    first
    | exact nexttest_result_name h
    | (obtain ⟨r, _, h2⟩ := Outcome.bind_eq_ok h
       simp only [Outcome.ok.injEq, Prod.mk.injEq] at h2
       obtain ⟨rfl, _⟩ := h2
       rfl)

theorem nexttest_step_name (test : struct_test) (parser : yaml_parser_t)
    (x : struct_test ⊕ struct_test) (parser' : yaml_parser_t)
    (h : nexttest_step test parser = .ok (x, parser')) :
    (∀ t, x = .inl t → t.name = test.name) ∧ (∀ t, x = .inr t → t.name = test.name) := by
  unfold nexttest_step at h
  cases hE : expect parser (SET [YAML_SCALAR_EVENT, YAML_MAPPING_END_EVENT]) with
  | ok r =>
    obtain ⟨e, p1⟩ := r
    rw [hE] at h
    cases e <;> simp only at h <;>
      first
      | (simp only [Outcome.ok.injEq, Prod.mk.injEq] at h; obtain ⟨rfl, _⟩ := h; simp)
      | (obtain ⟨⟨t1, p2⟩, h1, h2⟩ := Outcome.bind_eq_ok h
         simp only [Outcome.ok.injEq, Prod.mk.injEq] at h2
         obtain ⟨rfl, _⟩ := h2
         have hn := nexttest_field_name h1
         simp [hn])
  | fatal => rw [hE] at h; simp at h
  | undef => rw [hE] at h; simp at h
  | nofuel => rw [hE] at h; simp at h

/-- The test returned for an entry carries the entry's key as its name. -/
theorem nexttest_name {name : String} {test : struct_test} {parser parser' : yaml_parser_t}
    (h : nexttest (.scalar name :: parser) = .ok (some test, parser')) :
    test.name = some name := by
  rw [nexttest_scalar] at h
  obtain ⟨p2, _, h2⟩ := Outcome.bind_eq_ok h
  obtain ⟨⟨t1, p3⟩, h3, h4⟩ := Outcome.bind_eq_ok h2
  simp only [Outcome.ok.injEq, Prod.mk.injEq, Option.some.injEq] at h4
  obtain ⟨rfl, _⟩ := h4
  exact whileLoop_invariant nexttest_step_consumes
    (fun t => t.name = some name) (fun t => t.name = some name)
    (fun s p s' p' hI hs => ((nexttest_step_name s p _ p' hs).1 s' rfl).trans hI)
    (fun s p r p' hI hs => ((nexttest_step_name s p _ p' hs).2 r rfl).trans hI)
    _ _ _ _ _ (le_refl _) rfl h3

theorem nextsection_tests_entries (entries : List (String × List yaml_event_t)) :
    ∀ (tests : List struct_test) (rest : yaml_parser_t),
      (∀ e ∈ entries, ∀ rest : yaml_parser_t, ∃ test,
        nexttest (testEntry e ++ rest) = .ok (some test, rest)) →
      ∃ ts : List struct_test,
        whileLoop nextsection_tests_step tests
            (entries.flatMap testEntry ++ .mapping_end :: rest) = .ok (tests ++ ts, rest)
          ∧ ts.map (fun t => t.name) = entries.map (fun e => some e.1) := by
  induction entries with
  | nil =>
    intro tests rest _
    refine ⟨[], ?_, rfl⟩
    rw [List.flatMap_nil, List.nil_append, nextsection_tests_loop, nexttest_mapping_end,
      Outcome.bind_ok, List.append_nil]
  | cons e es ih =>
    intro tests rest hwf
    obtain ⟨t, ht⟩ := hwf e (List.mem_cons_self e es)
      (es.flatMap testEntry ++ .mapping_end :: rest)
    obtain ⟨ts, hts, hnames⟩ := ih (tests ++ [t]) rest
      (fun e' he' => hwf e' (List.mem_cons_of_mem e he'))
    have hname : t.name = some e.1 := by
      have ht' := ht
      rw [testEntry, List.cons_append] at ht'
      exact nexttest_name ht'
    refine ⟨t :: ts, ?_, ?_⟩
    · rw [nextsection_tests_loop, List.flatMap_cons, List.append_assoc, ht, Outcome.bind_ok]
      simp only
      rw [hts, List.append_assoc, List.singleton_append]
    · rw [List.map_cons, List.map_cons, hname, hnames]

theorem nextsection_field_tests_unchanged {lib : Library} {s s' : struct_section}
    {txt : String} {parser parser' : yaml_parser_t} (htxt : txt ≠ "tests")
    (h : nextsection_field lib s txt parser = .ok (s', parser')) : s'.tests = s.tests := by
  unfold nextsection_field at h
  split_ifs at h
  all_goals
    obtain ⟨r, _, h2⟩ := Outcome.bind_eq_ok h
    simp only [Outcome.ok.injEq, Prod.mk.injEq] at h2
    obtain ⟨rfl, _⟩ := h2
    rfl

theorem nextsection_loop_entries (lib : Library) (items : List TopEntry) :
    ∀ (s : struct_section) (rest : yaml_parser_t),
      (∀ i ∈ items, i.WellFormed lib) →
      ∃ s' : struct_section,
        whileLoop (nextsection_step lib) s (items.flatMap TopEntry.events ++ rest)
            = whileLoop (nextsection_step lib) s' rest
          ∧ s'.tests.map (fun t => t.name)
            = s.tests.map (fun t => t.name) ++ (items.flatMap TopEntry.names).map some := by
  induction items with
  | nil =>
    intro s rest _
    exact ⟨s, rfl, by simp⟩
  | cons i items ih =>
    intro s rest hwf
    have hi := hwf i (List.mem_cons_self i items)
    have hrest : ∀ j ∈ items, j.WellFormed lib :=
      fun j hj => hwf j (List.mem_cons_of_mem i hj)
    cases i with
    | tests entries =>
      obtain ⟨ts, hts, hnames⟩ := nextsection_tests_entries entries s.tests
        (items.flatMap TopEntry.events ++ rest) hi
      obtain ⟨s', hs', hn'⟩ := ih { s with tests := s.tests ++ ts } rest hrest
      refine ⟨s', ?_, ?_⟩
      · rw [List.flatMap_cons, List.append_assoc, TopEntry.events, List.cons_append,
          List.cons_append, List.append_assoc, List.singleton_append,
          nextsection_loop_scalar, nextsection_field_tests, hts, Outcome.bind_ok,
          Outcome.bind_ok]
        exact hs'
      · rw [hn']
        simp [TopEntry.names, hnames, Function.comp_def]
    | other key value =>
      obtain ⟨hkey, hval⟩ := hi
      obtain ⟨s1, hs1⟩ := hval s (items.flatMap TopEntry.events ++ rest)
      have ht1 := nextsection_field_tests_unchanged hkey hs1
      obtain ⟨s', hs', hn'⟩ := ih s1 rest hrest
      refine ⟨s', ?_, ?_⟩
      · rw [List.flatMap_cons, List.append_assoc, TopEntry.events, List.cons_append,
          nextsection_loop_scalar, hs1, Outcome.bind_ok]
        exact hs'
      · rw [hn', ht1]
        simp [TopEntry.names]

/-- C2. Section builder: for every well-formed document (each entry under
`tests` is a name with a mapping that `nexttest` reads as one test, each other
top-level key has a value its builder reads as a whole), `nextsection` returns
a section and leaves exactly the events after the document; the test list has
as many tests as there are entries authored under `tests`, and the name of the
i-th test is the i-th name key: insertion order is document order. -/
theorem nextsection_tests_in_document_order (lib : Library) (items : List TopEntry)
    (hwf : ∀ i ∈ items, i.WellFormed lib) (rest : yaml_parser_t) :
    ∃ s : struct_section,
      nextsection lib (documentEvents items ++ rest) = .ok (some s, rest)
        ∧ s.tests.length = (items.flatMap TopEntry.names).length
        ∧ s.tests.map (fun t => t.name) = (items.flatMap TopEntry.names).map some := by
  obtain ⟨s, hs, hn⟩ := nextsection_loop_entries lib items {}
    (.mapping_end :: .document_end :: rest) hwf
  have hn' : s.tests.map (fun t => t.name) = (items.flatMap TopEntry.names).map some := by
    simpa using hn
  refine ⟨s, ?_, ?_, hn'⟩
  · rw [documentEvents, List.cons_append, List.cons_append, List.append_assoc,
      List.cons_append, List.singleton_append, nextsection_document_start, hs,
      nextsection_loop_end, Outcome.bind_ok, discard_document_end, Outcome.bind_ok]
  · have := congrArg List.length hn'
    simpa using this

/-- C2 at a document with a description, two tests and a comment. -/
theorem nextsection_tests_in_document_order_witness :
    ∃ s : struct_section,
      nextsection sampleLibrary (documentEvents
          [.other "description" [.scalar "basic"],
           .tests [("first", [.scalar "helo", .scalar "mail.example.com"]),
                   ("second", [.scalar "result", .sequence_start, .scalar "pass",
                      .scalar "fail", .sequence_end])],
           .other "comment" [.sequence_start, .scalar "a", .scalar "b", .sequence_end]]
          ++ [.stream_end]) = .ok (some s, [.stream_end])
        ∧ s.tests.length = 2
        ∧ s.tests.map (fun t => t.name) = [some "first", some "second"] :=
  nextsection_tests_in_document_order sampleLibrary _
    (by
      intro i hi
      simp only [List.mem_cons, List.mem_singleton, List.not_mem_nil, or_false] at hi
      rcases hi with rfl | rfl | rfl
      · refine ⟨by decide, fun s rest => ?_⟩
        rw [nextsection_field_description, List.cons_append, nextscalar_scalar,
          Outcome.bind_ok]
        exact ⟨_, rfl⟩
      · intro e he
        simp only [List.mem_cons, List.mem_singleton, List.not_mem_nil, or_false] at he
        rcases he with rfl | rfl <;> intro rest
        · rw [testEntry, List.cons_append, nexttest_scalar, List.cons_append,
            discard_mapping_start, Outcome.bind_ok, List.append_assoc, List.cons_append,
            List.cons_append, nexttest_loop_scalar, nexttest_field,
            if_neg (by decide), if_neg (by decide), if_neg (by decide), if_pos rfl,
            nextscalar_scalar, Outcome.bind_ok, Outcome.bind_ok, List.nil_append,
            List.singleton_append, nexttest_loop_end, Outcome.bind_ok]
          exact ⟨_, rfl⟩
        · rw [testEntry, List.cons_append, nexttest_scalar, List.cons_append,
            discard_mapping_start, Outcome.bind_ok, List.append_assoc, List.cons_append,
            List.cons_append, List.cons_append, List.cons_append, List.cons_append,
            nexttest_loop_scalar, nexttest_field_result, nexttest_result_sequence_start,
            nexttest_result_loop_scalar, if_pos (by simp), nexttest_result_loop_scalar,
            if_pos (by simp), nexttest_result_loop_end, Outcome.bind_ok, List.nil_append,
            List.singleton_append, nexttest_loop_end, Outcome.bind_ok]
          exact ⟨_, rfl⟩
      · refine ⟨by decide, fun s rest => ?_⟩
        rw [nextsection_field_comment, List.cons_append, nextscalar_sequence_start,
          List.cons_append, List.cons_append, List.cons_append, nextscalar_loop_scalar,
          nextscalar_loop_scalar, nextscalar_loop_end, Outcome.bind_ok]
        exact ⟨_, rfl⟩)
    [.stream_end]

/-! ## Zone builder: one record entry -/

theorem nextspf_loop_not_scalar (txt : dns_txt) (event : yaml_event_t) (parser : yaml_parser_t)
    (h : ¬ (event.type = YAML_SCALAR_EVENT ∨ event.type = YAML_SEQUENCE_END_EVENT
      ∨ event.type = 0)) :
    whileLoop nextspf_step txt (event :: parser) = .fatal :=
  whileLoop_fatal nextspf_step_consumes (by rw [nextspf_step, expect_two, if_neg h])

theorem nextspf_loop_nodes {items : List yaml_event_t} (hitems : IsNodes items) :
    ∀ (txt txt' : dns_txt) (r parser' : yaml_parser_t),
      whileLoop nextspf_step txt (items ++ .sequence_end :: r) = .ok (txt', parser') →
      parser' = r := by
  induction hitems with
  | nil =>
    intro txt txt' r parser' h
    rw [List.nil_append, nextspf_loop_end] at h
    simp only [Outcome.ok.injEq, Prod.mk.injEq] at h
    exact h.2.symm
  | scalar value _ ih =>
    intro txt txt' r parser' h
    rw [List.cons_append, nextspf_loop_scalar] at h
    split_ifs at h
    split at h
    · simp at h
    · exact ih _ _ _ _ h
  | aliased _ _ =>
    intro txt txt' r parser' h
    rw [List.cons_append, nextspf_loop_not_scalar _ _ _ (by simp [yaml_event_t.type])] at h
    simp at h
  | sequence _ _ _ _ =>
    intro txt txt' r parser' h
    rw [List.cons_append, nextspf_loop_not_scalar _ _ _ (by simp [yaml_event_t.type])] at h
    simp at h
  | mapping _ _ _ _ =>
    intro txt txt' r parser' h
    rw [List.cons_append, nextspf_loop_not_scalar _ _ _ (by simp [yaml_event_t.type])] at h
    simp at h

theorem nextspf_not_value (txt : dns_txt) (event : yaml_event_t) (parser : yaml_parser_t)
    (h : ¬ (event.type = YAML_SCALAR_EVENT ∨ event.type = YAML_SEQUENCE_START_EVENT
      ∨ event.type = 0)) :
    nextspf txt (event :: parser) = .fatal := by
  rw [nextspf, expect_two, if_neg h]

theorem nextspf_node {value : List yaml_event_t} (hv : IsNode value) (txt txt' : dns_txt)
    (r parser' : yaml_parser_t) (h : nextspf txt (value ++ r) = .ok (txt', parser')) :
    parser' = r := by
  cases hv with
  | scalar v =>
    rw [List.singleton_append, nextspf_scalar] at h
    split_ifs at h
    split at h
    · simp at h
    · simp only [Outcome.ok.injEq, Prod.mk.injEq] at h
      exact h.2.symm
  | aliased =>
    rw [List.singleton_append, nextspf_not_value _ _ _ (by simp [yaml_event_t.type])] at h
    simp at h
  | sequence hitems =>
    rw [List.cons_append, List.append_assoc, List.singleton_append,
      nextspf_sequence_start] at h
    exact nextspf_loop_nodes hitems _ _ _ _ h
  | mapping hitems =>
    rw [List.cons_append, nextspf_not_value _ _ _ (by simp [yaml_event_t.type])] at h
    simp at h

theorem expect_not_scalar (event : yaml_event_t) (parser : yaml_parser_t)
    (h : ¬ (event.type = YAML_SCALAR_EVENT ∨ event.type = 0)) :
    expect (event :: parser) (SET [YAML_SCALAR_EVENT]) = .fatal := by
  rw [expect_one, if_neg h]

theorem expect_scalar_node {value : List yaml_event_t} (hv : IsNode value)
    {r parser' : yaml_parser_t} {event : yaml_event_t}
    (h : expect (value ++ r) (SET [YAML_SCALAR_EVENT]) = .ok (event, parser')) :
    ∃ v, value = [.scalar v] ∧ event = .scalar v ∧ parser' = r := by
  cases hv with
  | scalar v =>
    rw [List.singleton_append, expect_scalar] at h
    simp only [Outcome.ok.injEq, Prod.mk.injEq] at h
    exact ⟨v, rfl, h.1.symm, h.2.symm⟩
  | aliased =>
    rw [List.singleton_append, expect_not_scalar _ _ (by simp [yaml_event_t.type])] at h
    simp at h
  | sequence _ =>
    rw [List.cons_append, expect_not_scalar _ _ (by simp [yaml_event_t.type])] at h
    simp at h
  | mapping _ =>
    rw [List.cons_append, expect_not_scalar _ _ (by simp [yaml_event_t.type])] at h
    simp at h

theorem discard_scalar_node {value : List yaml_event_t} (hv : IsNode value)
    {r parser' : yaml_parser_t}
    (h : discard (value ++ r) (SET [YAML_SCALAR_EVENT]) = .ok parser') : parser' = r := by
  unfold discard at h
  obtain ⟨⟨e, p⟩, h1, h2⟩ := Outcome.bind_eq_ok h
  obtain ⟨v, _, _, rfl⟩ := expect_scalar_node hv h1
  simp only [Outcome.ok.injEq] at h2
  exact h2.symm

theorem discard_not (a : Nat) (event : yaml_event_t) (parser : yaml_parser_t)
    (h : ¬ (event.type = a ∨ event.type = 0)) :
    discard (event :: parser) (SET [a]) = .fatal := by
  rw [discard_one, if_neg h]

/-- The `DNS_T_MX` case up to the priority scalar. -/
theorem nextzonedata_switch_mx_head (lib : Library) (parser : yaml_parser_t) :
    nextzonedata_switch lib DNS_T_MX parser
      = (discard parser (SET [YAML_SEQUENCE_START_EVENT])).bind fun parser =>
        match expect parser (SET [YAML_SCALAR_EVENT]) with
        | .ok (.scalar preference, parser) =>
          match expect parser (SET [YAML_SCALAR_EVENT]) with
          | .ok (.scalar host, parser) =>
            (discard parser (SET [YAML_SEQUENCE_END_EVENT])).bind fun parser =>
            if host.length = 0 then .ok (none, parser)
            else .ok (some (.mx (mx_preference (lib.atoi preference)) (lib.dns_d_init host).2), parser)
          | .ok (_, _) => .undef
          | .fatal => .fatal
          | .undef => .undef
          | .nofuel => .nofuel
        | .ok (_, _) => .undef
        | .fatal => .fatal
        | .undef => .undef
        | .nofuel => .nofuel := by
  rw [nextzonedata_switch, if_neg (by decide), if_neg (by decide), if_neg (by decide),
    if_pos rfl]

/-- The value of a mail-exchange entry: what the `DNS_T_MX` case reads. -/
theorem nextzonedata_mx_node (lib : Library) {value : List yaml_event_t} (hv : IsNode value)
    {r parser' : yaml_parser_t} {any : Option dns_any}
    (h : nextzonedata_switch lib DNS_T_MX (value ++ r) = .ok (any, parser')) :
    parser' = r := by
  rw [nextzonedata_switch_mx_head] at h
  cases hv with
  | scalar v =>
    rw [List.singleton_append, discard_not _ _ _ (by simp [type_scalar])] at h
    simp at h
  | aliased =>
    rw [List.singleton_append, discard_not _ _ _ (by simp [yaml_event_t.type])] at h
    simp at h
  | mapping _ =>
    rw [List.cons_append, discard_not _ _ _ (by simp [yaml_event_t.type])] at h
    simp at h
  | sequence hitems =>
    rw [List.cons_append, discard_sequence_start, Outcome.bind_ok, List.append_assoc] at h
    cases hitems with
    | nil =>
      rw [List.nil_append, List.singleton_append,
        expect_not_scalar _ _ (by simp [yaml_event_t.type])] at h
      simp at h
    | aliased _ =>
      rw [List.cons_append, expect_not_scalar _ _ (by simp [yaml_event_t.type])] at h
      simp at h
    | sequence _ _ =>
      rw [List.cons_append, expect_not_scalar _ _ (by simp [yaml_event_t.type])] at h
      simp at h
    | mapping _ _ =>
      rw [List.cons_append, expect_not_scalar _ _ (by simp [yaml_event_t.type])] at h
      simp at h
    | scalar preference hitems =>
      rw [List.cons_append, expect_scalar] at h
      simp only at h
      cases hitems with
      | nil =>
        rw [List.nil_append, List.singleton_append,
          expect_not_scalar _ _ (by simp [yaml_event_t.type])] at h
        simp at h
      | aliased _ =>
        rw [List.cons_append, expect_not_scalar _ _ (by simp [yaml_event_t.type])] at h
        simp at h
      | sequence _ _ =>
        rw [List.cons_append, expect_not_scalar _ _ (by simp [yaml_event_t.type])] at h
        simp at h
      | mapping _ _ =>
        rw [List.cons_append, expect_not_scalar _ _ (by simp [yaml_event_t.type])] at h
        simp at h
      | scalar host hitems =>
        rw [List.cons_append, expect_scalar] at h
        simp only at h
        cases hitems with
        | nil =>
          rw [List.nil_append, List.singleton_append, discard_sequence_end,
            Outcome.bind_ok] at h
          split_ifs at h <;>
            (simp only [Outcome.ok.injEq, Prod.mk.injEq] at h; exact h.2.symm)
        | scalar _ _ =>
          rw [List.cons_append, discard_not _ _ _ (by simp [type_scalar])] at h
          simp at h
        | aliased _ =>
          rw [List.cons_append, discard_not _ _ _ (by simp [yaml_event_t.type])] at h
          simp at h
        | sequence _ _ =>
          rw [List.cons_append, discard_not _ _ _ (by simp [yaml_event_t.type])] at h
          simp at h
        | mapping _ _ =>
          rw [List.cons_append, discard_not _ _ _ (by simp [yaml_event_t.type])] at h
          simp at h

/-- Whatever the record type, a decoded or skipped value is consumed whole. -/
theorem nextzonedata_switch_node (lib : Library) (rrtype : Nat) {value : List yaml_event_t}
    (hv : IsNode value) {r parser' : yaml_parser_t} {any : Option dns_any}
    (h : nextzonedata_switch lib rrtype (value ++ r) = .ok (any, parser')) :
    parser' = r := by
  by_cases hmx : rrtype = DNS_T_MX
  · subst hmx
    exact nextzonedata_mx_node lib hv h
  · unfold nextzonedata_switch at h
    split_ifs at h
    · cases hE : expect (value ++ r) (SET [YAML_SCALAR_EVENT]) with
      | ok x =>
        obtain ⟨e, p⟩ := x
        obtain ⟨v, _, rfl, rfl⟩ := expect_scalar_node hv hE
        rw [hE] at h
        simp only at h
        split at h
        · simp only [Outcome.ok.injEq, Prod.mk.injEq] at h; exact h.2.symm
        · simp at h
      | fatal => rw [hE] at h; simp at h
      | undef => rw [hE] at h; simp at h
      | nofuel => rw [hE] at h; simp at h
    · cases hE : expect (value ++ r) (SET [YAML_SCALAR_EVENT]) with
      | ok x =>
        obtain ⟨e, p⟩ := x
        obtain ⟨v, _, rfl, rfl⟩ := expect_scalar_node hv hE
        rw [hE] at h
        simp only at h
        split at h
        · simp only [Outcome.ok.injEq, Prod.mk.injEq] at h; exact h.2.symm
        · simp at h
      | fatal => rw [hE] at h; simp at h
      | undef => rw [hE] at h; simp at h
      | nofuel => rw [hE] at h; simp at h
    · cases hE : expect (value ++ r) (SET [YAML_SCALAR_EVENT]) with
      | ok x =>
        obtain ⟨e, p⟩ := x
        obtain ⟨v, _, rfl, rfl⟩ := expect_scalar_node hv hE
        rw [hE] at h
        simp only at h
        split_ifs at h <;>
          (simp only [Outcome.ok.injEq, Prod.mk.injEq] at h; exact h.2.symm)
      | fatal => rw [hE] at h; simp at h
      | undef => rw [hE] at h; simp at h
      | nofuel => rw [hE] at h; simp at h
    · obtain ⟨⟨t, p⟩, h1, h2⟩ := Outcome.bind_eq_ok h
      simp only [Outcome.ok.injEq, Prod.mk.injEq] at h2
      obtain ⟨_, rfl⟩ := h2
      exact nextspf_node hv _ _ _ _ h1
    · obtain ⟨p, h1, h2⟩ := Outcome.bind_eq_ok h
      simp only [Outcome.ok.injEq, Prod.mk.injEq] at h2
      obtain ⟨_, rfl⟩ := h2
      exact discard_scalar_node hv h1

/-- C4. Stream synchronisation in the record loop of `nextzonedata`: when the
processing of a record entry (mapping-start, type tag, the events of one value
node, mapping-end) returns, the events left are exactly those after the entry's
closing mapping-end, so the loop goes on with the first event of the next
sibling entry or with the sequence-end of the list; the store is unchanged (the
entry was skipped) or has grown by one record for this owner name and type. -/
theorem nextzonedata_record_synchronised (lib : Library) (rrname tag : String)
    (zonedata zonedata' : cache) (value : List yaml_event_t) (rest rest' : yaml_parser_t)
    (hv : IsNode value)
    (h : nextzonedata_record lib rrname zonedata
          (.scalar tag :: (value ++ .mapping_end :: rest)) = .ok (zonedata', rest')) :
    rest' = rest
      ∧ (zonedata' = zonedata
          ∨ ∃ any, zonedata' = zonedata ++ [⟨rrname, lib.dns_itype tag, 3600, any⟩])
      ∧ nextzonedata_records lib rrname zonedata
            (.mapping_start :: .scalar tag :: (value ++ .mapping_end :: rest))
          = nextzonedata_records lib rrname zonedata' rest := by
  have hsync : rest' = rest ∧ (zonedata' = zonedata
      ∨ ∃ any, zonedata' = zonedata ++ [⟨rrname, lib.dns_itype tag, 3600, any⟩]) := by
    have h' := h
    rw [nextzonedata_record_scalar] at h'
    split_ifs at h'
    obtain ⟨⟨any, p⟩, h1, h2⟩ := Outcome.bind_eq_ok h'
    have hp := nextzonedata_switch_node lib _ hv h1
    subst hp
    cases any with
    | none =>
      simp only at h2
      rw [discard_mapping_end, Outcome.bind_ok] at h2
      simp only [Outcome.ok.injEq, Prod.mk.injEq] at h2
      exact ⟨h2.2.symm, Or.inl h2.1.symm⟩
    | some a =>
      simp only at h2
      split_ifs at h2
      rw [discard_mapping_end, Outcome.bind_ok] at h2
      simp only [Outcome.ok.injEq, Prod.mk.injEq] at h2
      exact ⟨h2.2.symm, Or.inr ⟨a, h2.1.symm⟩⟩
  refine ⟨hsync.1, hsync.2, ?_⟩
  rw [nextzonedata_records_mapping_start, h, hsync.1, Outcome.bind_ok]

/-- C4 at an address entry that is inserted, followed by the end of the list. -/
theorem nextzonedata_record_synchronised_witness :
    nextzonedata_record sampleLibrary "example.com." []
        (.scalar "A" :: ([.scalar "192.0.2.1"] ++ .mapping_end :: [.sequence_end]))
        = .ok ([⟨"example.com.", DNS_T_A, 3600, .a [192, 0, 2, 1]⟩], [.sequence_end])
      ∧ ([yaml_event_t.sequence_end] = [.sequence_end]
        ∧ (([⟨"example.com.", DNS_T_A, 3600, .a [192, 0, 2, 1]⟩] : cache) = []
          ∨ ∃ any, ([⟨"example.com.", DNS_T_A, 3600, .a [192, 0, 2, 1]⟩] : cache)
              = [] ++ [⟨"example.com.", sampleLibrary.dns_itype "A", 3600, any⟩])
        ∧ nextzonedata_records sampleLibrary "example.com." []
              (.mapping_start :: .scalar "A" ::
                ([.scalar "192.0.2.1"] ++ .mapping_end :: [.sequence_end]))
            = nextzonedata_records sampleLibrary "example.com."
                [⟨"example.com.", DNS_T_A, 3600, .a [192, 0, 2, 1]⟩] [.sequence_end]) :=
  have hrun : nextzonedata_record sampleLibrary "example.com." []
      (.scalar "A" :: ([.scalar "192.0.2.1"] ++ .mapping_end :: [.sequence_end]))
      = .ok ([⟨"example.com.", DNS_T_A, 3600, .a [192, 0, 2, 1]⟩], [.sequence_end]) := by
    decide
  ⟨hrun, nextzonedata_record_synchronised sampleLibrary "example.com." "A" [] _
    [.scalar "192.0.2.1"] [.sequence_end] _ (IsNode.scalar _) hrun⟩

/-! ## Zone builder: skipped and inserted entries -/

/-- C5, as stated, fails: a tag that `dns_itype` does not know (it returns 0)
is not skipped; the run ends at the `panic` of line 306. -/
theorem nextzonedata_unknown_tag_is_fatal :
    sampleLibrary.dns_itype "BOGUS"
        ∉ [DNS_T_A, DNS_T_AAAA, DNS_T_PTR, DNS_T_MX, DNS_T_SPF, DNS_T_TXT]
      ∧ nextzonedata_records sampleLibrary "example.com." []
          [.mapping_start, .scalar "BOGUS", .scalar "x", .mapping_end,
           .mapping_start, .scalar "A", .scalar "192.0.2.1", .mapping_end,
           .sequence_end] = .fatal := by
  constructor <;> decide

/-- C5, amended. A record list made of an entry whose tag `dns_itype` maps to
a type code that is not zero and not one of A, AAAA, PTR, MX, SPF, TXT, with a
lone scalar value, followed by a valid A entry, is processed without fatal
termination and the store receives exactly one insertion, the A record.  When
`dns_itype` returns 0 for the tag the run ends fatally. -/
theorem nextzonedata_skips_unhandled_type (lib : Library) (rrname tag value atag addr : String)
    (a : List Nat) (zonedata : cache) (rest : yaml_parser_t)
    (hA : lib.dns_itype atag = DNS_T_A) (haddr : lib.inet_pton AF_INET addr = some a)
    (hins : lib.cache_insert zonedata ⟨rrname, DNS_T_A, 3600, .a a⟩ = 0) :
    (lib.dns_itype tag ≠ 0 →
        lib.dns_itype tag ∉ [DNS_T_A, DNS_T_AAAA, DNS_T_PTR, DNS_T_MX, DNS_T_SPF, DNS_T_TXT] →
        nextzonedata_records lib rrname zonedata
            (.mapping_start :: .scalar tag :: .scalar value :: .mapping_end ::
             .mapping_start :: .scalar atag :: .scalar addr :: .mapping_end ::
             .sequence_end :: rest)
          = .ok (zonedata ++ [⟨rrname, DNS_T_A, 3600, .a a⟩], rest))
      ∧ (lib.dns_itype tag = 0 →
        nextzonedata_records lib rrname zonedata
            (.mapping_start :: .scalar tag :: .scalar value :: .mapping_end ::
             .mapping_start :: .scalar atag :: .scalar addr :: .mapping_end ::
             .sequence_end :: rest)
          = .fatal) := by
  constructor
  · intro h0 hother
    rw [nextzonedata_records_mapping_start, nextzonedata_record_scalar, if_neg h0,
      nextzonedata_switch_other lib _ _ hother, discard_scalar, Outcome.bind_ok,
      Outcome.bind_ok]
    simp only
    rw [discard_mapping_end, Outcome.bind_ok, Outcome.bind_ok,
      nextzonedata_records_mapping_start, nextzonedata_record_scalar, hA,
      if_neg (by decide), nextzonedata_switch_a, haddr]
    simp only
    rw [Outcome.bind_ok]
    simp only
    rw [if_pos hins, discard_mapping_end, Outcome.bind_ok, Outcome.bind_ok,
      nextzonedata_records_end]
  · intro h0
    rw [nextzonedata_records_mapping_start, nextzonedata_record_scalar, if_pos h0,
      Outcome.bind_fatal]

/-- C5, amended, at the tag `NS`. -/
theorem nextzonedata_skips_unhandled_type_witness :
    nextzonedata_records sampleLibrary "example.com." []
        [.mapping_start, .scalar "NS", .scalar "ns.example.com", .mapping_end,
         .mapping_start, .scalar "A", .scalar "192.0.2.1", .mapping_end,
         .sequence_end, .mapping_end]
      = .ok ([⟨"example.com.", DNS_T_A, 3600, .a [192, 0, 2, 1]⟩], [.mapping_end]) :=
  (nextzonedata_skips_unhandled_type sampleLibrary "example.com." "NS" "ns.example.com" "A"
    "192.0.2.1" [192, 0, 2, 1] [] [.mapping_end] (by decide) (by decide) (by decide)).1
    (by decide) (by decide)

/-! ## Segmented text: lengths and the segment ceiling -/

theorem size_sub_eq {a b : Nat} (hb : b ≤ a) (ha : a < SIZE_MOD) : size_sub a b = a - b := by
  have hM : SIZE_MOD = 18446744073709551616 := by norm_num [SIZE_MOD]
  unfold size_sub
  rw [hM] at ha ⊢
  omega

theorem size_add_eq {a b : Nat} (h : a + b < SIZE_MOD) : size_add a b = a + b := by
  unfold size_add
  exact Nat.mod_eq_of_lt h

theorem memcpy_eq_some {dst src : List Char} {off : Nat} (h : off + src.length ≤ dst.length) :
    memcpy dst off src = some (dst.take off ++ src ++ dst.drop (off + src.length)) := by
  unfold memcpy
  rw [if_pos h]

theorem memcpy_length {dst src data : List Char} {off : Nat}
    (h : memcpy dst off src = some data) : data.length = dst.length := by
  unfold memcpy at h
  split_ifs at h with hle
  simp only [Option.some.injEq] at h
  subst h
  simp only [List.length_append, List.length_take, List.length_drop]
  omega

theorem chunk_length (n : Nat) : (chunk n).length = n := by
  simp [chunk, String.length]

/-- The loop of `nextspf` on chunks of at most 255 bytes with room for 255 bytes
each: every chunk advances the length by 255. -/
theorem nextspf_loop_chunks (cs : List String) :
    ∀ (txt : dns_txt) (rest : yaml_parser_t),
      (∀ c ∈ cs, c.length ≤ 255) → txt.len + 255 * cs.length ≤ txt.size →
      txt.size ≤ txt.data.length → txt.size < SIZE_MOD →
      ∃ txt', whileLoop nextspf_step txt (cs.map .scalar ++ .sequence_end :: rest)
            = .ok (txt', rest)
          ∧ txt'.len = txt.len + 255 * cs.length ∧ txt'.size = txt.size
          ∧ txt'.data.length = txt.data.length := by
  induction cs with
  | nil =>
    intro txt rest _ _ _ _
    rw [List.map_nil, List.nil_append, nextspf_loop_end]
    exact ⟨txt, rfl, by simp, rfl, rfl⟩
  | cons c cs ih =>
    intro txt rest hcs hfit hbuf hsize
    have hc : c.length ≤ 255 := hcs c (List.mem_cons_self c cs)
    rw [List.length_cons] at hfit
    have hsub : ¬ size_sub txt.size txt.len < 255 := by
      rw [size_sub_eq (by omega) hsize]; omega
    have hcopy : txt.len + c.data.length ≤ txt.data.length := by
      have : c.data.length = c.length := rfl
      omega
    rw [List.map_cons, List.cons_append, nextspf_loop_scalar, if_neg hsub,
      if_neg (by omega), memcpy_eq_some hcopy]
    simp only
    have hadd : size_add txt.len 255 = txt.len + 255 := size_add_eq (by omega)
    have hdata := memcpy_length (memcpy_eq_some hcopy)
    obtain ⟨txt', hrun, hlen, hsz, hd⟩ := ih
      { txt with data := txt.data.take txt.len ++ c.data
                  ++ txt.data.drop (txt.len + c.data.length),
                 len := size_add txt.len 255 } rest
      (fun c' hc' => hcs c' (List.mem_cons_of_mem c hc'))
      (by simp only [hadd]; omega) (by simp only [hdata]; exact hbuf) hsize
    refine ⟨txt', hrun, ?_, hsz, ?_⟩
    · rw [hlen]
      show size_add txt.len 255 + 255 * cs.length = txt.len + 255 * (cs.length + 1)
      rw [hadd]; omega
    · rw [hd]; exact hdata

theorem sample_size_lt : (1024 : Nat) < SIZE_MOD := by norm_num [SIZE_MOD]

theorem sample_data_length : (List.replicate 1024 ' ').length = 1024 :=
  List.length_replicate 1024 ' '

theorem sample_chunks (c : String) (hc : c ∈ [chunk 255, chunk 255, chunk 10]) :
    c.length ≤ 255 := by
  simp only [List.mem_cons, List.mem_singleton, List.not_mem_nil, or_false] at hc
  rcases hc with rfl | rfl | rfl <;> exact le_of_eq_of_le (chunk_length _) (by decide)

/-- The sequence form of `nextspf` from length 0: every chunk counts as 255. -/
theorem nextspf_sequence_run (txt : dns_txt) (cs : List String) (rest : yaml_parser_t)
    (hlen : txt.len = 0) (hcs : ∀ c ∈ cs, c.length ≤ 255)
    (hfit : 255 * cs.length ≤ txt.size) (hbuf : txt.size ≤ txt.data.length)
    (hsize : txt.size < SIZE_MOD) :
    ∃ txt', nextspf txt (.sequence_start :: (cs.map .scalar ++ .sequence_end :: rest))
          = .ok (txt', rest)
      ∧ txt'.len = 255 * cs.length := by
  obtain ⟨txt', hrun, hl, _, _⟩ := nextspf_loop_chunks cs
    { txt with data := List.replicate txt.data.length ' ' } rest hcs
    (by simp only [hlen]; omega) (by simp only [List.length_replicate]; exact hbuf) hsize
  refine ⟨txt', ?_, ?_⟩
  · rw [nextspf_sequence_start]
    exact hrun
  · rw [hl]; simp only [hlen]; omega

/-- C6, as stated, fails: chunks of 255, 255 and 10 bytes leave the logical
length at 765, not at 520. -/
theorem nextspf_three_chunks_length :
    ∃ txt', nextspf ⟨1024, 0, List.replicate 1024 ' '⟩
          [.sequence_start, .scalar (chunk 255), .scalar (chunk 255), .scalar (chunk 10),
           .sequence_end] = .ok (txt', [])
      ∧ txt'.len = 765 ∧ txt'.len ≠ 255 + 255 + 10 := by
  have hfit : 255 * [chunk 255, chunk 255, chunk 10].length ≤ 1024 := by decide
  obtain ⟨txt', hrun, hlen⟩ := nextspf_sequence_run ⟨1024, 0, List.replicate 1024 ' '⟩
    [chunk 255, chunk 255, chunk 10] [] rfl sample_chunks hfit
    (le_of_eq sample_data_length.symm) sample_size_lt
  have hlen' : txt'.len = 765 := hlen
  refine ⟨txt', hrun, hlen', ?_⟩
  rw [hlen']; decide

/-- C6, amended. For every sequence of `n` chunks of at most 255 bytes each,
with `255 * n` at most the capacity (and the capacity within the data array and
below the `size_t` range), `nextspf` started at length 0 succeeds, reads the
whole sequence, and leaves the logical length at `255 * n`. -/
theorem nextspf_sequence_length (txt : dns_txt) (cs : List String) (rest : yaml_parser_t)
    (hlen : txt.len = 0) (hcs : ∀ c ∈ cs, c.length ≤ 255)
    (hfit : 255 * cs.length ≤ txt.size) (hbuf : txt.size ≤ txt.data.length)
    (hsize : txt.size < SIZE_MOD) :
    ∃ txt', nextspf txt (.sequence_start :: (cs.map .scalar ++ .sequence_end :: rest))
          = .ok (txt', rest)
      ∧ txt'.len = 255 * cs.length :=
  nextspf_sequence_run txt cs rest hlen hcs hfit hbuf hsize

/-- C6, amended, at chunks of 255, 255 and 10 bytes in a record of 1024 bytes. -/
theorem nextspf_sequence_length_witness :
    ∃ txt', nextspf ⟨1024, 0, List.replicate 1024 ' '⟩
          (.sequence_start :: ([chunk 255, chunk 255, chunk 10].map .scalar
            ++ .sequence_end :: [])) = .ok (txt', [])
      ∧ txt'.len = 255 * [chunk 255, chunk 255, chunk 10].length :=
  have hfit : 255 * [chunk 255, chunk 255, chunk 10].length ≤ 1024 := by decide
  nextspf_sequence_length ⟨1024, 0, List.replicate 1024 ' '⟩
    [chunk 255, chunk 255, chunk 10] [] rfl sample_chunks hfit
    (le_of_eq sample_data_length.symm) sample_size_lt

/-- The loop of `nextspf` dies at a chunk of more than 255 bytes. -/
theorem nextspf_loop_big (big : String) (more : yaml_parser_t) (hbig : 255 < big.length)
    (cs : List String) :
    ∀ (txt : dns_txt), txt.len ≤ txt.size → txt.size ≤ txt.data.length →
      txt.size < SIZE_MOD →
      whileLoop nextspf_step txt (cs.map .scalar ++ .scalar big :: more) = .fatal := by
  induction cs with
  | nil =>
    intro txt _ _ _
    rw [List.map_nil, List.nil_append, nextspf_loop_scalar]
    split_ifs <;> rfl
  | cons c cs ih =>
    intro txt hlen hbuf hsize
    rw [List.map_cons, List.cons_append, nextspf_loop_scalar]
    by_cases hsub : size_sub txt.size txt.len < 255
    · rw [if_pos hsub]
    · rw [if_neg hsub]
      by_cases hc : 255 < c.length
      · rw [if_pos hc]
      · rw [if_neg hc]
        rw [size_sub_eq hlen hsize] at hsub
        have hcopy : txt.len + c.data.length ≤ txt.data.length := by
          have : c.data.length = c.length := rfl
          omega
        rw [memcpy_eq_some hcopy]
        simp only
        have hadd : size_add txt.len 255 = txt.len + 255 := size_add_eq (by omega)
        have hdata := memcpy_length (memcpy_eq_some hcopy)
        exact ih _ (by simp only [hadd]; omega) (by simp only [hdata]; exact hbuf) hsize

/-- C7, as stated, fails: a lone scalar of 256 bytes is accepted by a record
with room for 1024 bytes. -/
theorem nextspf_lone_256_accepted :
    (chunk 256).length = 256
      ∧ ∃ txt', nextspf ⟨1024, 0, List.replicate 1024 ' '⟩ [.scalar (chunk 256), .mapping_end]
          = .ok (txt', [.mapping_end]) ∧ txt'.len = 256 := by
  refine ⟨chunk_length 256, ?_⟩
  have hcopy : 0 + (chunk 256).data.length
      ≤ (List.replicate (List.replicate 1024 ' ').length ' ').length := by
    have h1 : (chunk 256).data.length = 256 := chunk_length 256
    rw [h1, List.length_replicate, List.length_replicate]; decide
  have hlt : (chunk 256).length < 1024 := by rw [chunk_length]; decide
  rw [nextspf_scalar, if_pos hlt, memcpy_eq_some hcopy]
  exact ⟨_, rfl, chunk_length 256⟩

/-- C7, amended. A chunk of more than 255 bytes that is an element of the
value sequence ends the run fatally (for a record whose length is within its
capacity and whose capacity is within the data array); a lone scalar ends the
run fatally exactly when its length is not below the capacity `txt->size`,
whatever its relation to 255. -/
theorem nextspf_segment_ceiling (txt : dns_txt) (cs : List String) (big value : String)
    (more rest : yaml_parser_t) (hbig : 255 < big.length) (hlen : txt.len ≤ txt.size)
    (hbuf : txt.size ≤ txt.data.length) (hsize : txt.size < SIZE_MOD) :
    nextspf txt (.sequence_start :: (cs.map .scalar ++ .scalar big :: more)) = .fatal
      ∧ (nextspf txt (.scalar value :: rest) = .fatal ↔ txt.size ≤ value.length) := by
  constructor
  · rw [nextspf_sequence_start]
    exact nextspf_loop_big big more hbig cs _ hlen
      (by simp only [List.length_replicate]; exact hbuf) hsize
  · rw [nextspf_scalar]
    constructor
    · intro h
      by_contra hlt
      rw [if_pos (by omega)] at h
      split at h <;> simp at h
    · intro h
      rw [if_neg (by omega)]

/-- C7, amended, at a sequence whose single chunk has 256 bytes. -/
theorem nextspf_segment_ceiling_witness :
    nextspf ⟨1024, 0, List.replicate 1024 ' '⟩
        (.sequence_start :: (([] : List String).map .scalar
          ++ .scalar (chunk 256) :: [.sequence_end])) = .fatal
      ∧ (nextspf ⟨1024, 0, List.replicate 1024 ' '⟩ (.scalar (chunk 256) :: []) = .fatal
          ↔ (1024 : Nat) ≤ (chunk 256).length) :=
  have hbig : 255 < (chunk 256).length := by rw [chunk_length]; decide
  nextspf_segment_ceiling ⟨1024, 0, List.replicate 1024 ' '⟩ [] (chunk 256) (chunk 256)
    [.sequence_end] [] hbig (Nat.zero_le 1024) (le_of_eq sample_data_length.symm)
    sample_size_lt

/-! ## Zone builder: mail-exchange and pointer entries -/

/-- The body of the record loop on a mail-exchange entry whose value is a
sequence of two scalars. -/
theorem nextzonedata_record_mx (lib : Library) (rrname tag preference host : String)
    (zonedata : cache) (rest : yaml_parser_t) (htag : lib.dns_itype tag = DNS_T_MX) :
    nextzonedata_record lib rrname zonedata
        (.scalar tag :: .sequence_start :: .scalar preference ::
          .scalar host :: .sequence_end :: .mapping_end :: rest)
      = if host.length = 0 then .ok (zonedata, rest)
        else if lib.cache_insert zonedata
            ⟨rrname, DNS_T_MX, 3600,
              .mx (mx_preference (lib.atoi preference)) (lib.dns_d_init host).2⟩ = 0
        then
          .ok (zonedata ++ [⟨rrname, DNS_T_MX, 3600,
            .mx (mx_preference (lib.atoi preference)) (lib.dns_d_init host).2⟩], rest)
        else .fatal := by
  rw [nextzonedata_record_scalar, htag, if_neg (by decide), nextzonedata_switch_mx]
  by_cases hhost : host.length = 0
  · rw [if_pos hhost, if_pos hhost, Outcome.bind_ok]
    simp only
    rw [discard_mapping_end, Outcome.bind_ok]
  · rw [if_neg hhost, if_neg hhost, Outcome.bind_ok]
    simp only
    by_cases hins : lib.cache_insert zonedata
        ⟨rrname, DNS_T_MX, 3600,
          .mx (mx_preference (lib.atoi preference)) (lib.dns_d_init host).2⟩ = 0
    · rw [if_pos hins, if_pos hins, discard_mapping_end, Outcome.bind_ok]
    · rw [if_neg hins, if_neg hins]

/-- A turn of the record loop that returns with a new store: the loop goes on
from there, and a list that ends after the entry returns that store. -/
theorem nextzonedata_records_turn (lib : Library) (rrname : String)
    (zonedata zonedata' : cache) (entry rest : yaml_parser_t)
    (h : ∀ r : yaml_parser_t,
      nextzonedata_record lib rrname zonedata (entry ++ r) = .ok (zonedata', r)) :
    nextzonedata_records_step lib rrname zonedata (.mapping_start :: (entry ++ rest))
        = .ok (.inl zonedata', rest)
      ∧ nextzonedata_records lib rrname zonedata (.mapping_start :: (entry ++ rest))
        = nextzonedata_records lib rrname zonedata' rest
      ∧ nextzonedata_records lib rrname zonedata
          (.mapping_start :: (entry ++ .sequence_end :: rest)) = .ok (zonedata', rest) := by
  refine ⟨?_, ?_, ?_⟩
  · rw [nextzonedata_records_step_mapping_start, h, Outcome.bind_ok]
  · rw [nextzonedata_records_mapping_start, h, Outcome.bind_ok]
  · rw [nextzonedata_records_mapping_start, h, Outcome.bind_ok, nextzonedata_records_end]

/-- A turn of the record loop whose entry ends the run. -/
theorem nextzonedata_records_turn_fatal (lib : Library) (rrname : String)
    (zonedata : cache) (parser : yaml_parser_t)
    (h : nextzonedata_record lib rrname zonedata parser = .fatal) :
    nextzonedata_records_step lib rrname zonedata (.mapping_start :: parser) = .fatal
      ∧ nextzonedata_records lib rrname zonedata (.mapping_start :: parser) = .fatal := by
  constructor
  · rw [nextzonedata_records_step_mapping_start, h, Outcome.bind_fatal]
  · rw [nextzonedata_records_mapping_start, h, Outcome.bind_fatal]

/-- C8, as stated, fails in both directions: a name on which `dns_d_init`
reports failure is inserted all the same when it is not empty, and the empty
name is skipped although `dns_d_init` reports success on it. -/
theorem nextzonedata_mx_ignores_dns_d_init :
    ((failingLibrary.dns_d_init "mail.example.com").1 = false
        ∧ nextzonedata_records failingLibrary "example.com" []
            [.mapping_start, .scalar "MX", .sequence_start, .scalar "10",
             .scalar "mail.example.com", .sequence_end, .mapping_end, .sequence_end]
          = .ok ([⟨"example.com", DNS_T_MX, 3600, .mx 10 "mail.example.com"⟩], []))
      ∧ ((sampleLibrary.dns_d_init "").1 = true
        ∧ nextzonedata_records sampleLibrary "example.com." []
            [.mapping_start, .scalar "MX", .sequence_start, .scalar "10",
             .scalar "", .sequence_end, .mapping_end, .sequence_end]
          = .ok ([], [])) := by
  refine ⟨⟨rfl, ?_⟩, ⟨rfl, ?_⟩⟩ <;> decide

/-- C8, amended. For every MX entry whose value is a sequence of exactly two
scalars (priority, name), whatever the store so far and whatever follows the
entry.  When the name scalar is empty the entry alone is skipped: the turn of
the record loop returns with the store unchanged and exactly the events of the
entry pulled, the loop goes on with the next entry, and a list that ends after
the entry returns the store unchanged.  When the name is not empty and
`dns_d_init` reports success, the record (the priority as the 16-bit field
holds it, anchored name, ttl 3600) is inserted: the turn returns with the store
grown by exactly that record, the loop goes on with the next entry, and a list
that ends after the entry returns the grown store; a failing `cache_insert`
ends the run. -/
theorem nextzonedata_mx_entry (lib : Library) (rrname tag preference host : String)
    (zonedata : cache) (rest : yaml_parser_t) (htag : lib.dns_itype tag = DNS_T_MX) :
    (host.length = 0 →
        nextzonedata_records_step lib rrname zonedata
            (.mapping_start :: .scalar tag :: .sequence_start :: .scalar preference ::
              .scalar host :: .sequence_end :: .mapping_end :: rest)
          = .ok (.inl zonedata, rest)
        ∧ nextzonedata_records lib rrname zonedata
            (.mapping_start :: .scalar tag :: .sequence_start :: .scalar preference ::
              .scalar host :: .sequence_end :: .mapping_end :: rest)
          = nextzonedata_records lib rrname zonedata rest
        ∧ nextzonedata_records lib rrname zonedata
            (.mapping_start :: .scalar tag :: .sequence_start :: .scalar preference ::
              .scalar host :: .sequence_end :: .mapping_end :: .sequence_end :: rest)
          = .ok (zonedata, rest))
      ∧ (host.length ≠ 0 → (lib.dns_d_init host).1 = true →
        lib.cache_insert zonedata
            ⟨rrname, DNS_T_MX, 3600,
              .mx (mx_preference (lib.atoi preference)) (lib.dns_d_init host).2⟩ = 0 →
        nextzonedata_records_step lib rrname zonedata
            (.mapping_start :: .scalar tag :: .sequence_start :: .scalar preference ::
              .scalar host :: .sequence_end :: .mapping_end :: rest)
          = .ok (.inl (zonedata ++ [⟨rrname, DNS_T_MX, 3600,
              .mx (mx_preference (lib.atoi preference)) (lib.dns_d_init host).2⟩]), rest)
        ∧ nextzonedata_records lib rrname zonedata
            (.mapping_start :: .scalar tag :: .sequence_start :: .scalar preference ::
              .scalar host :: .sequence_end :: .mapping_end :: rest)
          = nextzonedata_records lib rrname
              (zonedata ++ [⟨rrname, DNS_T_MX, 3600,
                .mx (mx_preference (lib.atoi preference)) (lib.dns_d_init host).2⟩]) rest
        ∧ nextzonedata_records lib rrname zonedata
            (.mapping_start :: .scalar tag :: .sequence_start :: .scalar preference ::
              .scalar host :: .sequence_end :: .mapping_end :: .sequence_end :: rest)
          = .ok (zonedata ++ [⟨rrname, DNS_T_MX, 3600,
              .mx (mx_preference (lib.atoi preference)) (lib.dns_d_init host).2⟩], rest))
      ∧ (host.length ≠ 0 → (lib.dns_d_init host).1 = true →
        lib.cache_insert zonedata
            ⟨rrname, DNS_T_MX, 3600,
              .mx (mx_preference (lib.atoi preference)) (lib.dns_d_init host).2⟩ ≠ 0 →
        nextzonedata_records_step lib rrname zonedata
            (.mapping_start :: .scalar tag :: .sequence_start :: .scalar preference ::
              .scalar host :: .sequence_end :: .mapping_end :: rest)
          = .fatal
        ∧ nextzonedata_records lib rrname zonedata
            (.mapping_start :: .scalar tag :: .sequence_start :: .scalar preference ::
              .scalar host :: .sequence_end :: .mapping_end :: rest)
          = .fatal) := by
  refine ⟨?_, ?_, ?_⟩
  · intro h
    exact nextzonedata_records_turn lib rrname zonedata zonedata
      [.scalar tag, .sequence_start, .scalar preference, .scalar host, .sequence_end,
        .mapping_end] rest
      (fun r => by
        simp only [List.cons_append, List.nil_append]
        rw [nextzonedata_record_mx lib rrname tag preference host zonedata r htag, if_pos h])
  · intro h _ hins
    exact nextzonedata_records_turn lib rrname zonedata _
      [.scalar tag, .sequence_start, .scalar preference, .scalar host, .sequence_end,
        .mapping_end] rest
      (fun r => by
        simp only [List.cons_append, List.nil_append]
        rw [nextzonedata_record_mx lib rrname tag preference host zonedata r htag, if_neg h,
          if_pos hins])
  · intro h _ hins
    exact nextzonedata_records_turn_fatal lib rrname zonedata _
      (by
        rw [nextzonedata_record_mx lib rrname tag preference host zonedata rest htag,
          if_neg h, if_neg hins])

/-- C8, amended, at an entry with an empty name, which is skipped, and at an
entry with a name and the priority `70000`, which the 16-bit field holds as
4464. -/
theorem nextzonedata_mx_entry_witness :
    (nextzonedata_records_step sampleLibrary "example.com." []
          [.mapping_start, .scalar "MX", .sequence_start, .scalar "10", .scalar "",
           .sequence_end, .mapping_end, .scalar "junk", .sequence_end]
          = .ok (.inl [], [.scalar "junk", .sequence_end])
        ∧ nextzonedata_records sampleLibrary "example.com." []
          [.mapping_start, .scalar "MX", .sequence_start, .scalar "10", .scalar "",
           .sequence_end, .mapping_end, .scalar "junk", .sequence_end]
          = nextzonedata_records sampleLibrary "example.com." []
              [.scalar "junk", .sequence_end]
        ∧ nextzonedata_records sampleLibrary "example.com." []
          [.mapping_start, .scalar "MX", .sequence_start, .scalar "10", .scalar "",
           .sequence_end, .mapping_end, .sequence_end, .scalar "junk", .sequence_end]
          = .ok ([], [.scalar "junk", .sequence_end]))
      ∧ (nextzonedata_records_step sampleLibrary "example.com." []
          [.mapping_start, .scalar "MX", .sequence_start, .scalar "70000",
           .scalar "mail.example.com", .sequence_end, .mapping_end, .mapping_end]
          = .ok (.inl [⟨"example.com.", DNS_T_MX, 3600, .mx 4464 "mail.example.com."⟩],
              [.mapping_end])
        ∧ nextzonedata_records sampleLibrary "example.com." []
          [.mapping_start, .scalar "MX", .sequence_start, .scalar "70000",
           .scalar "mail.example.com", .sequence_end, .mapping_end, .mapping_end]
          = nextzonedata_records sampleLibrary "example.com."
              [⟨"example.com.", DNS_T_MX, 3600, .mx 4464 "mail.example.com."⟩]
              [.mapping_end]
        ∧ nextzonedata_records sampleLibrary "example.com." []
          [.mapping_start, .scalar "MX", .sequence_start, .scalar "70000",
           .scalar "mail.example.com", .sequence_end, .mapping_end, .sequence_end,
           .mapping_end]
          = .ok ([⟨"example.com.", DNS_T_MX, 3600, .mx 4464 "mail.example.com."⟩],
              [.mapping_end])) :=
  ⟨(nextzonedata_mx_entry sampleLibrary "example.com." "MX" "10" "" []
      [.scalar "junk", .sequence_end] (by decide)).1 (by decide),
   (nextzonedata_mx_entry sampleLibrary "example.com." "MX" "70000" "mail.example.com" []
      [.mapping_end] (by decide)).2.1 (by decide) (by decide) (by decide)⟩

/-- The body of the record loop on a pointer entry with a lone scalar value. -/
theorem nextzonedata_record_ptr (lib : Library) (rrname tag value : String)
    (zonedata : cache) (rest : yaml_parser_t) (htag : lib.dns_itype tag = DNS_T_PTR) :
    nextzonedata_record lib rrname zonedata
        (.scalar tag :: .scalar value :: .mapping_end :: rest)
      = if (lib.dns_d_init value).1 = true then
          if lib.cache_insert zonedata
              ⟨rrname, DNS_T_PTR, 3600, .ptr (lib.dns_d_init value).2⟩ = 0 then
            .ok (zonedata ++ [⟨rrname, DNS_T_PTR, 3600, .ptr (lib.dns_d_init value).2⟩], rest)
          else .fatal
        else .ok (zonedata, rest) := by
  rw [nextzonedata_record_scalar, htag, if_neg (by decide), nextzonedata_switch_ptr]
  by_cases hd : (lib.dns_d_init value).1 = true
  · rw [if_pos hd, if_pos hd, Outcome.bind_ok]
    simp only
    by_cases hins : lib.cache_insert zonedata
        ⟨rrname, DNS_T_PTR, 3600, .ptr (lib.dns_d_init value).2⟩ = 0
    · rw [if_pos hins, if_pos hins, discard_mapping_end, Outcome.bind_ok]
    · rw [if_neg hins, if_neg hins]
  · rw [if_neg hd, if_neg hd, Outcome.bind_ok]
    simp only
    rw [discard_mapping_end, Outcome.bind_ok]

/-- C9. For every PTR entry with a lone scalar value, whatever the store so far
and whatever follows the entry.  When `dns_d_init` reports failure the entry is
skipped without fatal termination: the turn of the record loop returns with the
store unchanged and exactly the events of the entry pulled, the loop goes on
with the entries that follow, and a list that ends after the entry returns the
store unchanged.  When `dns_d_init` reports success the record (anchored name,
ttl 3600) is inserted: the turn returns with the store grown by exactly that
record, the loop goes on with the entries that follow, and a list that ends
after the entry returns the grown store (a `cache_insert` that fails is the
failed assertion of line 354 and ends the run).  So the record is inserted
exactly when the normalisation succeeds. -/
theorem nextzonedata_ptr_entry (lib : Library) (rrname tag value : String)
    (zonedata : cache) (rest : yaml_parser_t) (htag : lib.dns_itype tag = DNS_T_PTR) :
    ((lib.dns_d_init value).1 = false →
        nextzonedata_records_step lib rrname zonedata
            (.mapping_start :: .scalar tag :: .scalar value :: .mapping_end :: rest)
          = .ok (.inl zonedata, rest)
        ∧ nextzonedata_records lib rrname zonedata
            (.mapping_start :: .scalar tag :: .scalar value :: .mapping_end :: rest)
          = nextzonedata_records lib rrname zonedata rest
        ∧ nextzonedata_records lib rrname zonedata
            (.mapping_start :: .scalar tag :: .scalar value :: .mapping_end ::
              .sequence_end :: rest)
          = .ok (zonedata, rest))
      ∧ ((lib.dns_d_init value).1 = true →
        lib.cache_insert zonedata
            ⟨rrname, DNS_T_PTR, 3600, .ptr (lib.dns_d_init value).2⟩ = 0 →
        nextzonedata_records_step lib rrname zonedata
            (.mapping_start :: .scalar tag :: .scalar value :: .mapping_end :: rest)
          = .ok (.inl (zonedata ++
              [⟨rrname, DNS_T_PTR, 3600, .ptr (lib.dns_d_init value).2⟩]), rest)
        ∧ nextzonedata_records lib rrname zonedata
            (.mapping_start :: .scalar tag :: .scalar value :: .mapping_end :: rest)
          = nextzonedata_records lib rrname
              (zonedata ++ [⟨rrname, DNS_T_PTR, 3600, .ptr (lib.dns_d_init value).2⟩]) rest
        ∧ nextzonedata_records lib rrname zonedata
            (.mapping_start :: .scalar tag :: .scalar value :: .mapping_end ::
              .sequence_end :: rest)
          = .ok (zonedata ++
              [⟨rrname, DNS_T_PTR, 3600, .ptr (lib.dns_d_init value).2⟩], rest))
      ∧ ((lib.dns_d_init value).1 = true →
        lib.cache_insert zonedata
            ⟨rrname, DNS_T_PTR, 3600, .ptr (lib.dns_d_init value).2⟩ ≠ 0 →
        nextzonedata_records_step lib rrname zonedata
            (.mapping_start :: .scalar tag :: .scalar value :: .mapping_end :: rest)
          = .fatal
        ∧ nextzonedata_records lib rrname zonedata
            (.mapping_start :: .scalar tag :: .scalar value :: .mapping_end :: rest)
          = .fatal) := by
  refine ⟨?_, ?_, ?_⟩
  · intro h
    exact nextzonedata_records_turn lib rrname zonedata zonedata
      [.scalar tag, .scalar value, .mapping_end] rest
      (fun r => by
        simp only [List.cons_append, List.nil_append]
        rw [nextzonedata_record_ptr lib rrname tag value zonedata r htag,
          if_neg (by rw [h]; decide)])
  · intro h hins
    exact nextzonedata_records_turn lib rrname zonedata _
      [.scalar tag, .scalar value, .mapping_end] rest
      (fun r => by
        simp only [List.cons_append, List.nil_append]
        rw [nextzonedata_record_ptr lib rrname tag value zonedata r htag, if_pos h,
          if_pos hins])
  · intro h hins
    exact nextzonedata_records_turn_fatal lib rrname zonedata _
      (by
        rw [nextzonedata_record_ptr lib rrname tag value zonedata rest htag, if_pos h,
          if_neg hins])

/-- C9 at a name that fails to normalise, which is skipped while the `A` entry
after it is still read, and at a name that normalises, which is inserted. -/
theorem nextzonedata_ptr_entry_witness :
    (nextzonedata_records_step failingLibrary "example.com" []
          [.mapping_start, .scalar "PTR", .scalar "host.example.com", .mapping_end,
           .mapping_start, .scalar "A", .scalar "192.0.2.1", .mapping_end, .sequence_end]
          = .ok (.inl [],
              [.mapping_start, .scalar "A", .scalar "192.0.2.1", .mapping_end, .sequence_end])
        ∧ nextzonedata_records failingLibrary "example.com" []
          [.mapping_start, .scalar "PTR", .scalar "host.example.com", .mapping_end,
           .mapping_start, .scalar "A", .scalar "192.0.2.1", .mapping_end, .sequence_end]
          = nextzonedata_records failingLibrary "example.com" []
              [.mapping_start, .scalar "A", .scalar "192.0.2.1", .mapping_end, .sequence_end]
        ∧ nextzonedata_records failingLibrary "example.com" []
          [.mapping_start, .scalar "PTR", .scalar "host.example.com", .mapping_end,
           .sequence_end,
           .mapping_start, .scalar "A", .scalar "192.0.2.1", .mapping_end, .sequence_end]
          = .ok ([],
              [.mapping_start, .scalar "A", .scalar "192.0.2.1", .mapping_end,
               .sequence_end]))
      ∧ (nextzonedata_records_step sampleLibrary "example.com." []
          [.mapping_start, .scalar "PTR", .scalar "host.example.com", .mapping_end,
           .mapping_end]
          = .ok (.inl [⟨"example.com.", DNS_T_PTR, 3600, .ptr "host.example.com."⟩],
              [.mapping_end])
        ∧ nextzonedata_records sampleLibrary "example.com." []
          [.mapping_start, .scalar "PTR", .scalar "host.example.com", .mapping_end,
           .mapping_end]
          = nextzonedata_records sampleLibrary "example.com."
              [⟨"example.com.", DNS_T_PTR, 3600, .ptr "host.example.com."⟩] [.mapping_end]
        ∧ nextzonedata_records sampleLibrary "example.com." []
          [.mapping_start, .scalar "PTR", .scalar "host.example.com", .mapping_end,
           .sequence_end, .mapping_end]
          = .ok ([⟨"example.com.", DNS_T_PTR, 3600, .ptr "host.example.com."⟩],
              [.mapping_end])) :=
  ⟨(nextzonedata_ptr_entry failingLibrary "example.com" "PTR" "host.example.com" []
      [.mapping_start, .scalar "A", .scalar "192.0.2.1", .mapping_end, .sequence_end]
      (by decide)).1 (by decide),
   (nextzonedata_ptr_entry sampleLibrary "example.com." "PTR" "host.example.com" []
      [.mapping_end] (by decide)).2.1 (by decide) (by decide)⟩

/-! ## Event gate: what the allowed sets let through -/

/-- C10, as stated, fails: `SET` pads its arguments with zeros, so bit 0 is
always set and a `YAML_NO_EVENT` event passes a gate that lists scalars only. -/
theorem expect_lets_no_event_through :
    YAML_NO_EVENT ∉ [YAML_SCALAR_EVENT]
      ∧ yaml_event_t.no_event.type = YAML_NO_EVENT
      ∧ expect [.no_event, .mapping_end] (SET [YAML_SCALAR_EVENT])
          = .ok (.no_event, [.mapping_end]) := by
  refine ⟨by decide, rfl, by decide⟩

/-- C10, amended. For every allowed set written as `SET(k1, ...)` with one to
three event kinds (every call site of the file) and every event: `expect` pulls
exactly that one event and returns it when its kind is one of the listed kinds
or `YAML_NO_EVENT`, and ends the run fatally when its kind is any other; when
no event can be pulled the run ends fatally as well. -/
theorem expect_allows_listed_or_no_event (args : List Nat) (event : yaml_event_t)
    (parser : yaml_parser_t) (hmin : 1 ≤ args.length) (hmax : args.length ≤ 3)
    (hkinds : ∀ a ∈ args, a ≤ YAML_MAPPING_END_EVENT) :
    expect (event :: parser) (SET args)
        = (if event.type ∈ args ∨ event.type = YAML_NO_EVENT then .ok (event, parser)
           else .fatal)
      ∧ expect [] (SET args) = .fatal := by
  refine ⟨?_, expect_nil _⟩
  match args, hmin, hmax with
  | [a], _, _ =>
    rw [expect_one]
    simp only [List.mem_singleton]
  | [a, b], _, _ =>
    rw [expect_two]
    simp only [List.mem_cons, List.mem_singleton, List.not_mem_nil, or_false, or_assoc]
  | [a, b, c], _, _ =>
    rw [expect_three]
    simp only [List.mem_cons, List.mem_singleton, List.not_mem_nil, or_false, or_assoc]

/-- C10, amended, at the gate of `nextscalar` and a sequence-end event. -/
theorem expect_allows_listed_or_no_event_witness :
    expect (.sequence_end :: [.mapping_end])
        (SET [YAML_SCALAR_EVENT, YAML_SEQUENCE_START_EVENT])
        = (if yaml_event_t.sequence_end.type ∈ [YAML_SCALAR_EVENT, YAML_SEQUENCE_START_EVENT]
              ∨ yaml_event_t.sequence_end.type = YAML_NO_EVENT
           then .ok (.sequence_end, [.mapping_end]) else .fatal)
      ∧ expect [] (SET [YAML_SCALAR_EVENT, YAML_SEQUENCE_START_EVENT]) = .fatal :=
  expect_allows_listed_or_no_event [YAML_SCALAR_EVENT, YAML_SEQUENCE_START_EVENT]
    .sequence_end [.mapping_end] (by decide) (by decide) (by decide)

/-! ## The driver: a whole fixture, the end of the stream, unknown keys -/

theorem nexttest_field_mailfrom (test : struct_test) (parser : yaml_parser_t) :
    nexttest_field test "mailfrom" parser
      = (nextscalar parser).bind fun r => .ok ({ test with mailfrom := r.1 }, r.2) := by
  rw [nexttest_field, if_neg (by decide), if_neg (by decide), if_neg (by decide),
    if_neg (by decide), if_neg (by decide), if_pos rfl]

/-- The section builder on the fixture of the scenario. -/
theorem nextsection_basicDocument (lib : Library) (addr : List Nat) (rest : yaml_parser_t)
    (hopen : lib.cache_open = true) (hA : lib.dns_itype "A" = DNS_T_A)
    (haddr : lib.inet_pton AF_INET "192.0.2.1" = some addr)
    (hins : lib.cache_insert []
      ⟨(lib.dns_d_init "example.com").2, DNS_T_A, 3600, .a addr⟩ = 0) :
    nextsection lib (basicDocument ++ rest)
      = .ok (some (basicSection (lib.dns_d_init "example.com").2 addr), rest) := by
  simp only [basicDocument, List.cons_append, List.nil_append]
  rw [nextsection_document_start, nextsection_loop_scalar, nextsection_field_description,
    nextscalar_scalar, Outcome.bind_ok, Outcome.bind_ok, nextsection_loop_scalar,
    nextsection_field_tests, nextsection_tests_loop, nexttest_scalar, discard_mapping_start,
    Outcome.bind_ok, nexttest_loop_scalar, nexttest_field_mailfrom, nextscalar_scalar,
    Outcome.bind_ok, Outcome.bind_ok, nexttest_loop_scalar, nexttest_field_result,
    nexttest_result_scalar, Outcome.bind_ok, nexttest_loop_end, Outcome.bind_ok,
    Outcome.bind_ok]
  simp only
  rw [nextsection_tests_loop, nexttest_mapping_end, Outcome.bind_ok]
  simp only
  rw [Outcome.bind_ok, Outcome.bind_ok, nextsection_loop_scalar, nextsection_field_zonedata,
    nextzonedata_mapping_start lib _ hopen, nextzonedata_loop_scalar,
    nextzonedata_records_mapping_start, nextzonedata_record_scalar, hA, if_neg (by decide),
    nextzonedata_switch_a, haddr]
  simp only
  rw [Outcome.bind_ok]
  simp only
  rw [if_pos hins, discard_mapping_end, Outcome.bind_ok, Outcome.bind_ok,
    nextzonedata_records_end, Outcome.bind_ok, nextzonedata_loop_end, Outcome.bind_ok,
    Outcome.bind_ok, nextsection_loop_end, Outcome.bind_ok, discard_document_end,
    Outcome.bind_ok]
  rfl

/-- C11. End-to-end scenario: with a library whose store opens and accepts the
insertion, whose `dns_itype` maps `A` to the address-v4 type and whose
`inet_pton` reads `192.0.2.1`, the event stream of the document of the scenario
followed by stream-end compiles without fatal termination to exactly one
section: description `basic`, one test named `helo-basic` with mailfrom
`a@example.com` and result list `["pass"]`, and a store that received exactly
one insertion, an `A` record with ttl 3600 under the anchored name of
`example.com`.  `nextsection` returns that section and leaves the stream-end;
the loop of `main` goes through that one section and stops. -/
theorem main_basic_scenario (lib : Library) (addr : List Nat)
    (hopen : lib.cache_open = true) (hA : lib.dns_itype "A" = DNS_T_A)
    (haddr : lib.inet_pton AF_INET "192.0.2.1" = some addr)
    (hins : lib.cache_insert []
      ⟨(lib.dns_d_init "example.com").2, DNS_T_A, 3600, .a addr⟩ = 0) :
    nextsection lib (basicDocument ++ [.stream_end])
        = .ok (some (basicSection (lib.dns_d_init "example.com").2 addr), [.stream_end])
      ∧ main lib (.stream_start :: (basicDocument ++ [.stream_end]))
        = .ok ([basicSection (lib.dns_d_init "example.com").2 addr], []) := by
  have hsec := nextsection_basicDocument lib addr [.stream_end] hopen hA haddr hins
  refine ⟨hsec, ?_⟩
  rw [main, discard_stream_start, Outcome.bind_ok, main_loop, hsec, Outcome.bind_ok]
  simp only
  rw [main_loop, nextsection_stream_end, Outcome.bind_ok]
  rfl

/-- C11 with the sample library: the record is stored under `example.com.`. -/
theorem main_basic_scenario_witness :
    nextsection sampleLibrary (basicDocument ++ [.stream_end])
        = .ok (some (basicSection "example.com." [192, 0, 2, 1]), [.stream_end])
      ∧ main sampleLibrary (.stream_start :: (basicDocument ++ [.stream_end]))
        = .ok ([basicSection "example.com." [192, 0, 2, 1]], []) :=
  main_basic_scenario sampleLibrary [192, 0, 2, 1] (by decide) (by decide) (by decide)
    (by decide)

theorem nextsection_nil (lib : Library) : nextsection lib [] = .fatal := by
  rw [nextsection, expect_nil]

/-- Only a stream-end makes `nextsection` return the null pointer. -/
theorem nextsection_none {lib : Library} {event : yaml_event_t} {parser rest : yaml_parser_t}
    (h : nextsection lib (event :: parser) = .ok (none, rest)) : event = .stream_end := by
  rw [nextsection, expect_two] at h
  split_ifs at h
  cases event with
  | stream_end => rfl
  | scalar v =>
    simp only at h
    obtain ⟨p1, _, h1⟩ := Outcome.bind_eq_ok h
    obtain ⟨r, _, h2⟩ := Outcome.bind_eq_ok h1
    obtain ⟨p2, _, h3⟩ := Outcome.bind_eq_ok h2
    simp at h3
  | _ =>
    simp only at h
    obtain ⟨p1, _, h1⟩ := Outcome.bind_eq_ok h
    obtain ⟨r, _, h2⟩ := Outcome.bind_eq_ok h1
    obtain ⟨p2, _, h3⟩ := Outcome.bind_eq_ok h2
    simp at h3

/-- C12. Stream termination: on the stream made of stream-start and
stream-end only, the loop of `main` goes through no section and the run does
not end fatally; and `nextsection` returns the null pointer (no section)
exactly when the first event it pulls is a stream-end. -/
theorem main_empty_stream (lib : Library) (parser : yaml_parser_t) :
    main lib [.stream_start, .stream_end] = .ok ([], [])
      ∧ ((∃ rest, nextsection lib parser = .ok (none, rest))
          ↔ ∃ rest, parser = .stream_end :: rest) := by
  refine ⟨?_, ?_, ?_⟩
  · rw [main, discard_stream_start, Outcome.bind_ok, main_loop, nextsection_stream_end,
      Outcome.bind_ok]
  · rintro ⟨rest, h⟩
    cases parser with
    | nil => rw [nextsection_nil] at h; simp at h
    | cons event p =>
      have hev := nextsection_none h
      subst hev
      exact ⟨p, rfl⟩
  · rintro ⟨rest, rfl⟩
    exact ⟨rest, nextsection_stream_end lib rest⟩

/-- C13. Unknown test field: for every key that is not one of `description`,
`comment`, `spec`, `helo`, `host`, `mailfrom`, `result`, `explanation` and
whose value is a lone scalar, the dispatch of `nexttest` does not end the run,
pulls exactly the one value scalar and leaves every field of the test as it
was; the turn of the field loop asks for another turn with the same test, and
the loop goes on with the next key of the mapping. -/
theorem nexttest_unknown_field (test : struct_test) (txt value : String)
    (parser : yaml_parser_t)
    (h : txt ∉ ["description", "comment", "spec", "helo", "host", "mailfrom", "result",
      "explanation"]) :
    nexttest_field test txt (.scalar value :: parser) = .ok (test, parser)
      ∧ nexttest_step test (.scalar txt :: .scalar value :: parser)
          = .ok (.inl test, parser)
      ∧ whileLoop nexttest_step test (.scalar txt :: .scalar value :: parser)
          = whileLoop nexttest_step test parser := by
  have hfield : nexttest_field test txt (.scalar value :: parser) = .ok (test, parser) := by
    rw [nexttest_field_unknown test txt _ h, discard_scalar, Outcome.bind_ok]
  refine ⟨hfield, ?_, ?_⟩
  · rw [nexttest_step_scalar, hfield, Outcome.bind_ok]
  · rw [nexttest_loop_scalar, hfield, Outcome.bind_ok]

/-- C13 at the key `priority` in a test that already has a `helo` field. -/
theorem nexttest_unknown_field_witness :
    nexttest_field { name := some "t", helo := some "mail.example.com" } "priority"
        (.scalar "high" :: [.scalar "result", .scalar "pass", .mapping_end])
        = .ok ({ name := some "t", helo := some "mail.example.com" },
            [.scalar "result", .scalar "pass", .mapping_end])
      ∧ nexttest_step { name := some "t", helo := some "mail.example.com" }
          (.scalar "priority" :: .scalar "high" ::
            [.scalar "result", .scalar "pass", .mapping_end])
          = .ok (.inl { name := some "t", helo := some "mail.example.com" },
              [.scalar "result", .scalar "pass", .mapping_end])
      ∧ whileLoop nexttest_step { name := some "t", helo := some "mail.example.com" }
          (.scalar "priority" :: .scalar "high" ::
            [.scalar "result", .scalar "pass", .mapping_end])
          = whileLoop nexttest_step { name := some "t", helo := some "mail.example.com" }
              [.scalar "result", .scalar "pass", .mapping_end] :=
  nexttest_unknown_field _ "priority" "high" _ (by decide)

/-- C14. Unknown top-level key: when the key loop of `nextsection` reaches a
scalar key other than `description`, `comment`, `tests`, `zonedata`, the run
ends fatally, whatever the section built so far and whatever follows; so for
every document whose top-level mapping has such a key after well-formed
entries, `nextsection` ends fatally and returns no section. -/
theorem nextsection_unknown_key_is_fatal (lib : Library) (items : List TopEntry)
    (hwf : ∀ i ∈ items, i.WellFormed lib) (key : String)
    (hkey : key ∉ ["description", "comment", "tests", "zonedata"])
    («section» : struct_section) (rest : yaml_parser_t) :
    whileLoop (nextsection_step lib) «section» (.scalar key :: rest) = .fatal
      ∧ nextsection lib (.document_start :: .mapping_start ::
          (items.flatMap TopEntry.events ++ .scalar key :: rest)) = .fatal := by
  have hloop : ∀ s : struct_section,
      whileLoop (nextsection_step lib) s (.scalar key :: rest) = .fatal := by
    intro s
    rw [nextsection_loop_scalar, nextsection_field_unknown lib s key rest hkey,
      Outcome.bind_fatal]
  refine ⟨hloop _, ?_⟩
  obtain ⟨s', hs', _⟩ := nextsection_loop_entries lib items {} (.scalar key :: rest) hwf
  rw [nextsection_document_start, hs', hloop, Outcome.bind_fatal]

/-- C14 at the key `zone` after a description. -/
theorem nextsection_unknown_key_is_fatal_witness :
    whileLoop (nextsection_step sampleLibrary) { descr := some "basic" }
        (.scalar "zone" :: [.mapping_start, .mapping_end, .mapping_end, .document_end])
        = .fatal
      ∧ nextsection sampleLibrary (.document_start :: .mapping_start ::
          ([TopEntry.other "description" [.scalar "basic"]].flatMap TopEntry.events ++
            .scalar "zone" :: [.mapping_start, .mapping_end, .mapping_end, .document_end]))
        = .fatal :=
  nextsection_unknown_key_is_fatal sampleLibrary [.other "description" [.scalar "basic"]]
    (by
      intro i hi
      simp only [List.mem_singleton] at hi
      subst hi
      refine ⟨by decide, fun s rest => ?_⟩
      rw [nextsection_field_description, List.cons_append, nextscalar_scalar,
        Outcome.bind_ok]
      exact ⟨_, rfl⟩)
    "zone" (by decide) _ _

/-! ## Zone builder: a bare scalar in a record list -/

/-- C20. Bare scalar in a zone record list: at an element of a record list that
is a plain scalar, whatever the store built so far and whatever follows, the
turn of the record loop pulls that scalar alone (no mapping-end is asked for
after it), leaves the store as it was and does not end the run; the loop then
goes on with the remaining elements exactly as it would if the scalar were not
there. -/
theorem nextzonedata_bare_scalar (lib : Library) (rrname value : String) (zonedata : cache)
    (parser : yaml_parser_t) :
    nextzonedata_records_step lib rrname zonedata (.scalar value :: parser)
        = .ok (.inl zonedata, parser)
      ∧ nextzonedata_records lib rrname zonedata (.scalar value :: parser)
        = nextzonedata_records lib rrname zonedata parser :=
  ⟨nextzonedata_records_step_scalar lib rrname zonedata value parser,
   nextzonedata_records_scalar lib rrname zonedata value parser⟩

/-! ## Segmented text: the fixed increment -/

theorem size_sub_mod {a b : Nat} (hb : b ≤ a % SIZE_MOD) :
    size_sub a b = a % SIZE_MOD - b := by
  have hM : SIZE_MOD = 18446744073709551616 := by norm_num [SIZE_MOD]
  unfold size_sub
  rw [hM] at hb ⊢
  omega

theorem size_add_255 {a b : Nat} (hb : b ≤ a % SIZE_MOD) (h : ¬ size_sub a b < 255) :
    size_add b 255 = b + 255 ∧ b + 255 ≤ a % SIZE_MOD := by
  rw [size_sub_mod hb] at h
  have hlt : a % SIZE_MOD < SIZE_MOD := Nat.mod_lt _ (by norm_num [SIZE_MOD])
  exact ⟨size_add_eq (by omega), by omega⟩

/-- The loop of `nextspf` over `n` chunks, when it returns: the length has
gone up by `255 * n`, no chunk has more than 255 bytes, the capacity is as it
was. -/
theorem nextspf_loop_len (cs : List String) :
    ∀ (txt txt' : dns_txt) (rest rest' : yaml_parser_t),
      txt.len ≤ txt.size % SIZE_MOD →
      whileLoop nextspf_step txt (cs.map .scalar ++ .sequence_end :: rest)
        = .ok (txt', rest') →
      rest' = rest ∧ txt'.len = txt.len + 255 * cs.length ∧ txt'.size = txt.size
        ∧ txt'.len ≤ txt.size % SIZE_MOD ∧ ∀ c ∈ cs, c.length ≤ 255 := by
  induction cs with
  | nil =>
    intro txt txt' rest rest' hinv h
    rw [List.map_nil, List.nil_append, nextspf_loop_end] at h
    simp only [Outcome.ok.injEq, Prod.mk.injEq] at h
    obtain ⟨rfl, rfl⟩ := h
    exact ⟨rfl, by simp, rfl, hinv, by simp⟩
  | cons c cs ih =>
    intro txt txt' rest rest' hinv h
    rw [List.map_cons, List.cons_append, nextspf_loop_scalar] at h
    split_ifs at h with h1 h2
    obtain ⟨hadd, hle⟩ := size_add_255 hinv h1
    split at h
    · simp at h
    · obtain ⟨hr, hl, hs, hi, hc⟩ := ih _ _ _ _ (by simp only [hadd]; exact hle) h
      simp only [hadd] at hl hs hi
      refine ⟨hr, ?_, hs, hi, ?_⟩
      · rw [hl, List.length_cons]; omega
      · intro c' hc'
        rcases List.mem_cons.mp hc' with rfl | hc'
        · omega
        · exact hc c' hc'

/-- C17. Fixed 255 increment in `nextspf`: when the value is a sequence of `n`
chunks and `nextspf`, started at logical length 0, returns, the sequence has
been read whole and the logical length is `255 * n`, whatever the sizes of the
chunks: every chunk advances the counter by 255. -/
theorem nextspf_fixed_increment (txt txt' : dns_txt) (cs : List String)
    (rest rest' : yaml_parser_t) (hlen : txt.len = 0)
    (h : nextspf txt (.sequence_start :: (cs.map .scalar ++ .sequence_end :: rest))
      = .ok (txt', rest')) :
    txt'.len = 255 * cs.length ∧ rest' = rest := by
  rw [nextspf_sequence_start] at h
  obtain ⟨hr, hl, _, _, _⟩ := nextspf_loop_len cs _ _ _ _
    (by simp only [hlen]; exact Nat.zero_le _) h
  simp only [hlen] at hl
  exact ⟨by rw [hl]; omega, hr⟩

/-- C17 at chunks of 255, 255 and 10 bytes: the length is 765. -/
theorem nextspf_fixed_increment_witness :
    ∃ txt', nextspf ⟨1024, 0, List.replicate 1024 ' '⟩
          (.sequence_start :: ([chunk 255, chunk 255, chunk 10].map .scalar
            ++ .sequence_end :: [.mapping_end])) = .ok (txt', [.mapping_end])
      ∧ txt'.len = 255 * [chunk 255, chunk 255, chunk 10].length :=
  have hfit : 255 * [chunk 255, chunk 255, chunk 10].length ≤ 1024 := by decide
  (nextspf_sequence_run ⟨1024, 0, List.replicate 1024 ' '⟩
    [chunk 255, chunk 255, chunk 10] [.mapping_end] rfl sample_chunks hfit
    (le_of_eq sample_data_length.symm) sample_size_lt).elim
    fun txt' hrun =>
      ⟨txt', hrun.1, (nextspf_fixed_increment ⟨1024, 0, List.replicate 1024 ' '⟩ txt'
        [chunk 255, chunk 255, chunk 10] [.mapping_end] [.mapping_end] rfl hrun.1).1⟩

/-! ## Test builder: the result slots -/

theorem resultsOk_lone {t : struct_test} (h : t.ResultsOk) (v : String) :
    ({ t with result := t.result.set 0 (some v), rcount := 1 } : struct_test).ResultsOk := by
  obtain ⟨hlen, _, _⟩ := h
  refine ⟨by simp only [List.length_set]; exact hlen, Nat.le_succ 1, ?_⟩
  intro i hi
  have hi0 : i = 0 := by
    have : i < 1 := hi
    omega
  subst hi0
  exact ⟨v, by simp [List.getElem?_set, hlen]⟩

theorem resultsOk_next {t : struct_test} (h : t.ResultsOk) (hlt : t.rcount < 2) (v : String) :
    ({ t with result := t.result.set t.rcount (some v),
              rcount := t.rcount + 1 } : struct_test).ResultsOk := by
  obtain ⟨hlen, _, hslots⟩ := h
  refine ⟨by simp only [List.length_set]; exact hlen, by
    show t.rcount + 1 ≤ 2
    omega, ?_⟩
  intro i hi
  have hi' : i < t.rcount + 1 := hi
  by_cases heq : i = t.rcount
  · subst heq
    exact ⟨v, by simp [List.getElem?_set, hlen, hlt]⟩
  · obtain ⟨w, hw⟩ := hslots i (by omega)
    refine ⟨w, ?_⟩
    show (t.result.set t.rcount (some v))[i]? = some (some w)
    rw [List.getElem?_set_ne (Ne.symm heq)]
    exact hw

theorem nexttest_result_step_resultsOk (test : struct_test) (parser : yaml_parser_t)
    (x : struct_test ⊕ struct_test) (parser' : yaml_parser_t) (hI : test.ResultsOk)
    (h : nexttest_result_step test parser = .ok (x, parser')) :
    (∀ t, x = .inl t → t.ResultsOk) ∧ (∀ t, x = .inr t → t.ResultsOk) := by
  unfold nexttest_result_step at h
  cases hE : expect parser (SET [YAML_SCALAR_EVENT, YAML_SEQUENCE_END_EVENT]) with
  | ok r =>
    obtain ⟨e, p1⟩ := r
    rw [hE] at h
    cases e with
    | scalar v =>
      simp only at h
      split_ifs at h with hlt
      simp only [Outcome.ok.injEq, Prod.mk.injEq] at h
      obtain ⟨rfl, _⟩ := h
      refine ⟨fun t ht => ?_, fun t ht => by simp at ht⟩
      simp only [Sum.inl.injEq] at ht
      subst ht
      exact resultsOk_next hI hlt v
    | _ =>
      simp only [Outcome.ok.injEq, Prod.mk.injEq] at h
      obtain ⟨rfl, _⟩ := h
      refine ⟨fun t ht => by simp at ht, fun t ht => ?_⟩
      simp only [Sum.inr.injEq] at ht
      subst ht
      exact hI
  | fatal => rw [hE] at h; simp at h
  | undef => rw [hE] at h; simp at h
  | nofuel => rw [hE] at h; simp at h

theorem nexttest_result_resultsOk {test test' : struct_test} {parser parser' : yaml_parser_t}
    (hI : test.ResultsOk) (h : nexttest_result test parser = .ok (test', parser')) :
    test'.ResultsOk := by
  unfold nexttest_result at h
  cases hE : expect parser (SET [YAML_SCALAR_EVENT, YAML_SEQUENCE_START_EVENT]) with
  | ok r =>
    obtain ⟨e, p1⟩ := r
    rw [hE] at h
    cases e with
    | scalar v =>
      simp only [Outcome.ok.injEq, Prod.mk.injEq] at h
      obtain ⟨rfl, _⟩ := h
      exact resultsOk_lone hI v
    | _ =>
      simp only at h
      exact whileLoop_invariant nexttest_result_step_consumes
        struct_test.ResultsOk struct_test.ResultsOk
        (fun s p s' p' hs hst => (nexttest_result_step_resultsOk s p _ p' hs hst).1 s' rfl)
        (fun s p r p' hs hst => (nexttest_result_step_resultsOk s p _ p' hs hst).2 r rfl)
        _ _ _ _ _ (le_refl _) hI h
  | fatal => rw [hE] at h; simp at h
  | undef => rw [hE] at h; simp at h
  | nofuel => rw [hE] at h; simp at h

theorem nexttest_field_resultsOk {test test' : struct_test} {txt : String}
    {parser parser' : yaml_parser_t} (hI : test.ResultsOk)
    (h : nexttest_field test txt parser = .ok (test', parser')) : test'.ResultsOk := by
  unfold nexttest_field at h
  split_ifs at h
  all_goals
    first
    | exact nexttest_result_resultsOk hI h
    | (obtain ⟨r, _, h2⟩ := Outcome.bind_eq_ok h
       simp only [Outcome.ok.injEq, Prod.mk.injEq] at h2
       obtain ⟨rfl, _⟩ := h2
       exact hI)

theorem nexttest_step_resultsOk (test : struct_test) (parser : yaml_parser_t)
    (x : struct_test ⊕ struct_test) (parser' : yaml_parser_t) (hI : test.ResultsOk)
    (h : nexttest_step test parser = .ok (x, parser')) :
    (∀ t, x = .inl t → t.ResultsOk) ∧ (∀ t, x = .inr t → t.ResultsOk) := by
  unfold nexttest_step at h
  cases hE : expect parser (SET [YAML_SCALAR_EVENT, YAML_MAPPING_END_EVENT]) with
  | ok r =>
    obtain ⟨e, p1⟩ := r
    rw [hE] at h
    cases e with
    | scalar v =>
      simp only at h
      obtain ⟨⟨t1, p2⟩, h1, h2⟩ := Outcome.bind_eq_ok h
      simp only [Outcome.ok.injEq, Prod.mk.injEq] at h2
      obtain ⟨rfl, _⟩ := h2
      refine ⟨fun t ht => ?_, fun t ht => by simp at ht⟩
      simp only [Sum.inl.injEq] at ht
      subst ht
      exact nexttest_field_resultsOk hI h1
    | _ =>
      simp only [Outcome.ok.injEq, Prod.mk.injEq] at h
      obtain ⟨rfl, _⟩ := h
      refine ⟨fun t ht => by simp at ht, fun t ht => ?_⟩
      simp only [Sum.inr.injEq] at ht
      subst ht
      exact hI
  | fatal => rw [hE] at h; simp at h
  | undef => rw [hE] at h; simp at h
  | nofuel => rw [hE] at h; simp at h

/-- Every test that `nexttest` returns has its result slots in order. -/
theorem nexttest_resultsOk {parser rest : yaml_parser_t} {test : struct_test}
    (h : nexttest parser = .ok (some test, rest)) : test.ResultsOk := by
  unfold nexttest at h
  cases hE : expect parser (SET [YAML_SCALAR_EVENT, YAML_MAPPING_END_EVENT]) with
  | ok r =>
    obtain ⟨e, p1⟩ := r
    rw [hE] at h
    cases e with
    | scalar v =>
      simp only at h
      obtain ⟨p2, _, h2⟩ := Outcome.bind_eq_ok h
      obtain ⟨⟨t1, p3⟩, h3, h4⟩ := Outcome.bind_eq_ok h2
      simp only [Outcome.ok.injEq, Prod.mk.injEq, Option.some.injEq] at h4
      obtain ⟨rfl, _⟩ := h4
      exact whileLoop_invariant nexttest_step_consumes
        struct_test.ResultsOk struct_test.ResultsOk
        (fun s p s' p' hs hst => (nexttest_step_resultsOk s p _ p' hs hst).1 s' rfl)
        (fun s p r p' hs hst => (nexttest_step_resultsOk s p _ p' hs hst).2 r rfl)
        _ _ _ _ _ (le_refl _)
        (show struct_test.ResultsOk { name := some v } from
          ⟨rfl, Nat.zero_le 2, fun i hi => absurd hi (Nat.not_lt_zero i)⟩) h3
    | _ => simp at h
  | fatal => rw [hE] at h; simp at h
  | undef => rw [hE] at h; simp at h
  | nofuel => rw [hE] at h; simp at h

/-- C16, as stated, fails: after `result: [a, b]` and a second `result: c` the
count is 1 while slot 1 still holds `b`, so a slot at or above the count is
populated. -/
theorem nexttest_stale_result_slot :
    ∃ test, nexttest [.scalar "t", .mapping_start, .scalar "result", .sequence_start,
          .scalar "a", .scalar "b", .sequence_end, .scalar "result", .scalar "c",
          .mapping_end] = .ok (some test, [])
      ∧ test.rcount = 1 ∧ test.result[1]? = some (some "b") := by
  refine ⟨{ name := some "t", result := [some "c", some "b"], rcount := 1 }, ?_, rfl, rfl⟩
  rw [nexttest_scalar, discard_mapping_start, Outcome.bind_ok, nexttest_loop_scalar,
    nexttest_field_result, nexttest_result_sequence_start, nexttest_result_loop_scalar,
    if_pos (by simp), nexttest_result_loop_scalar, if_pos (by simp),
    nexttest_result_loop_end, Outcome.bind_ok, nexttest_loop_scalar, nexttest_field_result,
    nexttest_result_scalar, Outcome.bind_ok, nexttest_loop_end, Outcome.bind_ok]
  rfl

/-- C16, amended. Result-list invariant: for every event stream on which
`nexttest` returns a test, also when the `result` key occurs more than once or
with an empty sequence, the result count is at most 2 and every one of the
first `rcount` slots is populated (a slot at or above the count may still hold
a string left by an earlier `result` key). -/
theorem nexttest_result_slots (parser rest : yaml_parser_t) (test : struct_test)
    (h : nexttest parser = .ok (some test, rest)) :
    test.rcount ≤ 2 ∧ ∀ i, i < test.rcount → ∃ v, test.result[i]? = some (some v) :=
  (nexttest_resultsOk h).2

/-- C16, amended, at a test whose `result` key occurs twice. -/
theorem nexttest_result_slots_witness :
    nexttest [.scalar "t", .mapping_start, .scalar "result", .sequence_start,
        .scalar "a", .scalar "b", .sequence_end, .scalar "result", .scalar "c", .mapping_end]
        = .ok (some { name := some "t", result := [some "c", some "b"], rcount := 1 }, [])
      ∧ ((1 : Nat) ≤ 2 ∧ ∀ i, i < 1 → ∃ v, [some "c", some "b"][i]? = some (some v)) :=
  have hrun : nexttest [.scalar "t", .mapping_start, .scalar "result", .sequence_start,
      .scalar "a", .scalar "b", .sequence_end, .scalar "result", .scalar "c", .mapping_end]
      = .ok (some { name := some "t", result := [some "c", some "b"], rcount := 1 }, []) := by
    rw [nexttest_scalar, discard_mapping_start, Outcome.bind_ok, nexttest_loop_scalar,
      nexttest_field_result, nexttest_result_sequence_start, nexttest_result_loop_scalar,
      if_pos (by simp), nexttest_result_loop_scalar, if_pos (by simp),
      nexttest_result_loop_end, Outcome.bind_ok, nexttest_loop_scalar,
      nexttest_field_result, nexttest_result_scalar, Outcome.bind_ok, nexttest_loop_end,
      Outcome.bind_ok]
    rfl
  ⟨hrun, nexttest_result_slots _ _ _ hrun⟩

/-! ## Segmented text: the layout of the buffer -/

theorem padded_length {c : String} (hc : c.length ≤ 255) : (padded c).length = 255 := by
  have hcl : c.data.length = c.length := rfl
  unfold padded
  rw [List.length_append, List.length_replicate]
  omega

theorem flatMap_padded_length (cs : List String) (hcs : ∀ c ∈ cs, c.length ≤ 255) :
    (cs.flatMap padded).length = 255 * cs.length := by
  induction cs with
  | nil => rfl
  | cons c cs ih =>
    rw [List.flatMap_cons, List.length_append, padded_length (hcs c (List.mem_cons_self c cs)),
      ih (fun c' hc' => hcs c' (List.mem_cons_of_mem c hc')), List.length_cons]
    omega

/-- Copying a chunk to the end of the written part of a buffer whose rest is
spaces writes the chunk padded to 255 bytes. -/
theorem memcpy_padded {P : List Char} {K off : Nat} {c : String} (hoff : P.length = off)
    (hc : c.length ≤ 255) (hK : 255 ≤ K) :
    memcpy (P ++ List.replicate K ' ') off c.data
      = some ((P ++ padded c) ++ List.replicate (K - 255) ' ') := by
  have hcl : c.data.length = c.length := rfl
  subst hoff
  rw [memcpy_eq_some (by simp only [List.length_append, List.length_replicate]; omega),
    List.take_left, List.drop_append, List.drop_replicate]
  unfold padded
  rw [List.append_assoc, List.append_assoc, List.append_assoc,
    List.append_replicate_replicate]
  have hk : K - c.data.length = 255 - c.length + (K - 255) := by omega
  rw [hk]

theorem nextspf_loop_layout (cs : List String) :
    ∀ (txt txt' : dns_txt) (rest rest' : yaml_parser_t) (P : List Char) (K : Nat),
      txt.data = P ++ List.replicate K ' ' → P.length = txt.len →
      txt.len ≤ txt.size % SIZE_MOD → txt.size ≤ txt.len + K →
      whileLoop nextspf_step txt (cs.map .scalar ++ .sequence_end :: rest)
        = .ok (txt', rest') →
      txt'.data = P ++ cs.flatMap padded ++ List.replicate (K - 255 * cs.length) ' ' := by
  induction cs with
  | nil =>
    intro txt txt' rest rest' P K hdata _ _ _ h
    rw [List.map_nil, List.nil_append, nextspf_loop_end] at h
    simp only [Outcome.ok.injEq, Prod.mk.injEq] at h
    obtain ⟨rfl, _⟩ := h
    rw [hdata, List.flatMap_nil, List.append_nil, List.length_nil, Nat.mul_zero, Nat.sub_zero]
  | cons c cs ih =>
    intro txt txt' rest rest' P K hdata hP hinv hcap h
    rw [List.map_cons, List.cons_append, nextspf_loop_scalar] at h
    split_ifs at h with h1 h2
    obtain ⟨hadd, hle⟩ := size_add_255 hinv h1
    have hmod : txt.size % SIZE_MOD ≤ txt.size := Nat.mod_le _ _
    have hK : 255 ≤ K := by omega
    have hc : c.length ≤ 255 := by omega
    rw [hdata, memcpy_padded hP hc hK] at h
    simp only at h
    have hres := ih _ _ _ _ (P ++ padded c) (K - 255) rfl
      (by
        show (P ++ padded c).length = size_add txt.len 255
        rw [List.length_append, padded_length hc, hP, hadd])
      (by
        show size_add txt.len 255 ≤ txt.size % SIZE_MOD
        rw [hadd]; exact hle)
      (by
        show txt.size ≤ size_add txt.len 255 + (K - 255)
        rw [hadd]; omega)
      h
    have hk : K - 255 - 255 * cs.length = K - 255 * (cs.length + 1) := by omega
    rw [hres, hk, List.flatMap_cons, List.length_cons]
    simp only [List.append_assoc]

/-- C19. Buffer layout of `nextspf` in sequence form: for every sequence of
chunks `c1 .. cn` on which `nextspf` returns, started at length 0 on a record
whose capacity is within its data array, the first `255 * n` bytes of the data
are the concatenation of the chunks, each right-padded with spaces to exactly
255 bytes (every chunk has at most 255 bytes, so every padded chunk has 255
bytes and chunk `i` starts at offset `255 * (i - 1)`). -/
theorem nextspf_buffer_layout (txt txt' : dns_txt) (cs : List String)
    (rest rest' : yaml_parser_t) (hlen : txt.len = 0) (hbuf : txt.size ≤ txt.data.length)
    (h : nextspf txt (.sequence_start :: (cs.map .scalar ++ .sequence_end :: rest))
      = .ok (txt', rest')) :
    txt'.data.take (255 * cs.length) = cs.flatMap padded
      ∧ ∀ c ∈ cs, (padded c).length = 255 := by
  rw [nextspf_sequence_start] at h
  obtain ⟨_, _, _, _, hcs⟩ := nextspf_loop_len cs _ _ _ _
    (by simp only [hlen]; exact Nat.zero_le _) h
  have hdata := nextspf_loop_layout cs _ _ _ _ [] txt.data.length
    (List.nil_append _).symm (by simp only [hlen]; rfl)
    (by simp only [hlen]; exact Nat.zero_le _) (by simp only [hlen]; omega) h
  refine ⟨?_, fun c hc => padded_length (hcs c hc)⟩
  rw [hdata, List.nil_append]
  exact List.take_left' (flatMap_padded_length cs hcs)

/-- C19 at chunks of 255, 255 and 10 bytes in a record of 1024 bytes. -/
theorem nextspf_buffer_layout_witness :
    ∃ txt', nextspf ⟨1024, 0, List.replicate 1024 ' '⟩
          (.sequence_start :: ([chunk 255, chunk 255, chunk 10].map .scalar
            ++ .sequence_end :: [.mapping_end])) = .ok (txt', [.mapping_end])
      ∧ txt'.data.take (255 * [chunk 255, chunk 255, chunk 10].length)
          = [chunk 255, chunk 255, chunk 10].flatMap padded
      ∧ ∀ c ∈ [chunk 255, chunk 255, chunk 10], (padded c).length = 255 :=
  have hfit : 255 * [chunk 255, chunk 255, chunk 10].length ≤ 1024 := by decide
  (nextspf_sequence_run ⟨1024, 0, List.replicate 1024 ' '⟩
    [chunk 255, chunk 255, chunk 10] [.mapping_end] rfl sample_chunks hfit
    (le_of_eq sample_data_length.symm) sample_size_lt).elim
    fun txt' hrun =>
      ⟨txt', hrun.1, nextspf_buffer_layout ⟨1024, 0, List.replicate 1024 ' '⟩ txt'
        [chunk 255, chunk 255, chunk 10] [.mapping_end] [.mapping_end] rfl
        (le_of_eq sample_data_length.symm) hrun.1⟩

/-! ## Segmented text: the capacity -/

/-- One turn of the loop of `nextspf` keeps the length within the capacity and
leaves the capacity as it was. -/
theorem nextspf_step_capacity (t : dns_txt) (parser : yaml_parser_t)
    (x : dns_txt ⊕ dns_txt) (parser' : yaml_parser_t) (size : Nat) (hsize : size < SIZE_MOD)
    (hI : t.len ≤ t.size ∧ t.size = size)
    (h : nextspf_step t parser = .ok (x, parser')) :
    (∀ t', x = .inl t' → t'.len ≤ t'.size ∧ t'.size = size)
      ∧ (∀ t', x = .inr t' → t'.len ≤ t'.size ∧ t'.size = size) := by
  obtain ⟨hle, hsz⟩ := hI
  unfold nextspf_step at h
  cases hE : expect parser (SET [YAML_SCALAR_EVENT, YAML_SEQUENCE_END_EVENT]) with
  | ok r =>
    obtain ⟨e, p1⟩ := r
    rw [hE] at h
    cases e with
    | scalar v =>
      simp only at h
      split_ifs at h with h1 h2
      rw [size_sub_eq hle (by rw [hsz]; exact hsize)] at h1
      have hadd : size_add t.len 255 = t.len + 255 :=
        size_add_eq (by rw [hsz] at hle h1; omega)
      split at h
      · simp at h
      · simp only [Outcome.ok.injEq, Prod.mk.injEq] at h
        obtain ⟨rfl, _⟩ := h
        refine ⟨fun t' ht => ?_, fun t' ht => by simp at ht⟩
        simp only [Sum.inl.injEq] at ht
        subst ht
        refine ⟨?_, hsz⟩
        show size_add t.len 255 ≤ t.size
        rw [hadd]; omega
    | _ =>
      simp only [Outcome.ok.injEq, Prod.mk.injEq] at h
      obtain ⟨rfl, _⟩ := h
      refine ⟨fun t' ht => by simp at ht, fun t' ht => ?_⟩
      simp only [Sum.inr.injEq] at ht
      subst ht
      exact ⟨hle, hsz⟩
  | fatal => rw [hE] at h; simp at h
  | undef => rw [hE] at h; simp at h
  | nofuel => rw [hE] at h; simp at h

/-- Every state the loop of `nextspf` comes to has its length within the
capacity. -/
theorem nextspf_reaches_capacity {t0 t : dns_txt} {p0 p : yaml_parser_t}
    (hsize : t0.size < SIZE_MOD) (h0 : t0.len ≤ t0.size)
    (hr : LoopReaches nextspf_step t0 p0 t p) : t.len ≤ t.size ∧ t.size = t0.size := by
  induction hr with
  | start => exact ⟨h0, rfl⟩
  | turn _ hstep ih =>
    exact (nextspf_step_capacity _ _ _ _ t0.size hsize ih hstep).1 _ rfl

/-- A turn of the loop of `nextspf` that gets past its two assertions copies
within the capacity. -/
theorem nextspf_step_copy (t : dns_txt) (value : String) (parser : yaml_parser_t)
    (hle : t.len ≤ t.size) (hsize : t.size < SIZE_MOD)
    (h : nextspf_step t (.scalar value :: parser) ≠ .fatal) :
    t.len + value.length ≤ t.size := by
  rw [nextspf_step_scalar] at h
  by_cases h1 : size_sub t.size t.len < 255
  · rw [if_pos h1] at h
    exact absurd rfl h
  · by_cases h2 : 255 < value.length
    · rw [if_neg h1, if_pos h2] at h
      exact absurd rfl h
    · rw [size_sub_eq hle hsize] at h1
      omega

/-- C18. Capacity safety of `nextspf`, for every capacity in the range of
`size_t` and every event stream, started at logical length 0.  A lone scalar
that gets past the assertion is copied to offsets below the capacity.  In
every state the loop over a value sequence comes to, the length is within the
capacity, so the subtraction `size - len` of the capacity check does not wrap,
and a chunk that gets past the two assertions is copied to offsets below the
capacity (`len + length <= size`).  Whenever `nextspf` returns, the logical
length is at most the capacity. -/
theorem nextspf_capacity_safe (txt t txt' : dns_txt) (value : String)
    (parser p rest : yaml_parser_t) (hlen : txt.len = 0) (hsize : txt.size < SIZE_MOD) :
    (nextspf txt (.scalar value :: p) ≠ .fatal → 0 + value.length ≤ txt.size)
      ∧ (LoopReaches nextspf_step { txt with data := List.replicate txt.data.length ' ' }
            parser t (.scalar value :: p) →
          t.size = txt.size ∧ t.len ≤ t.size ∧ size_sub t.size t.len = t.size - t.len
            ∧ (nextspf_step t (.scalar value :: p) ≠ .fatal →
                t.len + value.length ≤ t.size))
      ∧ (nextspf txt parser = .ok (txt', rest) → txt'.len ≤ txt'.size) := by
  refine ⟨?_, ?_, ?_⟩
  · intro h
    rw [nextspf_scalar] at h
    by_cases hlt : value.length < txt.size
    · omega
    · rw [if_neg hlt] at h
      exact absurd rfl h
  · intro hr
    obtain ⟨hle, hsz⟩ := nextspf_reaches_capacity
      (show ({ txt with data := List.replicate txt.data.length ' ' } : dns_txt).size < SIZE_MOD
        from hsize)
      (show ({ txt with data := List.replicate txt.data.length ' ' } : dns_txt).len
          ≤ ({ txt with data := List.replicate txt.data.length ' ' } : dns_txt).size
        from by rw [show ({ txt with data := List.replicate txt.data.length ' ' } : dns_txt).len
          = txt.len from rfl, hlen]; exact Nat.zero_le _) hr
    have hsz' : t.size = txt.size := hsz
    have ht : t.size < SIZE_MOD := by rw [hsz']; exact hsize
    exact ⟨hsz', hle, size_sub_eq hle ht, nextspf_step_copy t value p hle ht⟩
  · intro h
    unfold nextspf at h
    cases hE : expect parser (SET [YAML_SCALAR_EVENT, YAML_SEQUENCE_START_EVENT]) with
    | ok r =>
      obtain ⟨e, p1⟩ := r
      rw [hE] at h
      cases e with
      | scalar v =>
        simp only at h
        split_ifs at h with hlt
        split at h
        · simp at h
        · simp only [Outcome.ok.injEq, Prod.mk.injEq] at h
          obtain ⟨rfl, _⟩ := h
          exact Nat.le_of_lt hlt
      | _ =>
        simp only at h
        exact (whileLoop_invariant nextspf_step_consumes
          (fun s => s.len ≤ s.size ∧ s.size = txt.size)
          (fun s => s.len ≤ s.size ∧ s.size = txt.size)
          (fun s q s' q' hs hst => (nextspf_step_capacity s q _ q' txt.size hsize hs hst).1 s' rfl)
          (fun s q r q' hs hst => (nextspf_step_capacity s q _ q' txt.size hsize hs hst).2 r rfl)
          _ _ _ _ _ (le_refl _)
          (show ({ txt with data := List.replicate txt.data.length ' ' } : dns_txt).len
              ≤ txt.size ∧ txt.size = txt.size
            from ⟨by rw [show ({ txt with data := List.replicate txt.data.length ' ' }
              : dns_txt).len = txt.len from rfl, hlen]; exact Nat.zero_le _, rfl⟩) h).1
    | fatal => rw [hE] at h; simp at h
    | undef => rw [hE] at h; simp at h
    | nofuel => rw [hE] at h; simp at h

/-- C18 at a record of 1024 bytes: the first state of the loop, and the run
over chunks of 255, 255 and 10 bytes. -/
theorem nextspf_capacity_safe_witness :
    ((1024 : Nat) = 1024 ∧ (0 : Nat) ≤ 1024 ∧ size_sub 1024 0 = 1024 - 0
        ∧ (nextspf_step ⟨1024, 0, List.replicate (List.replicate 1024 ' ').length ' '⟩
              (.scalar (chunk 10) :: [.sequence_end]) ≠ .fatal →
            0 + (chunk 10).length ≤ 1024))
      ∧ ∃ txt', nextspf ⟨1024, 0, List.replicate 1024 ' '⟩
            (.sequence_start :: ([chunk 255, chunk 255, chunk 10].map .scalar
              ++ .sequence_end :: [.mapping_end])) = .ok (txt', [.mapping_end])
          ∧ txt'.len ≤ txt'.size :=
  have hfit : 255 * [chunk 255, chunk 255, chunk 10].length ≤ 1024 := by decide
  ⟨(nextspf_capacity_safe ⟨1024, 0, List.replicate 1024 ' '⟩
      ⟨1024, 0, List.replicate (List.replicate 1024 ' ').length ' '⟩
      ⟨1024, 0, List.replicate 1024 ' '⟩ (chunk 10)
      (.scalar (chunk 10) :: [.sequence_end]) [.sequence_end] [] rfl sample_size_lt).2.1
      (LoopReaches.start _ _),
   (nextspf_sequence_run ⟨1024, 0, List.replicate 1024 ' '⟩
      [chunk 255, chunk 255, chunk 10] [.mapping_end] rfl sample_chunks hfit
      (le_of_eq sample_data_length.symm) sample_size_lt).elim
      fun txt' hrun =>
        ⟨txt', hrun.1, (nextspf_capacity_safe ⟨1024, 0, List.replicate 1024 ' '⟩
          ⟨1024, 0, List.replicate 1024 ' '⟩ txt' (chunk 10) _ [] [.mapping_end] rfl
          sample_size_lt).2.2 hrun.1⟩⟩

/-! ## Zone builder: the insertions of a whole zone -/

theorem nextspf_loop_local {items : List yaml_event_t} (hitems : IsNodes items) :
    ∀ (txt txt' : dns_txt) (r p : yaml_parser_t),
      whileLoop nextspf_step txt (items ++ .sequence_end :: r) = .ok (txt', p) →
      ∀ r' : yaml_parser_t,
        whileLoop nextspf_step txt (items ++ .sequence_end :: r') = .ok (txt', r') := by
  induction hitems with
  | nil =>
    intro txt txt' r p h r'
    rw [List.nil_append, nextspf_loop_end] at h ⊢
    simp only [Outcome.ok.injEq, Prod.mk.injEq] at h
    obtain ⟨rfl, _⟩ := h
    rfl
  | scalar value _ ih =>
    intro txt txt' r p h r'
    rw [List.cons_append, nextspf_loop_scalar] at h ⊢
    split_ifs at h with h1 h2
    rw [if_neg h1, if_neg h2]
    cases hm : memcpy txt.data txt.len value.data with
    | none => rw [hm] at h; simp at h
    | some data =>
      rw [hm] at h
      exact ih _ _ _ _ h r'
  | aliased _ _ =>
    intro txt txt' r p h
    rw [List.cons_append, nextspf_loop_not_scalar _ _ _ (by simp [yaml_event_t.type])] at h
    simp at h
  | sequence _ _ _ _ =>
    intro txt txt' r p h
    rw [List.cons_append, nextspf_loop_not_scalar _ _ _ (by simp [yaml_event_t.type])] at h
    simp at h
  | mapping _ _ _ _ =>
    intro txt txt' r p h
    rw [List.cons_append, nextspf_loop_not_scalar _ _ _ (by simp [yaml_event_t.type])] at h
    simp at h

/-- What `nextspf` makes of a value node does not depend on what follows it. -/
theorem nextspf_local {value : List yaml_event_t} (hv : IsNode value) (txt txt' : dns_txt)
    (r p : yaml_parser_t) (h : nextspf txt (value ++ r) = .ok (txt', p))
    (r' : yaml_parser_t) : nextspf txt (value ++ r') = .ok (txt', r') := by
  cases hv with
  | scalar v =>
    rw [List.singleton_append, nextspf_scalar] at h ⊢
    split_ifs at h with hlt
    rw [if_pos hlt]
    cases hm : memcpy (List.replicate txt.data.length ' ') 0 v.data with
    | none => rw [hm] at h; simp at h
    | some data =>
      rw [hm] at h
      simp only [Outcome.ok.injEq, Prod.mk.injEq] at h
      obtain ⟨rfl, _⟩ := h
      rfl
  | aliased =>
    rw [List.singleton_append, nextspf_not_value _ _ _ (by simp [yaml_event_t.type])] at h
    simp at h
  | sequence hitems =>
    rw [List.cons_append, List.append_assoc, List.singleton_append,
      nextspf_sequence_start] at h ⊢
    exact nextspf_loop_local hitems _ _ _ _ h r'
  | mapping hitems =>
    rw [List.cons_append, nextspf_not_value _ _ _ (by simp [yaml_event_t.type])] at h
    simp at h

/-- The value of a mail-exchange entry that the `DNS_T_MX` case reads to the
end is a sequence of two scalars. -/
theorem nextzonedata_mx_shape (lib : Library) {value : List yaml_event_t} (hv : IsNode value)
    {r parser' : yaml_parser_t} {any : Option dns_any}
    (h : nextzonedata_switch lib DNS_T_MX (value ++ r) = .ok (any, parser')) :
    ∃ preference host,
      value = [.sequence_start, .scalar preference, .scalar host, .sequence_end] := by
  rw [nextzonedata_switch_mx_head] at h
  cases hv with
  | scalar v =>
    rw [List.singleton_append, discard_not _ _ _ (by simp [type_scalar])] at h
    simp at h
  | aliased =>
    rw [List.singleton_append, discard_not _ _ _ (by simp [yaml_event_t.type])] at h
    simp at h
  | mapping _ =>
    rw [List.cons_append, discard_not _ _ _ (by simp [yaml_event_t.type])] at h
    simp at h
  | sequence hitems =>
    rw [List.cons_append, discard_sequence_start, Outcome.bind_ok, List.append_assoc] at h
    cases hitems with
    | nil =>
      rw [List.nil_append, List.singleton_append,
        expect_not_scalar _ _ (by simp [yaml_event_t.type])] at h
      simp at h
    | aliased _ =>
      rw [List.cons_append, expect_not_scalar _ _ (by simp [yaml_event_t.type])] at h
      simp at h
    | sequence _ _ =>
      rw [List.cons_append, expect_not_scalar _ _ (by simp [yaml_event_t.type])] at h
      simp at h
    | mapping _ _ =>
      rw [List.cons_append, expect_not_scalar _ _ (by simp [yaml_event_t.type])] at h
      simp at h
    | scalar preference hitems =>
      rw [List.cons_append, expect_scalar] at h
      simp only at h
      cases hitems with
      | nil =>
        rw [List.nil_append, List.singleton_append,
          expect_not_scalar _ _ (by simp [yaml_event_t.type])] at h
        simp at h
      | aliased _ =>
        rw [List.cons_append, expect_not_scalar _ _ (by simp [yaml_event_t.type])] at h
        simp at h
      | sequence _ _ =>
        rw [List.cons_append, expect_not_scalar _ _ (by simp [yaml_event_t.type])] at h
        simp at h
      | mapping _ _ =>
        rw [List.cons_append, expect_not_scalar _ _ (by simp [yaml_event_t.type])] at h
        simp at h
      | scalar host hitems =>
        rw [List.cons_append, expect_scalar] at h
        simp only at h
        cases hitems with
        | nil => exact ⟨preference, host, rfl⟩
        | scalar _ _ =>
          rw [List.cons_append, discard_not _ _ _ (by simp [type_scalar])] at h
          simp at h
        | aliased _ =>
          rw [List.cons_append, discard_not _ _ _ (by simp [yaml_event_t.type])] at h
          simp at h
        | sequence _ _ =>
          rw [List.cons_append, discard_not _ _ _ (by simp [yaml_event_t.type])] at h
          simp at h
        | mapping _ _ =>
          rw [List.cons_append, discard_not _ _ _ (by simp [yaml_event_t.type])] at h
          simp at h

/-- In the cases of the `switch` that read one scalar, what is decoded from
the scalar does not depend on what follows it. -/
theorem nextzonedata_switch_lone (lib : Library) (rrtype : Nat) (v : String)
    (r r' p : yaml_parser_t) (any : Option dns_any) (hmx : rrtype ≠ DNS_T_MX)
    (htxt : ¬ (rrtype = DNS_T_SPF ∨ rrtype = DNS_T_TXT))
    (h : nextzonedata_switch lib rrtype (.scalar v :: r) = .ok (any, p)) :
    nextzonedata_switch lib rrtype (.scalar v :: r') = .ok (any, r') := by
  by_cases hA : rrtype = DNS_T_A
  · subst hA
    rw [nextzonedata_switch_a] at h ⊢
    cases hp : lib.inet_pton AF_INET v with
    | none => rw [hp] at h; simp at h
    | some addr =>
      rw [hp] at h
      simp only [Outcome.ok.injEq, Prod.mk.injEq] at h
      obtain ⟨rfl, _⟩ := h
      rfl
  · by_cases hAAAA : rrtype = DNS_T_AAAA
    · subst hAAAA
      rw [nextzonedata_switch_aaaa] at h ⊢
      cases hp : lib.inet_pton AF_INET6 v with
      | none => rw [hp] at h; simp at h
      | some addr =>
        rw [hp] at h
        simp only [Outcome.ok.injEq, Prod.mk.injEq] at h
        obtain ⟨rfl, _⟩ := h
        rfl
    · by_cases hPTR : rrtype = DNS_T_PTR
      · subst hPTR
        rw [nextzonedata_switch_ptr] at h ⊢
        by_cases hd : (lib.dns_d_init v).1 = true
        · rw [if_pos hd] at h ⊢
          simp only [Outcome.ok.injEq, Prod.mk.injEq] at h
          obtain ⟨rfl, _⟩ := h
          rfl
        · rw [if_neg hd] at h ⊢
          simp only [Outcome.ok.injEq, Prod.mk.injEq] at h
          obtain ⟨rfl, _⟩ := h
          rfl
      · have hother : rrtype ∉ [DNS_T_A, DNS_T_AAAA, DNS_T_PTR, DNS_T_MX, DNS_T_SPF,
            DNS_T_TXT] := by
          simp only [List.mem_cons, List.mem_singleton, List.not_mem_nil, or_false, not_or]
          exact ⟨hA, hAAAA, hPTR, hmx, fun hs => htxt (Or.inl hs), fun ht => htxt (Or.inr ht)⟩
        rw [nextzonedata_switch_other lib _ _ hother, discard_scalar, Outcome.bind_ok] at h ⊢
        simp only [Outcome.ok.injEq, Prod.mk.injEq] at h
        obtain ⟨rfl, _⟩ := h
        rfl

/-- The cases of the `switch` that read one scalar end the run at any other
event. -/
theorem nextzonedata_switch_not_scalar (lib : Library) (rrtype : Nat) (event : yaml_event_t)
    (r : yaml_parser_t) (hmx : rrtype ≠ DNS_T_MX)
    (htxt : ¬ (rrtype = DNS_T_SPF ∨ rrtype = DNS_T_TXT))
    (he : ¬ (event.type = YAML_SCALAR_EVENT ∨ event.type = 0)) :
    nextzonedata_switch lib rrtype (event :: r) = .fatal := by
  by_cases hA : rrtype = DNS_T_A
  · rw [nextzonedata_switch, if_pos hA, expect_not_scalar _ _ he]
  · by_cases hAAAA : rrtype = DNS_T_AAAA
    · rw [nextzonedata_switch, if_neg hA, if_pos hAAAA, expect_not_scalar _ _ he]
    · by_cases hPTR : rrtype = DNS_T_PTR
      · rw [nextzonedata_switch, if_neg hA, if_neg hAAAA, if_pos hPTR,
          expect_not_scalar _ _ he]
      · rw [nextzonedata_switch, if_neg hA, if_neg hAAAA, if_neg hPTR, if_neg hmx,
          if_neg htxt, discard_not _ _ _ he, Outcome.bind_fatal]

/-- In the cases of the `switch` that read one scalar, a value node that is
read is a lone scalar. -/
theorem nextzonedata_switch_shape (lib : Library) (rrtype : Nat) {value : List yaml_event_t}
    (hv : IsNode value) {r p : yaml_parser_t} {any : Option dns_any}
    (hmx : rrtype ≠ DNS_T_MX) (htxt : ¬ (rrtype = DNS_T_SPF ∨ rrtype = DNS_T_TXT))
    (h : nextzonedata_switch lib rrtype (value ++ r) = .ok (any, p)) :
    ∃ v, value = [.scalar v] := by
  cases hv with
  | scalar v => exact ⟨v, rfl⟩
  | aliased =>
    rw [List.singleton_append, nextzonedata_switch_not_scalar lib rrtype _ _ hmx htxt
      (by simp [yaml_event_t.type])] at h
    simp at h
  | sequence _ =>
    rw [List.cons_append, nextzonedata_switch_not_scalar lib rrtype _ _ hmx htxt
      (by simp [yaml_event_t.type])] at h
    simp at h
  | mapping _ =>
    rw [List.cons_append, nextzonedata_switch_not_scalar lib rrtype _ _ hmx htxt
      (by simp [yaml_event_t.type])] at h
    simp at h

/-- What the `switch` decodes from a value node does not depend on what
follows the node. -/
theorem nextzonedata_switch_local (lib : Library) (rrtype : Nat) {value : List yaml_event_t}
    (hv : IsNode value) {r p : yaml_parser_t} {any : Option dns_any}
    (h : nextzonedata_switch lib rrtype (value ++ r) = .ok (any, p)) (r' : yaml_parser_t) :
    nextzonedata_switch lib rrtype (value ++ r') = .ok (any, r') := by
  by_cases hmx : rrtype = DNS_T_MX
  · subst hmx
    obtain ⟨preference, host, rfl⟩ := nextzonedata_mx_shape lib hv h
    simp only [List.cons_append, List.nil_append] at h ⊢
    rw [nextzonedata_switch_mx] at h ⊢
    by_cases hh : host.length = 0
    · rw [if_pos hh] at h ⊢
      simp only [Outcome.ok.injEq, Prod.mk.injEq] at h
      obtain ⟨rfl, _⟩ := h
      rfl
    · rw [if_neg hh] at h ⊢
      simp only [Outcome.ok.injEq, Prod.mk.injEq] at h
      obtain ⟨rfl, _⟩ := h
      rfl
  · by_cases htxt : rrtype = DNS_T_SPF ∨ rrtype = DNS_T_TXT
    · rw [nextzonedata_switch_txt lib rrtype _ htxt] at h ⊢
      obtain ⟨⟨t, q⟩, h1, h2⟩ := Outcome.bind_eq_ok h
      rw [nextspf_local hv _ _ _ _ h1 r', Outcome.bind_ok]
      simp only [Outcome.ok.injEq, Prod.mk.injEq] at h2
      obtain ⟨rfl, _⟩ := h2
      rfl
    · obtain ⟨v, rfl⟩ := nextzonedata_switch_shape lib rrtype hv hmx htxt h
      exact nextzonedata_switch_lone lib rrtype v r r' p any hmx htxt h

/-- One record entry with a complete value node: when its processing returns,
the events left are those after the entry and the store has grown by the
insertions the entry stands for. -/
theorem nextzonedata_record_inserted (lib : Library) (rrname tag : String)
    (value : List yaml_event_t) (zonedata zonedata' : cache) (rest rest' : yaml_parser_t)
    (hv : IsNode value)
    (h : nextzonedata_record lib rrname zonedata
          (.scalar tag :: (value ++ .mapping_end :: rest)) = .ok (zonedata', rest')) :
    rest' = rest ∧ zonedata' = zonedata ++ ZoneElem.inserted lib rrname (.entry tag value) := by
  rw [nextzonedata_record_scalar] at h
  split_ifs at h
  obtain ⟨⟨any, p⟩, h1, h2⟩ := Outcome.bind_eq_ok h
  have hp := nextzonedata_switch_node lib _ hv h1
  subst hp
  have hloc := nextzonedata_switch_local lib _ hv h1 []
  rw [List.append_nil] at hloc
  have hdec : ZoneElem.decoded lib (.entry tag value) = any := by
    rw [ZoneElem.decoded, hloc]
  rw [ZoneElem.inserted, hdec]
  cases any with
  | none =>
    simp only at h2
    rw [discard_mapping_end, Outcome.bind_ok] at h2
    simp only [Outcome.ok.injEq, Prod.mk.injEq] at h2
    exact ⟨h2.2.symm, by rw [← h2.1, List.append_nil]⟩
  | some a =>
    simp only at h2
    split_ifs at h2
    rw [discard_mapping_end, Outcome.bind_ok] at h2
    simp only [Outcome.ok.injEq, Prod.mk.injEq] at h2
    exact ⟨h2.2.symm, h2.1.symm⟩

/-- The record list of one owner name. -/
theorem nextzonedata_records_inserted (lib : Library) (rrname : String)
    (elems : List ZoneElem) :
    ∀ (zonedata zonedata' : cache) (rest rest' : yaml_parser_t),
      (∀ e ∈ elems, e.WellFormed) →
      nextzonedata_records lib rrname zonedata
          (elems.flatMap ZoneElem.events ++ .sequence_end :: rest) = .ok (zonedata', rest') →
      rest' = rest ∧ zonedata' = zonedata ++ elems.flatMap (ZoneElem.inserted lib rrname) := by
  induction elems with
  | nil =>
    intro zonedata zonedata' rest rest' _ h
    rw [List.flatMap_nil, List.nil_append, nextzonedata_records_end] at h
    simp only [Outcome.ok.injEq, Prod.mk.injEq] at h
    exact ⟨h.2.symm, by rw [List.flatMap_nil, List.append_nil, h.1]⟩
  | cons e es ih =>
    intro zonedata zonedata' rest rest' hwf h
    have hes : ∀ e' ∈ es, e'.WellFormed := fun e' he' => hwf e' (List.mem_cons_of_mem e he')
    have he := hwf e (List.mem_cons_self e es)
    rw [List.flatMap_cons, List.append_assoc] at h
    cases e with
    | bare value =>
      rw [ZoneElem.events, List.singleton_append, nextzonedata_records_scalar] at h
      obtain ⟨hr, hz⟩ := ih _ _ _ _ hes h
      exact ⟨hr, by rw [hz, List.flatMap_cons, ZoneElem.inserted, List.nil_append]⟩
    | entry tag value =>
      rw [ZoneElem.events, List.cons_append, List.cons_append, List.append_assoc,
        List.singleton_append, nextzonedata_records_mapping_start] at h
      obtain ⟨⟨z1, p1⟩, h1, h2⟩ := Outcome.bind_eq_ok h
      obtain ⟨hp1, hz1⟩ := nextzonedata_record_inserted lib rrname tag value zonedata z1 _ p1
        he h1
      simp only at h2
      rw [hp1] at h2
      obtain ⟨hr, hz⟩ := ih _ _ _ _ hes h2
      exact ⟨hr, by rw [hz, hz1, List.flatMap_cons, List.append_assoc]⟩

/-- The loop over the owner names of a zone. -/
theorem nextzonedata_loop_inserted (lib : Library) (zone : List (String × List ZoneElem)) :
    ∀ (zonedata zonedata' : cache) (rest rest' : yaml_parser_t),
      (∀ o ∈ zone, ∀ e ∈ o.2, e.WellFormed) →
      whileLoop (nextzonedata_step lib) zonedata
          (zone.flatMap ownerEvents ++ .mapping_end :: rest) = .ok (zonedata', rest') →
      rest' = rest ∧ zonedata' = zonedata ++ zoneInserted lib zone := by
  induction zone with
  | nil =>
    intro zonedata zonedata' rest rest' _ h
    rw [List.flatMap_nil, List.nil_append, nextzonedata_loop_end] at h
    simp only [Outcome.ok.injEq, Prod.mk.injEq] at h
    exact ⟨h.2.symm, by rw [zoneInserted, List.flatMap_nil, List.append_nil, h.1]⟩
  | cons o os ih =>
    intro zonedata zonedata' rest rest' hwf h
    have hos : ∀ o' ∈ os, ∀ e ∈ o'.2, e.WellFormed :=
      fun o' ho' => hwf o' (List.mem_cons_of_mem o ho')
    have ho := hwf o (List.mem_cons_self o os)
    rw [List.flatMap_cons, List.append_assoc, ownerEvents, List.cons_append, List.cons_append,
      List.append_assoc, List.singleton_append, nextzonedata_loop_scalar] at h
    obtain ⟨⟨z1, p1⟩, h1, h2⟩ := Outcome.bind_eq_ok h
    obtain ⟨hp1, hz1⟩ := nextzonedata_records_inserted lib _ o.2 zonedata z1 _ p1 ho h1
    simp only at h2
    rw [hp1] at h2
    obtain ⟨hr, hz⟩ := ih _ _ _ _ hos h2
    refine ⟨hr, ?_⟩
    rw [hz, hz1, zoneInserted, zoneInserted, List.flatMap_cons, List.append_assoc]

/-- C15. Zone builder insertions: for every zone mapping (owner names, each
with a list whose elements are bare scalars or record entries with a complete
value node) that `nextzonedata` processes without fatal termination, the store
returned is exactly the sequence of insertions the zone stands for: one record
(anchored owner name, record type, ttl 3600, decoded record) for every entry
that decodes, in document order and under the owner name the entry appears
beneath, and nothing for a skipped entry or a bare scalar; the events left are
those after the zone mapping. -/
theorem nextzonedata_insertions (lib : Library) (zone : List (String × List ZoneElem))
    (hwf : ∀ o ∈ zone, ∀ e ∈ o.2, e.WellFormed) (zonedata : cache)
    (rest rest' : yaml_parser_t)
    (h : nextzonedata lib (zoneEvents zone ++ rest) = .ok (zonedata, rest')) :
    zonedata = zoneInserted lib zone ∧ rest' = rest := by
  unfold nextzonedata at h
  split_ifs at h
  rw [zoneEvents, List.cons_append, List.append_assoc, List.singleton_append,
    discard_mapping_start, Outcome.bind_ok] at h
  obtain ⟨hr, hz⟩ := nextzonedata_loop_inserted lib zone [] zonedata rest rest' hwf h
  exact ⟨by rw [hz, List.nil_append], hr⟩

/-- C15 at a zone with two owner names: an address, a bare scalar, a skipped
`NS` entry and a mail exchanger with priority `70000`, stored as 4464, under
the first, a pointer under the second. -/
theorem nextzonedata_insertions_witness :
    nextzonedata sampleLibrary (zoneEvents
        [("example.com", [.entry "A" [.scalar "192.0.2.1"], .bare "junk",
            .entry "NS" [.scalar "ns.example.com"],
            .entry "MX" [.sequence_start, .scalar "70000", .scalar "mail.example.com",
              .sequence_end]]),
         ("1.2.0.192.in-addr.arpa", [.entry "PTR" [.scalar "example.com"]])]
        ++ [.mapping_end, .document_end])
        = .ok ([⟨"example.com.", DNS_T_A, 3600, .a [192, 0, 2, 1]⟩,
                ⟨"example.com.", DNS_T_MX, 3600, .mx 4464 "mail.example.com."⟩,
                ⟨"1.2.0.192.in-addr.arpa.", DNS_T_PTR, 3600, .ptr "example.com."⟩],
               [.mapping_end, .document_end])
      ∧ ([⟨"example.com.", DNS_T_A, 3600, .a [192, 0, 2, 1]⟩,
          ⟨"example.com.", DNS_T_MX, 3600, .mx 4464 "mail.example.com."⟩,
          ⟨"1.2.0.192.in-addr.arpa.", DNS_T_PTR, 3600, .ptr "example.com."⟩]
          = zoneInserted sampleLibrary
              [("example.com", [.entry "A" [.scalar "192.0.2.1"], .bare "junk",
                  .entry "NS" [.scalar "ns.example.com"],
                  .entry "MX" [.sequence_start, .scalar "70000", .scalar "mail.example.com",
                    .sequence_end]]),
               ("1.2.0.192.in-addr.arpa", [.entry "PTR" [.scalar "example.com"]])]
        ∧ [yaml_event_t.mapping_end, .document_end] = [.mapping_end, .document_end]) :=
  have hrun : nextzonedata sampleLibrary (zoneEvents
      [("example.com", [.entry "A" [.scalar "192.0.2.1"], .bare "junk",
          .entry "NS" [.scalar "ns.example.com"],
          .entry "MX" [.sequence_start, .scalar "70000", .scalar "mail.example.com",
            .sequence_end]]),
       ("1.2.0.192.in-addr.arpa", [.entry "PTR" [.scalar "example.com"]])]
      ++ [.mapping_end, .document_end])
      = .ok ([⟨"example.com.", DNS_T_A, 3600, .a [192, 0, 2, 1]⟩,
              ⟨"example.com.", DNS_T_MX, 3600, .mx 4464 "mail.example.com."⟩,
              ⟨"1.2.0.192.in-addr.arpa.", DNS_T_PTR, 3600, .ptr "example.com."⟩],
             [.mapping_end, .document_end]) := by
    decide
  ⟨hrun, nextzonedata_insertions sampleLibrary _
    (by
      intro o ho e he
      simp only [List.mem_cons, List.mem_singleton, List.not_mem_nil, or_false] at ho
      rcases ho with rfl | rfl
      · simp only [List.mem_cons, List.mem_singleton, List.not_mem_nil, or_false] at he
        rcases he with rfl | rfl | rfl | rfl
        · exact IsNode.scalar _
        · exact True.intro
        · exact IsNode.scalar _
        · exact IsNode.sequence (IsNodes.scalar _ (IsNodes.scalar _ IsNodes.nil))
      · simp only [List.mem_singleton] at he
        subst he
        exact IsNode.scalar _)
    _ _ _ hrun⟩

end Rfc4408
